import Mathlib

/-!
Verification of the voronoi-rs core against its specification.

Shallow embedding conventions:
* `f64` coordinates are modelled as `ℚ`; the only operation on doubles that
  has no exact rational counterpart, `f64::sqrt`, is passed in as an explicit
  function argument `sqrtF : ℚ → ℚ` wherever the source calls `.sqrt()`.
* Rust panics are modelled as `Except String` errors.
* `slab::Slab` is modelled with its vacant-slot free list, `HashMap` as an
  association list, `Vec` as `List`.
* Loops and non-structural recursion from the source are modelled with a
  `fuel` parameter; running out of fuel is an error, so every `.ok` result
  corresponds to a real terminating execution of the source.
-/

namespace Voro

/-- `EPSILON` from math_helpers.rs (1.00e-12). -/
def EPSILON : ℚ := 1 / 1000000000000

/-- math_helpers.rs `equals_with_epsilon`. -/
def equals_with_epsilon (a b : ℚ) : Bool := decide (|a - b| < EPSILON)

/-- math_helpers.rs `breakpoint_between`.  The local `sq` is the source's
`sqrt` variable, which is the *negated* square root. -/
def breakpoint_between (sqrtF : ℚ → ℚ) (x1 y1 x2 y2 directrix : ℚ) : ℚ :=
  if equals_with_epsilon y1 y2 then
    (x1 + x2) / 2
  else
    let s := directrix
    let sq := -(sqrtF ((s*s - s*y1 - s*y2 + y1*y2) *
      (x1*x1 - 2*x1*x2 + x2*x2 + y1*y1 - 2*y1*y2 + y2*y2)))
    (-sq + s*x1 - s*x2 - x1*y2 + x2*y1) / (y1 - y2)

/-- math_helpers.rs `find_center`. -/
def find_center (sqrtF : ℚ → ℚ) (x1 y1 x2 y2 x3 y3 : ℚ) : Option (ℚ × ℚ × ℚ) :=
  let temp := x2 * x2 + y2 * y2
  let bc := (x1 * x1 + y1 * y1 - temp) / 2
  let cd := (temp - x3 * x3 - y3 * y3) / 2
  let det := (x1 - x2) * (y2 - y3) - (x2 - x3) * (y1 - y2)
  if |det| < EPSILON then none
  else
    let cx := (bc * (y2 - y3) - cd * (y1 - y2)) / det
    let cy := ((x1 - x2) * cd - (x2 - x3) * bc) / det
    let dx := cx - x1
    let dy := cy - y1
    let rad := sqrtF (dx*dx + dy*dy)
    some (cx, cy, rad)

/-- The breakpoint formula exactly as the specification states it
(§4.1): minus the square root of
`(s²−s·y1−s·y2+y1·y2)·((x1−x2)²+(y1−y2)²)`.  This definition follows the
spec's words, to be compared with `breakpoint_between` from the source. -/
def breakpoint_spec_formula (sqrtF : ℚ → ℚ) (x1 y1 x2 y2 s : ℚ) : ℚ :=
  if equals_with_epsilon y1 y2 then
    (x1 + x2) / 2
  else
    (-(sqrtF ((s*s - s*y1 - s*y2 + y1*y2) * ((x1-x2)^2 + (y1-y2)^2)))
      + s*x1 - s*x2 - x1*y2 + x2*y1) / (y1 - y2)

/-- The corrected breakpoint formula: the source's double negation makes the
square-root term enter with a *plus* sign. -/
def breakpoint_amended_formula (sqrtF : ℚ → ℚ) (x1 y1 x2 y2 s : ℚ) : ℚ :=
  if equals_with_epsilon y1 y2 then
    (x1 + x2) / 2
  else
    (sqrtF ((s*s - s*y1 - s*y2 + y1*y2) * ((x1-x2)^2 + (y1-y2)^2))
      + s*x1 - s*x2 - x1*y2 + x2*y1) / (y1 - y2)

/-- A square-root table sufficient for the concrete inputs used in
counterexamples: it agrees with `f64::sqrt` on the perfect squares 25 and 36
and is irrelevant elsewhere. -/
def sqrtT : ℚ → ℚ := fun q => if q = 25 then 5 else if q = 36 then 6 else 0

/-- Claim C6 (counterexample): at foci (0,0), (0,3) and directrix 4 the
radical is 36, and the source returns `(+6 + 0)/(0−3) = −2` while the claimed
formula with `−√` gives `(−6 + 0)/(0−3) = 2`. -/
theorem c6_breakpoint_formula_counterexample :
    breakpoint_between sqrtT 0 0 0 3 4 ≠ breakpoint_spec_formula sqrtT 0 0 0 3 4 := by
  norm_num [breakpoint_between, breakpoint_spec_formula, sqrtT, equals_with_epsilon, EPSILON]

/-- Claim C6 (amended): for every sqrt function, foci and directrix,
`breakpoint_between` returns `(x1+x2)/2` when `|y1−y2| < ε`, and otherwise
`(+√((s²−s·y1−s·y2+y1·y2)·((x1−x2)²+(y1−y2)²)) + s·x1 − s·x2 − x1·y2 + x2·y1)
/ (y1 − y2)` — the claimed formula with the sign of the radical corrected. -/
theorem c6_breakpoint_formula_amended (sqrtF : ℚ → ℚ) (x1 y1 x2 y2 s : ℚ) :
    breakpoint_between sqrtF x1 y1 x2 y2 s
      = breakpoint_amended_formula sqrtF x1 y1 x2 y2 s := by
  unfold breakpoint_between breakpoint_amended_formula
  split
  · rfl
  · simp only [neg_neg]
    rw [show (s*s - s*y1 - s*y2 + y1*y2) *
        (x1*x1 - 2*x1*x2 + x2*x2 + y1*y1 - 2*y1*y2 + y2*y2)
        = (s*s - s*y1 - s*y2 + y1*y2) * ((x1-x2)^2 + (y1-y2)^2) from by ring]

/-- lib.rs `Site`: an input point with an id indexing the face table. -/
structure Site where
  x : ℚ
  y : ℚ
  id : ℕ
  deriving DecidableEq, Repr

/-- Beach-line node pointers (beachline.rs `Pointer`): indices into the slab,
with `!0` as the NULL sentinel. -/
def NULL : ℕ := 2 ^ 64 - 1

/-- eventqueue.rs `Event`: a site event or a circle ("vertex") event.  The
vertex event stores the beach-segment handle, the x coordinate of the
circumcenter, the y coordinate *plus the radius* (the happens-at y), and the
radius. -/
inductive Event where
  | site (s : Site)
  | vertex (handle : ℕ) (x y rad : ℚ)
  deriving DecidableEq, Repr

/-- The "happens at" point of an event, as the pair (x, y) that
`Ord for Event` extracts. -/
def Event.happens_at : Event → ℚ × ℚ
  | .site s => (s.x, s.y)
  | .vertex _ x y _ => (x, y)

/-- eventqueue.rs `impl Ord for Event`: compare by y with epsilon tolerance,
then by x with epsilon tolerance. -/
def Event.cmp (e1 e2 : Event) : Ordering :=
  let p1 := e1.happens_at
  let p2 := e2.happens_at
  if equals_with_epsilon p1.2 p2.2 then
    if equals_with_epsilon p1.1 p2.1 then
      Ordering.eq
    else if p1.1 < p2.1 then Ordering.lt else Ordering.gt
  else
    if p1.2 < p2.2 then Ordering.lt else Ordering.gt

/-- Claim C7: the event comparison returns `Equal` exactly when both the y
and the x coordinates of the two happens-at points are within ε; otherwise it
orders by y first and, when the y's are within ε, by x. -/
theorem c7_event_cmp_characterization (e1 e2 : Event) :
    (Event.cmp e1 e2 = Ordering.eq ↔
      (|(e1.happens_at).2 - (e2.happens_at).2| < EPSILON ∧
       |(e1.happens_at).1 - (e2.happens_at).1| < EPSILON)) ∧
    (¬ |(e1.happens_at).2 - (e2.happens_at).2| < EPSILON →
      Event.cmp e1 e2 =
        (if (e1.happens_at).2 < (e2.happens_at).2 then Ordering.lt else Ordering.gt)) ∧
    (|(e1.happens_at).2 - (e2.happens_at).2| < EPSILON →
      ¬ |(e1.happens_at).1 - (e2.happens_at).1| < EPSILON →
      Event.cmp e1 e2 =
        (if (e1.happens_at).1 < (e2.happens_at).1 then Ordering.lt else Ordering.gt)) := by
  unfold Event.cmp equals_with_epsilon
  refine ⟨?_, ?_, ?_⟩ <;> intros <;> simp_all

/-- Claim C7 witness: two concrete site events whose y's differ by more
than ε compare by y. -/
theorem c7_event_cmp_witness :
    Event.cmp (Event.site ⟨0, 0, 0⟩) (Event.site ⟨5, 7, 1⟩) = Ordering.lt := by
  have h := (c7_event_cmp_characterization (Event.site ⟨0, 0, 0⟩)
    (Event.site ⟨5, 7, 1⟩)).2.1 (by norm_num [Event.happens_at, EPSILON])
  rw [h]
  norm_num [Event.happens_at]

/-! ## The indexed slab (`slab::Slab`)

Modelled with its vacant-slot free list: `next` is the index of the first
vacant slot (or the length when there is none), and each vacant slot stores
the next free index. -/

inductive SlabEntry (T : Type) where
  | occupied (value : T)
  | vacant (next : ℕ)
  deriving DecidableEq, Repr

structure Slab (T : Type) where
  entries : List (SlabEntry T)
  next : ℕ
  deriving DecidableEq, Repr

def Slab.new {T : Type} : Slab T := ⟨[], 0⟩

/-- Indexing a slab: `some` on occupied slots, `none` (a Rust panic at use
sites) otherwise. -/
def Slab.get {T : Type} (s : Slab T) (k : ℕ) : Option T :=
  match s.entries[k]? with
  | some (.occupied v) => some v
  | _ => none

/-- `Slab::insert`: take the head of the free list, or push at the end. -/
def Slab.insert {T : Type} (s : Slab T) (v : T) : ℕ × Slab T :=
  if s.next = s.entries.length then
    (s.next, ⟨s.entries ++ [.occupied v], s.next + 1⟩)
  else
    match s.entries[s.next]? with
    | some (.vacant nx) => (s.next, ⟨s.entries.set s.next (.occupied v), nx⟩)
    | _ =>
      -- unreachable for well-formed slabs: the free head is always vacant
      (s.entries.length, ⟨s.entries ++ [.occupied v], s.entries.length + 1⟩)

/-- `Slab::remove`: vacate the slot and push it on the free list; `none`
models the Rust panic on removing a vacant slot. -/
def Slab.remove {T : Type} (s : Slab T) (k : ℕ) : Option (T × Slab T) :=
  match s.entries[k]? with
  | some (.occupied v) => some (v, ⟨s.entries.set k (.vacant s.next), k⟩)
  | _ => none

theorem slab_get_append {T : Type} (l : List (SlabEntry T)) (v : T) (nx k : ℕ) :
    Slab.get ⟨l ++ [.occupied v], nx⟩ k
      = if k = l.length then some v else Slab.get ⟨l, nx⟩ k := by
  unfold Slab.get
  rcases Nat.lt_trichotomy k l.length with h | h | h
  · rw [List.getElem?_append_left h, if_neg (by omega)]
  · subst h
    rw [List.getElem?_concat_length, if_pos rfl]
  · rw [List.getElem?_append_right (by omega), if_neg (by omega),
      List.getElem?_eq_none (l := l) (by omega),
      List.getElem?_eq_none (by simp; omega)]

theorem Slab.get_insert {T : Type} (s : Slab T) (v : T) (k : ℕ) :
    (s.insert v).2.get k = if k = (s.insert v).1 then some v else s.get k := by
  unfold Slab.insert
  split
  · rename_i h
    rw [h]
    exact slab_get_append s.entries v _ k
  · split
    · rename_i nx hnx
      have hlt : s.next < s.entries.length := by
        rcases List.getElem?_eq_some.mp hnx with ⟨h, _⟩
        exact h
      unfold Slab.get
      by_cases hk : k = s.next
      · subst hk
        rw [List.getElem?_set_self hlt, if_pos rfl]
      · rw [List.getElem?_set_ne (Ne.symm hk), if_neg hk]
    · exact slab_get_append s.entries v _ k

theorem Slab.get_insert_key {T : Type} (s : Slab T) (v : T) :
    s.get (s.insert v).1 = none := by
  unfold Slab.insert
  split
  · rename_i h
    unfold Slab.get
    rw [h, List.getElem?_eq_none (Nat.le_refl _)]
  · split
    · rename_i nx hnx
      unfold Slab.get
      rw [hnx]
    · unfold Slab.get
      rw [List.getElem?_eq_none (Nat.le_refl _)]

theorem Slab.remove_eq_some {T : Type} {s : Slab T} {k : ℕ} {v : T} {s' : Slab T}
    (h : s.remove k = some (v, s')) :
    s.get k = some v ∧ ∀ j, s'.get j = if j = k then none else s.get j := by
  unfold Slab.remove at h
  split at h
  · rename_i w hw
    obtain ⟨rfl, rfl⟩ : w = v ∧ (⟨s.entries.set k (.vacant s.next), k⟩ : Slab T) = s' := by
      simpa using h
    constructor
    · unfold Slab.get
      rw [hw]
    · intro j
      unfold Slab.get
      by_cases hj : j = k
      · subst hj
        have hlt : j < s.entries.length := by
          rcases List.getElem?_eq_some.mp hw with ⟨h1, _⟩
          exact h1
        rw [List.getElem?_set_self hlt, if_pos rfl]
      · rw [List.getElem?_set_ne (Ne.symm hj), if_neg hj]
  · simp at h

theorem Slab.remove_isSome {T : Type} (s : Slab T) (k : ℕ) :
    (s.remove k).isSome = (s.get k).isSome := by
  unfold Slab.remove Slab.get
  rcases h : s.entries[k]? with _ | e
  · rfl
  · cases e <;> rfl

/-! ## The event queue (eventqueue.rs)

`heap_indices_by_events : HashMap<Pointer, usize>` is modelled as an
association list with map semantics. -/

def mapErase : List (ℕ × ℕ) → ℕ → List (ℕ × ℕ)
  | [], _ => []
  | p :: m, k => if p.1 = k then mapErase m k else p :: mapErase m k

def mapInsert (m : List (ℕ × ℕ)) (k v : ℕ) : List (ℕ × ℕ) :=
  (k, v) :: mapErase m k

def mapGet : List (ℕ × ℕ) → ℕ → Option ℕ
  | [], _ => none
  | p :: m, k => if p.1 = k then some p.2 else mapGet m k

theorem mapGet_erase (m : List (ℕ × ℕ)) (k j : ℕ) :
    mapGet (mapErase m k) j = if j = k then none else mapGet m j := by
  induction m with
  | nil => unfold mapErase mapGet; split <;> rfl
  | cons p m ih =>
    unfold mapErase
    by_cases hp : p.1 = k
    · rw [if_pos hp, ih]
      by_cases hj : j = k
      · simp [hj]
      · rw [if_neg hj, if_neg hj]
        show mapGet m j = if p.1 = j then some p.2 else mapGet m j
        rw [if_neg (by omega : ¬ p.1 = j)]
    · rw [if_neg hp]
      show (if p.1 = j then some p.2 else mapGet (mapErase m k) j) = _
      by_cases hpj : p.1 = j
      · rw [if_pos hpj, if_neg (by omega : ¬ j = k)]
        show _ = if p.1 = j then some p.2 else mapGet m j
        rw [if_pos hpj]
      · rw [if_neg hpj, ih]
        by_cases hj : j = k
        · simp [hj]
        · rw [if_neg hj, if_neg hj]
          show mapGet m j = if p.1 = j then some p.2 else mapGet m j
          rw [if_neg hpj]

theorem mapGet_insert (m : List (ℕ × ℕ)) (k v j : ℕ) :
    mapGet (mapInsert m k v) j = if j = k then some v else mapGet m j := by
  unfold mapInsert
  show (if k = j then some v else mapGet (mapErase m k) j) = _
  by_cases hj : j = k
  · rw [if_pos (by omega : k = j), if_pos hj]
  · rw [if_neg (by omega : ¬ k = j), if_neg hj, mapGet_erase, if_neg hj]

/-- eventqueue.rs `EventQueue`. -/
structure EventQueue where
  events : Slab Event
  heap : List ℕ
  heap_indices_by_events : List (ℕ × ℕ)
  deriving DecidableEq, Repr

def EventQueue.new : EventQueue := ⟨Slab.new, [], []⟩

/-- eventqueue.rs `parent(i)`. -/
def heapParent (i : ℕ) : ℕ :=
  if i = NULL ∨ i = 0 then NULL else (i - 1) / 2

/-- eventqueue.rs `left(i)`. -/
def EventQueue.leftIdx (q : EventQueue) (i : ℕ) : ℕ :=
  if i = NULL then NULL
  else if q.heap.length > 2*i + 1 then 2*i + 1 else NULL

/-- eventqueue.rs `right(i)`. -/
def EventQueue.rightIdx (q : EventQueue) (i : ℕ) : ℕ :=
  if i = NULL then NULL
  else if q.heap.length > 2*i + 2 then 2*i + 2 else NULL

/-- The event stored at heap position `j`. -/
def EventQueue.eventAt (q : EventQueue) (j : ℕ) : Option Event :=
  (q.heap[j]?).bind q.events.get

/-- `self[self.heap[i]] < self[self.heap[j]]`: both heap positions and both
slab slots must be live (a dead one is a Rust panic). -/
def EventQueue.ltAt (q : EventQueue) (i j : ℕ) : Except String Bool :=
  match q.eventAt i, q.eventAt j with
  | some ei, some ej => .ok (decide (Event.cmp ei ej = Ordering.lt))
  | _, _ => .error "index panic in event comparison"

/-- eventqueue.rs `swap(i, j)`: swap two heap slots and update the index map
for both moved pointers. -/
def EventQueue.swap (q : EventQueue) (i j : ℕ) : Except String EventQueue :=
  match q.heap[i]?, q.heap[j]? with
  | some pi, some pj =>
    .ok { q with
      heap := (q.heap.set i pj).set j pi,
      heap_indices_by_events :=
        mapInsert (mapInsert q.heap_indices_by_events pi j) pj i }
  | _, _ => .error "heap index panic in swap"

/-- eventqueue.rs `heapify_up`. -/
def EventQueue.heapify_up (q : EventQueue) (i : ℕ) : Except String EventQueue :=
  if hp : heapParent i = NULL then .ok q
  else
    match q.ltAt i (heapParent i) with
    | .error e => .error e
    | .ok false => .ok q
    | .ok true =>
      match q.swap i (heapParent i) with
      | .error e => .error e
      | .ok q1 => q1.heapify_up (heapParent i)
termination_by i
decreasing_by
  simp only [heapParent, NULL] at hp ⊢
  split at hp
  · exact absurd rfl hp
  · rename_i hcond
    rw [if_neg hcond]
    omega

theorem EventQueue.swap_heap_length {q q' : EventQueue} {i j : ℕ}
    (h : q.swap i j = .ok q') : q'.heap.length = q.heap.length := by
  unfold EventQueue.swap at h
  split at h
  · obtain rfl : _ = q' := by simpa using h
    simp
  · simp at h

/-- The `smallest` computation inside eventqueue.rs `heapify_down`: compare
with the left child, then with the right child. -/
def EventQueue.smallestChild (q : EventQueue) (i : ℕ) : Except String ℕ :=
  match (if q.leftIdx i ≠ NULL then q.ltAt (q.leftIdx i) i
         else .ok false : Except String Bool) with
  | .error e => .error e
  | .ok bl =>
    match (if q.rightIdx i ≠ NULL
           then q.ltAt (q.rightIdx i) (if bl then q.leftIdx i else i)
           else .ok false : Except String Bool) with
    | .error e => .error e
    | .ok br => .ok (if br then q.rightIdx i else if bl then q.leftIdx i else i)

theorem EventQueue.smallestChild_spec {q : EventQueue} {i sm : ℕ}
    (h : q.smallestChild i = .ok sm) :
    sm = i ∨ (i < sm ∧ sm < q.heap.length) := by
  unfold EventQueue.smallestChild at h
  split at h
  · simp at h
  · rename_i bl hbl
    split at h
    · simp at h
    · rename_i br hbr
      obtain rfl : (if br = true then q.rightIdx i
          else if bl = true then q.leftIdx i else i) = sm := by simpa using h
      by_cases hbrT : br = true
      · have hr : q.rightIdx i ≠ NULL := by
          intro hnull
          rw [if_neg (by simpa using hnull)] at hbr
          simp [hbrT] at hbr
        right
        rw [if_pos hbrT]
        simp only [EventQueue.rightIdx, NULL] at hr ⊢
        split at hr
        · exact absurd rfl hr
        · split at hr
          · rename_i hlen
            rw [if_neg (by assumption), if_pos hlen]
            omega
          · exact absurd rfl hr
      · rw [if_neg hbrT]
        by_cases hblT : bl = true
        · have hl : q.leftIdx i ≠ NULL := by
            intro hnull
            rw [if_neg (by simpa using hnull)] at hbl
            simp [hblT] at hbl
          right
          rw [if_pos hblT]
          simp only [EventQueue.leftIdx, NULL] at hl ⊢
          split at hl
          · exact absurd rfl hl
          · split at hl
            · rename_i hlen
              rw [if_neg (by assumption), if_pos hlen]
              omega
            · exact absurd rfl hl
        · left
          rw [if_neg hblT]

/-- eventqueue.rs `heapify_down`. -/
def EventQueue.heapify_down (q : EventQueue) (i : ℕ) : Except String EventQueue :=
  match hs : q.smallestChild i with
  | .error e => .error e
  | .ok sm =>
    if hne : sm ≠ i then
      match hsw : q.swap sm i with
      | .error e => .error e
      | .ok q1 => q1.heapify_down sm
    else .ok q
termination_by q.heap.length - i
decreasing_by
  have h1 := EventQueue.smallestChild_spec hs
  have h2 := EventQueue.swap_heap_length hsw
  omega

/-- eventqueue.rs `insert`: put the event in the arena, push its pointer,
record its index, sift up.  (`Slab::insert` returns just the key in the
source; the functional model also returns the updated arena, hence the two
projections.) -/
def EventQueue.insert (q : EventQueue) (e : Event) : Except String (ℕ × EventQueue) :=
  let ptr := (q.events.insert e).1
  let heap1 := q.heap ++ [ptr]
  let q1 : EventQueue :=
    { events := (q.events.insert e).2, heap := heap1,
      heap_indices_by_events :=
        mapInsert q.heap_indices_by_events ptr (heap1.length - 1) }
  match q1.heapify_up (heap1.length - 1) with
  | .error er => .error er
  | .ok q2 => .ok (ptr, q2)

/-- eventqueue.rs `pop`. -/
def EventQueue.pop (q : EventQueue) : Except String (Option Event × EventQueue) :=
  if q.heap.length < 1 then .ok (none, q)
  else
    match q.heap[0]? with
    | none => .error "unreachable: empty heap after the length guard"
    | some ptr =>
      match q.swap 0 (q.heap.length - 1) with
      | .error e => .error e
      | .ok q1 =>
        match q1.events.remove ptr with
        | none => .error "slab remove panic"
        | some (ev, events2) =>
          let q2 : EventQueue :=
            { events := events2, heap := q1.heap.dropLast,
              heap_indices_by_events :=
                mapErase q1.heap_indices_by_events ptr }
          if q2.heap.length > 0 then
            match q2.heapify_down 0 with
            | .error e => .error e
            | .ok q3 => .ok (some ev, q3)
          else .ok (some ev, q2)

/-- eventqueue.rs `delete`: `None` (no mutation) when the handle is not in
the index map, otherwise swap the slot to the end, pop it, and sift both
directions from the vacated index. -/
def EventQueue.delete (q : EventQueue) (handle : ℕ) : Except String (Option Event × EventQueue) :=
  match mapGet q.heap_indices_by_events handle with
  | none => .ok (none, q)
  | some index =>
    match q.swap index (q.heap.length - 1) with
    | .error e => .error e
    | .ok q1 =>
      match q1.events.remove handle with
      | none => .error "slab remove panic"
      | some (ev, events2) =>
        let q2 : EventQueue :=
          { events := events2, heap := q1.heap.dropLast,
            heap_indices_by_events :=
              mapErase q1.heap_indices_by_events handle }
        if q2.heap.length > index then
          match q2.heapify_down index with
          | .error e => .error e
          | .ok q3 =>
            match q3.heapify_up index with
            | .error e => .error e
            | .ok q4 => .ok (some ev, q4)
        else .ok (some ev, q2)

/-- eventqueue.rs `len`. -/
def EventQueue.len (q : EventQueue) : ℕ := q.heap.length

/-! ## Event-queue validity: the heap property and index-map consistency -/

/-- `eventLt e1 e2`: `e1 < e2` in the source's `Ord for Event`. -/
def eventLt (e1 e2 : Event) : Prop := Event.cmp e1 e2 = Ordering.lt

instance (e1 e2 : Event) : Decidable (eventLt e1 e2) :=
  inferInstanceAs (Decidable (Event.cmp e1 e2 = Ordering.lt))

/-- Heap position `j` does not compare `Less` than its parent `(j-1)/2`. -/
def noLtParent (q : EventQueue) (j : ℕ) : Prop :=
  ∀ ej ∈ q.eventAt j, ∀ ep ∈ q.eventAt ((j - 1) / 2), ¬ eventLt ej ep

instance (q : EventQueue) (j : ℕ) : Decidable (noLtParent q j) :=
  inferInstanceAs (Decidable (∀ ej ∈ _, ∀ ep ∈ _, ¬ eventLt ej ep))

/-- The min-heap property: no element compares `Less` than its parent. -/
def HeapProp (q : EventQueue) : Prop :=
  ∀ j, j < q.heap.length → 0 < j → noLtParent q j

instance (q : EventQueue) : Decidable (HeapProp q) :=
  inferInstanceAs (Decidable (∀ j, j < _ → 0 < j → noLtParent q j))

/-- Every heap slot's pointer is mapped to that slot by the index map. -/
def MapHeap (q : EventQueue) : Prop :=
  ∀ j, j < q.heap.length →
    ∀ p ∈ q.heap[j]?, mapGet q.heap_indices_by_events p = some j

instance (q : EventQueue) : Decidable (MapHeap q) :=
  inferInstanceAs (Decidable (∀ j, j < _ → ∀ p ∈ _, _ = some j))

/-- Every index-map entry points at a heap slot holding its key. -/
def mapEntryOk (q : EventQueue) (p : ℕ) : Prop :=
  ∀ j ∈ mapGet q.heap_indices_by_events p, j < q.heap.length ∧ q.heap[j]? = some p

instance (q : EventQueue) (p : ℕ) : Decidable (mapEntryOk q p) :=
  inferInstanceAs (Decidable (∀ j ∈ _, j < _ ∧ _ = some p))

def MapDom (q : EventQueue) : Prop :=
  ∀ pr ∈ q.heap_indices_by_events, mapEntryOk q pr.1

instance (q : EventQueue) : Decidable (MapDom q) :=
  inferInstanceAs (Decidable
    (∀ pr ∈ q.heap_indices_by_events, mapEntryOk q pr.1))

/-- The arena stores exactly the pointers present in the heap vector. -/
def ArenaDom (q : EventQueue) : Prop :=
  (∀ k, k < q.events.entries.length → ((q.events.get k).isSome ↔ k ∈ q.heap)) ∧
  (∀ p ∈ q.heap, p < q.events.entries.length)

instance (q : EventQueue) : Decidable (ArenaDom q) :=
  inferInstanceAs (Decidable (_ ∧ _))

/-- Map and arena consistency (everything of a valid state except the heap
property itself). -/
def StructOk (q : EventQueue) : Prop := MapHeap q ∧ MapDom q ∧ ArenaDom q

instance (q : EventQueue) : Decidable (StructOk q) :=
  inferInstanceAs (Decidable (_ ∧ _ ∧ _))

/-- A valid event-queue state: min-heap property, and the handle-to-index
map contains exactly the live handles, each mapped to its heap position. -/
def ValidQ (q : EventQueue) : Prop := HeapProp q ∧ StructOk q

instance (q : EventQueue) : Decidable (ValidQ q) :=
  inferInstanceAs (Decidable (_ ∧ _))

/-- Claim C10: deleting a handle that is no longer in the queue (its key is
absent from the index map) returns `None` and leaves the heap vector, the
event arena and the index map untouched. -/
theorem c10_delete_missing_handle_is_noop (q : EventQueue) (handle : ℕ)
    (h : mapGet q.heap_indices_by_events handle = none) :
    q.delete handle = .ok (none, q) := by
  unfold EventQueue.delete
  rw [h]

/-- Claim C10 witness: a concrete one-event queue and a handle (7) that was
never inserted. -/
theorem c10_delete_missing_handle_witness :
    (⟨⟨[.occupied (Event.site ⟨1, 2, 0⟩)], 1⟩, [0], [(0, 0)]⟩ : EventQueue).delete 7
      = .ok (none, ⟨⟨[.occupied (Event.site ⟨1, 2, 0⟩)], 1⟩, [0], [(0, 0)]⟩) :=
  c10_delete_missing_handle_is_noop _ 7 rfl

/-! ## Order facts about the epsilon comparison -/

theorem equals_with_epsilon_comm (a b : ℚ) :
    equals_with_epsilon a b = equals_with_epsilon b a := by
  unfold equals_with_epsilon
  rw [abs_sub_comm]

theorem eventLt_asymm {a b : Event} (h : eventLt a b) : ¬ eventLt b a := by
  intro h2
  simp only [eventLt, Event.cmp] at h h2
  rw [equals_with_epsilon_comm (b.happens_at).2 (a.happens_at).2,
    equals_with_epsilon_comm (b.happens_at).1 (a.happens_at).1] at h2
  split_ifs at h h2 <;> simp_all <;> linarith

theorem eventLt_irrefl (a : Event) : ¬ eventLt a a := by
  intro h
  exact eventLt_asymm h h

/-! ## State lemmas for the event queue -/

theorem mem_of_getElem?_some {α : Type} {l : List α} {n : ℕ} {a : α}
    (h : l[n]? = some a) : a ∈ l := by
  rcases List.getElem?_eq_some.mp h with ⟨h1, rfl⟩
  exact List.getElem_mem h1

theorem mapGet_eq_some_mem {m : List (ℕ × ℕ)} {x jx : ℕ}
    (h : mapGet m x = some jx) : (x, jx) ∈ m := by
  induction m with
  | nil => simp [mapGet] at h
  | cons p m ih =>
    unfold mapGet at h
    by_cases hp : p.1 = x
    · rw [if_pos hp] at h
      obtain rfl : p.2 = jx := by simpa using h
      have hxp : (x, p.2) = p := Prod.ext_iff.mpr ⟨hp.symm, rfl⟩
      rw [hxp]
      exact List.mem_cons_self p m
    · rw [if_neg hp] at h
      exact List.mem_cons_of_mem _ (ih h)

/-- From `MapDom` as stated, the unbounded form. -/
theorem mapDom_get {q : EventQueue} (h : MapDom q) {x jx : ℕ}
    (hx : mapGet q.heap_indices_by_events x = some jx) :
    jx < q.heap.length ∧ q.heap[jx]? = some x := by
  have hmem := mapGet_eq_some_mem hx
  have := h (x, jx) hmem jx (by simpa [Option.mem_def] using hx)
  exact this

theorem heap_ptr_inj {q : EventQueue} (h : MapHeap q) {i j p : ℕ}
    (hi : q.heap[i]? = some p) (hj : q.heap[j]? = some p) : i = j := by
  have h1 := h i (List.getElem?_eq_some.mp hi).1 p (by simpa [Option.mem_def] using hi)
  have h2 := h j (List.getElem?_eq_some.mp hj).1 p (by simpa [Option.mem_def] using hj)
  rw [h1] at h2
  simpa using h2

theorem eventAt_isSome {q : EventQueue} (hq : StructOk q) {j : ℕ}
    (hj : j < q.heap.length) : ∃ e, q.eventAt j = some e := by
  obtain ⟨hAD1, hAD2⟩ := hq.2.2
  have hp : q.heap[j]? = some q.heap[j] := List.getElem?_eq_getElem hj
  have hmem : q.heap[j] ∈ q.heap := by
    rcases List.getElem?_eq_some.mp hp with ⟨h1, h2⟩
    exact h2 ▸ List.getElem_mem h1
  have hsome : (q.events.get q.heap[j]).isSome := by
    rw [hAD1 _ (hAD2 _ hmem)]
    exact hmem
  rcases Option.isSome_iff_exists.mp hsome with ⟨e, he⟩
  exact ⟨e, by unfold EventQueue.eventAt; rw [hp]; exact he⟩

/-- Full specification of eventqueue.rs `swap` on in-range indices:
it succeeds, permutes the two heap slots, fixes up the index map, and
touches nothing else. -/
theorem swap_spec {q : EventQueue} {i j : ℕ}
    (hi : i < q.heap.length) (hj : j < q.heap.length) :
    ∃ q', q.swap i j = .ok q' ∧
      q'.events = q.events ∧
      q'.heap.length = q.heap.length ∧
      (∀ k, q'.heap[k]? =
        if k = j then q.heap[i]? else if k = i then q.heap[j]? else q.heap[k]?) ∧
      (∀ p, p ∈ q'.heap ↔ p ∈ q.heap) ∧
      (StructOk q → StructOk q') := by
  have hpi : q.heap[i]? = some q.heap[i] := List.getElem?_eq_getElem hi
  have hpj : q.heap[j]? = some q.heap[j] := List.getElem?_eq_getElem hj
  set pi := q.heap[i] with hpi_def
  set pj := q.heap[j] with hpj_def
  clear_value pi pj
  set q' : EventQueue :=
    { events := q.events,
      heap := (q.heap.set i pj).set j pi,
      heap_indices_by_events :=
        mapInsert (mapInsert q.heap_indices_by_events pi j) pj i } with hqd
  have hswap : q.swap i j = .ok q' := by
    unfold EventQueue.swap
    rw [hpi, hpj]
  have hlen : q'.heap.length = q.heap.length := by simp [hqd]
  have hheap : ∀ k, q'.heap[k]? =
      if k = j then q.heap[i]? else if k = i then q.heap[j]? else q.heap[k]? := by
    intro k
    show ((q.heap.set i pj).set j pi)[k]? = _
    by_cases hkj : k = j
    · subst hkj
      rw [List.getElem?_set_self (by simpa using hj), if_pos rfl, hpi]
    · rw [List.getElem?_set_ne (Ne.symm hkj), if_neg hkj]
      by_cases hki : k = i
      · subst hki
        rw [List.getElem?_set_self hi, if_pos rfl, hpj]
      · rw [List.getElem?_set_ne (Ne.symm hki), if_neg hki]
  have hmapget : ∀ x, mapGet q'.heap_indices_by_events x =
      if x = pj then some i else if x = pi then some j
      else mapGet q.heap_indices_by_events x := by
    intro x
    show mapGet (mapInsert (mapInsert _ pi j) pj i) x = _
    rw [mapGet_insert]
    by_cases hx : x = pj
    · rw [if_pos hx, if_pos hx]
    · rw [if_neg hx, if_neg hx, mapGet_insert]
  have hmem : ∀ p, p ∈ q'.heap ↔ p ∈ q.heap := by
    intro p
    constructor
    · intro hp
      rcases List.mem_iff_getElem?.mp hp with ⟨n, hn⟩
      rw [hheap n] at hn
      split_ifs at hn
      · exact mem_of_getElem?_some hn
      · exact mem_of_getElem?_some hn
      · exact mem_of_getElem?_some hn
    · intro hp
      rcases List.mem_iff_getElem?.mp hp with ⟨n, hn⟩
      by_cases hni : n = i
      · subst hni
        refine List.mem_iff_getElem?.mpr ⟨j, ?_⟩
        rw [hheap j, if_pos rfl, hn]
      · by_cases hnj : n = j
        · refine List.mem_iff_getElem?.mpr ⟨i, ?_⟩
          rw [hheap i]
          by_cases hij : i = j
          · rw [if_pos hij, hij, ← hnj]
            exact hn
          · rw [if_neg hij, if_pos rfl, ← hnj]
            exact hn
        · refine List.mem_iff_getElem?.mpr ⟨n, ?_⟩
          rw [hheap n, if_neg hnj, if_neg hni, hn]
  refine ⟨q', hswap, rfl, hlen, hheap, hmem, ?_⟩
  rintro ⟨hMH, hMD, hAD⟩
  have hmpi : mapGet q.heap_indices_by_events pi = some i :=
    hMH i hi pi (by simpa [Option.mem_def] using hpi)
  have hmpj : mapGet q.heap_indices_by_events pj = some j :=
    hMH j hj pj (by simpa [Option.mem_def] using hpj)
  refine ⟨?_, ?_, ?_⟩
  · -- MapHeap
    intro k hk p hp
    rw [Option.mem_def, hheap k] at hp
    rw [hmapget p]
    split_ifs at hp with h1 h2
    · -- k = j, slot holds pi
      have hppi : pi = p := by
        rw [hpi] at hp
        simpa using hp
      subst hppi
      by_cases hpij : pi = pj
      · rw [if_pos hpij, h1]
        congr 1
        exact heap_ptr_inj hMH hpi (hpij ▸ hpj)
      · rw [if_neg hpij, if_pos rfl, h1]
    · -- k = i ≠ j, slot holds pj
      have hppj : pj = p := by
        rw [hpj] at hp
        simpa using hp
      subst hppj
      rw [if_pos rfl, h2]
    · -- untouched slot
      have hpne_j : p ≠ pj := by
        intro hcon
        exact h1 (heap_ptr_inj hMH hp (hcon ▸ hpj))
      have hpne_i : p ≠ pi := by
        intro hcon
        exact h2 (heap_ptr_inj hMH hp (hcon ▸ hpi))
      rw [if_neg hpne_j, if_neg hpne_i]
      exact hMH k (hlen ▸ hk) p (by simpa [Option.mem_def] using hp)
  · -- MapDom
    intro pr _ jx hjx
    rw [Option.mem_def, hmapget pr.1] at hjx
    rw [hlen]
    split_ifs at hjx with h1 h2
    · obtain rfl : i = jx := by simpa using hjx
      refine ⟨hi, ?_⟩
      rw [hheap i]
      by_cases hij : i = j
      · rw [if_pos hij, hpi, h1]
        have hpipj : pi = pj := by
          rw [hij] at hpi
          rw [hpi] at hpj
          simpa using hpj
        rw [hpipj]
      · rw [if_neg hij, if_pos rfl, hpj, h1]
    · obtain rfl : j = jx := by simpa using hjx
      exact ⟨hj, by rw [hheap j, if_pos rfl, hpi, h2]⟩
    · rcases mapDom_get hMD hjx with ⟨hjx1, hjx2⟩
      refine ⟨hjx1, ?_⟩
      have hne_i : jx ≠ i := by
        intro hcon
        exact h2 (by rw [hcon] at hjx2; rw [hpi] at hjx2; simpa using hjx2.symm)
      have hne_j : jx ≠ j := by
        intro hcon
        exact h1 (by rw [hcon] at hjx2; rw [hpj] at hjx2; simpa using hjx2.symm)
      rw [hheap jx, if_neg hne_j, if_neg hne_i]
      exact hjx2
  · -- ArenaDom
    have hev : q'.events = q.events := rfl
    refine ⟨?_, ?_⟩
    · intro k hk
      rw [hev] at hk ⊢
      rw [hAD.1 k hk]
      exact (hmem k).symm
    · intro p hp
      rw [hev]
      exact hAD.2 p ((hmem p).mp hp)

/-! ## The sift invariants -/

/-- The heap property holds at every position except possibly `t`. -/
def heapOkExcept (q : EventQueue) (t : ℕ) : Prop :=
  ∀ j, j < q.heap.length → 0 < j → j ≠ t → noLtParent q j

/-- The heap property holds except possibly at `t` and at `t`'s children. -/
def heapOkExceptDown (q : EventQueue) (t : ℕ) : Prop :=
  ∀ j, j < q.heap.length → 0 < j → j ≠ t → (j - 1) / 2 ≠ t → noLtParent q j

/-- Grandparent bridge: each child of `t` is not less than `t`'s parent. -/
def bridge (q : EventQueue) (t : ℕ) : Prop :=
  0 < t → ∀ c, c < q.heap.length → (c - 1) / 2 = t →
    ∀ ec ∈ q.eventAt c, ∀ ep ∈ q.eventAt ((t - 1) / 2), ¬ eventLt ec ep

/-- The comparison set: `S` holds of every event reachable from the heap. -/
def coversHeap (q : EventQueue) (S : Event → Prop) : Prop :=
  ∀ j, j < q.heap.length → ∀ e ∈ q.eventAt j, S e

theorem heapParent_spec {i : ℕ} (h : heapParent i ≠ NULL) :
    0 < i ∧ heapParent i = (i - 1) / 2 := by
  unfold heapParent at h ⊢
  split at h
  · exact absurd rfl h
  · rename_i hc
    push_neg at hc
    rw [if_neg (by push_neg; exact hc)]
    exact ⟨Nat.pos_of_ne_zero hc.2, rfl⟩

theorem heapify_up_spec (S : Event → Prop)
    (htr : ∀ a b c, S a → S b → S c → eventLt a b → eventLt b c → eventLt a c)
    (hntr : ∀ a b c, S a → S b → S c → ¬ eventLt a b → ¬ eventLt b c → ¬ eventLt a c) :
    ∀ i q, StructOk q → q.heap.length < NULL → i < q.heap.length →
      coversHeap q S → heapOkExcept q i → bridge q i →
      ∃ q', q.heapify_up i = .ok q' ∧ StructOk q' ∧ HeapProp q' ∧
        q'.events = q.events ∧ q'.heap.length = q.heap.length ∧
        (∀ p, p ∈ q'.heap ↔ p ∈ q.heap) := by
  intro i
  induction i using Nat.strong_induction_on with
  | _ i IH =>
  intro q hq hlen hi hcov hok hbr
  rw [EventQueue.heapify_up.eq_def]
  by_cases hp : heapParent i = NULL
  · rw [dif_pos hp]
    have hi0 : i = 0 := by
      unfold heapParent at hp
      split at hp
      · rename_i hc
        rcases hc with hc | hc
        · exfalso
          omega
        · exact hc
      · exfalso
        have : (i - 1) / 2 ≤ i := by omega
        omega
    refine ⟨q, rfl, hq, ?_, rfl, rfl, fun p => Iff.rfl⟩
    intro j hj hj0
    exact hok j hj hj0 (by omega)
  · rw [dif_neg hp]
    obtain ⟨hi0, hpar⟩ := heapParent_spec hp
    have hplt : heapParent i < i := by rw [hpar]; omega
    have hplen : heapParent i < q.heap.length := lt_trans hplt hi
    obtain ⟨ei, hei⟩ := eventAt_isSome hq hi
    obtain ⟨ep, hep⟩ := eventAt_isSome hq hplen
    have hSei : S ei := hcov i hi ei (by simpa [Option.mem_def] using hei)
    have hSep : S ep := hcov _ hplen ep (by simpa [Option.mem_def] using hep)
    have hlt : q.ltAt i (heapParent i)
        = .ok (decide (Event.cmp ei ep = Ordering.lt)) := by
      unfold EventQueue.ltAt
      rw [hei, hep]
    rw [hlt]
    by_cases hcmp : eventLt ei ep
    · -- the element sifts up: swap and recurse at the parent
      rw [show decide (Event.cmp ei ep = Ordering.lt) = true from decide_eq_true hcmp]
      obtain ⟨q1, hswapEq, hq1ev, hq1len, hq1heap, hq1mem, hq1struct⟩ :=
        swap_spec hi hplen
      have hevAt : ∀ k, q1.eventAt k =
          if k = heapParent i then q.eventAt i
          else if k = i then q.eventAt (heapParent i) else q.eventAt k := by
        intro k
        unfold EventQueue.eventAt
        rw [hq1ev, hq1heap k]
        split_ifs <;> rfl
      have hcov1 : coversHeap q1 S := by
        intro k hk e he
        rw [hevAt k] at he
        rw [hq1len] at hk
        split_ifs at he
        · exact hcov i hi e he
        · exact hcov _ hplen e he
        · exact hcov k hk e he
      have hok1 : heapOkExcept q1 (heapParent i) := by
        intro j hj hj0 hjP
        rw [hq1len] at hj
        intro ej hej ep2 hep2
        rw [hevAt j] at hej
        rw [hevAt ((j - 1) / 2)] at hep2
        by_cases hji : j = i
        · -- the swapped-down parent against the moved-up element
          subst hji
          rw [if_neg (by omega), if_pos rfl] at hej
          rw [if_pos hpar.symm] at hep2
          rw [Option.mem_def, hep] at hej
          obtain rfl : ep = ej := by simpa using hej
          rw [Option.mem_def, hei] at hep2
          obtain rfl : ei = ep2 := by simpa using hep2
          exact eventLt_asymm hcmp
        · by_cases hjc : (j - 1) / 2 = i
          · -- a child of the vacated position: the grandparent bridge
            have hjgt : i < j := by omega
            rw [if_neg (by omega), if_neg hji] at hej
            rw [hjc, if_neg (by omega), if_pos rfl] at hep2
            rw [Option.mem_def, hep] at hep2
            obtain rfl : ep = ep2 := by simpa using hep2
            refine hbr hi0 j hj hjc ej hej ep ?_
            rw [← hpar]
            simpa [Option.mem_def] using hep
          · by_cases hjp : (j - 1) / 2 = heapParent i
            · -- the sibling: uses transitivity of Less
              rw [if_neg hjP, if_neg hji] at hej
              rw [hjp, if_pos rfl] at hep2
              rw [Option.mem_def, hei] at hep2
              obtain rfl : ei = ep2 := by simpa using hep2
              intro hcon
              have hSej : S ej := hcov j hj ej hej
              have h1 : ¬ eventLt ej ep := by
                refine hok j hj hj0 hji ej hej ep ?_
                rw [hjp]
                simpa [Option.mem_def] using hep
              exact h1 (htr ej ei ep hSej hSei hSep hcon hcmp)
            · -- positions untouched by the swap
              rw [if_neg hjP, if_neg hji] at hej
              rw [if_neg hjp, if_neg hjc] at hep2
              exact hok j hj hj0 hji ej hej ep2 hep2
      have hbr1 : bridge q1 (heapParent i) := by
        intro hP0 c hc hcP ec hec ep2 hep2
        rw [hq1len] at hc
        rw [hevAt c] at hec
        rw [hevAt ((heapParent i - 1) / 2)] at hep2
        rw [if_neg (by omega), if_neg (by omega)] at hep2
        have hPPlen : (heapParent i - 1) / 2 < q.heap.length := by
          have : (heapParent i - 1) / 2 ≤ heapParent i := by omega
          omega
        have hSep2 : S ep2 := hcov _ hPPlen ep2 hep2
        by_cases hci : c = i
        · rw [hci, if_neg (by omega), if_pos rfl] at hec
          rw [Option.mem_def, hep] at hec
          obtain rfl : ep = ec := by simpa using hec
          exact hok (heapParent i) hplen hP0 (by omega) ep
            (by simpa [Option.mem_def] using hep) ep2 hep2
        · have hcgt : heapParent i < c := by omega
          rw [if_neg (by omega), if_neg hci] at hec
          intro hcon
          have h1 : ¬ eventLt ec ep := by
            refine hok c hc (by omega) hci ec hec ep ?_
            rw [hcP]
            simpa [Option.mem_def] using hep
          have h2 : ¬ eventLt ep ep2 :=
            hok (heapParent i) hplen hP0 (by omega) ep
              (by simpa [Option.mem_def] using hep) ep2 hep2
          exact hntr ec ep ep2 (hcov c hc ec hec) hSep hSep2 h1 h2 hcon
      obtain ⟨q2, hrec, hq2struct, hq2hp, hq2ev, hq2len, hq2mem⟩ :=
        IH (heapParent i) hplt q1 (hq1struct hq) (by rwa [hq1len])
          (by rw [hq1len]; exact hplen) hcov1 hok1 hbr1
      refine ⟨q2, ?_, hq2struct, hq2hp, by rw [hq2ev, hq1ev],
        by rw [hq2len, hq1len], fun p => (hq2mem p).trans (hq1mem p)⟩
      rw [hswapEq]
      exact hrec
    · rw [show decide (Event.cmp ei ep = Ordering.lt) = false from
        decide_eq_false hcmp]
      refine ⟨q, rfl, hq, ?_, rfl, rfl, fun p => Iff.rfl⟩
      intro j hj hj0
      by_cases hji : j = i
      · subst hji
        intro ej hej ep2 hep2
        rw [Option.mem_def, hei] at hej
        rw [Option.mem_def, ← hpar, hep] at hep2
        obtain rfl : ei = ej := by simpa using hej
        obtain rfl : ep = ep2 := by simpa using hep2
        exact hcmp
      · exact hok j hj hj0 hji

/-- Characterization of the `smallest` computation in `heapify_down`: it
either keeps `i` (and then no child is less than `i`), or selects a child
that is less than `i` and not greater than the other child. -/
theorem smallestChild_ok (S : Event → Prop)
    (htr : ∀ a b c, S a → S b → S c → eventLt a b → eventLt b c → eventLt a c)
    {q : EventQueue} {i : ℕ} (hq : StructOk q) (hlen : q.heap.length < NULL)
    (hi : i < q.heap.length) (hcov : coversHeap q S) :
    ∃ sm, q.smallestChild i = .ok sm ∧
      ((sm = i ∧
        (∀ c, c < q.heap.length → (c - 1) / 2 = i → c ≠ i →
          ∀ ec ∈ q.eventAt c, ∀ ei ∈ q.eventAt i, ¬ eventLt ec ei))
       ∨ (i < sm ∧ sm < q.heap.length ∧ (sm - 1) / 2 = i ∧
          (∀ es ∈ q.eventAt sm, ∀ ei ∈ q.eventAt i, eventLt es ei) ∧
          (∀ o, o < q.heap.length → (o - 1) / 2 = i → o ≠ sm → o ≠ i →
            ∀ eo ∈ q.eventAt o, ∀ es ∈ q.eventAt sm, ¬ eventLt eo es))) := by
  have hiNN : i ≠ NULL := by omega
  have hlchar : q.leftIdx i = if q.heap.length > 2*i + 1 then 2*i + 1 else NULL := by
    unfold EventQueue.leftIdx
    rw [if_neg hiNN]
  have hrchar : q.rightIdx i = if q.heap.length > 2*i + 2 then 2*i + 2 else NULL := by
    unfold EventQueue.rightIdx
    rw [if_neg hiNN]
  obtain ⟨ei, hei⟩ := eventAt_isSome hq hi
  have hSei : S ei := hcov i hi ei (by simpa [Option.mem_def] using hei)
  have hchild : ∀ c, (c - 1) / 2 = i → c ≠ i → 2*i + 1 ≤ c ∧ c ≤ 2*i + 2 := by
    intro c h1 h2
    omega
  unfold EventQueue.smallestChild
  by_cases hL : 2*i + 1 < q.heap.length
  · have hl : q.leftIdx i = 2*i + 1 := by rw [hlchar, if_pos hL]
    obtain ⟨el, hel⟩ := eventAt_isSome hq hL
    have hSel : S el := hcov _ hL el (by simpa [Option.mem_def] using hel)
    have houter : (if q.leftIdx i ≠ NULL then q.ltAt (q.leftIdx i) i
        else .ok false : Except String Bool)
        = .ok (decide (Event.cmp el ei = Ordering.lt)) := by
      rw [if_pos (by rw [hl]; omega : q.leftIdx i ≠ NULL)]
      unfold EventQueue.ltAt
      rw [hl, hel, hei]
    split
    · rename_i e heq
      rw [houter] at heq
      simp at heq
    · rename_i bl hblEq
      rw [houter] at hblEq
      obtain rfl : decide (Event.cmp el ei = Ordering.lt) = bl := by simpa using hblEq
      by_cases hR : 2*i + 2 < q.heap.length
      · have hr : q.rightIdx i = 2*i + 2 := by rw [hrchar, if_pos hR]
        obtain ⟨er, her⟩ := eventAt_isSome hq hR
        have hSer : S er := hcov _ hR er (by simpa [Option.mem_def] using her)
        by_cases hbl : eventLt el ei
        · rw [show decide (Event.cmp el ei = Ordering.lt) = true from decide_eq_true hbl]
          have hif : (if true = true then q.leftIdx i else i) = q.leftIdx i := rfl
          rw [hif]
          have hinner : (if q.rightIdx i ≠ NULL then q.ltAt (q.rightIdx i) (q.leftIdx i)
              else .ok false : Except String Bool)
              = .ok (decide (Event.cmp er el = Ordering.lt)) := by
            rw [if_pos (by rw [hr]; omega : q.rightIdx i ≠ NULL)]
            unfold EventQueue.ltAt
            rw [hr, hl, her, hel]
          split
          · rename_i e heq
            rw [hinner] at heq
            simp at heq
          · rename_i br hbrEq
            rw [hinner] at hbrEq
            obtain rfl : decide (Event.cmp er el = Ordering.lt) = br := by
              simpa using hbrEq
            by_cases hbr : eventLt er el
            · rw [show decide (Event.cmp er el = Ordering.lt) = true from
                decide_eq_true hbr]
              refine ⟨2*i + 2, by rw [hr]; rfl, Or.inr ⟨by omega, hR, by omega, ?_, ?_⟩⟩
              · intro es hes ei2 hei2
                rw [Option.mem_def, her] at hes
                obtain rfl : er = es := by simpa using hes
                rw [Option.mem_def, hei] at hei2
                obtain rfl : ei = ei2 := by simpa using hei2
                exact htr er el ei hSer hSel hSei hbr hbl
              · intro o ho hop hosm hoi eo heo es hes
                obtain rfl : o = 2*i + 1 := by
                  have := hchild o hop hoi
                  omega
                rw [Option.mem_def, hel] at heo
                obtain rfl : el = eo := by simpa using heo
                rw [Option.mem_def, her] at hes
                obtain rfl : er = es := by simpa using hes
                exact eventLt_asymm hbr
            · rw [show decide (Event.cmp er el = Ordering.lt) = false from
                decide_eq_false hbr]
              refine ⟨2*i + 1, by rw [hl]; rfl, Or.inr ⟨by omega, hL, by omega, ?_, ?_⟩⟩
              · intro es hes ei2 hei2
                rw [Option.mem_def, hel] at hes
                obtain rfl : el = es := by simpa using hes
                rw [Option.mem_def, hei] at hei2
                obtain rfl : ei = ei2 := by simpa using hei2
                exact hbl
              · intro o ho hop hosm hoi eo heo es hes
                obtain rfl : o = 2*i + 2 := by
                  have := hchild o hop hoi
                  omega
                rw [Option.mem_def, her] at heo
                obtain rfl : er = eo := by simpa using heo
                rw [Option.mem_def, hel] at hes
                obtain rfl : el = es := by simpa using hes
                exact hbr
        · rw [show decide (Event.cmp el ei = Ordering.lt) = false from
            decide_eq_false hbl]
          have hif : (if false = true then q.leftIdx i else i) = i := rfl
          rw [hif]
          have hinner : (if q.rightIdx i ≠ NULL then q.ltAt (q.rightIdx i) i
              else .ok false : Except String Bool)
              = .ok (decide (Event.cmp er ei = Ordering.lt)) := by
            rw [if_pos (by rw [hr]; omega : q.rightIdx i ≠ NULL)]
            unfold EventQueue.ltAt
            rw [hr, her, hei]
          split
          · rename_i e heq
            rw [hinner] at heq
            simp at heq
          · rename_i br hbrEq
            rw [hinner] at hbrEq
            obtain rfl : decide (Event.cmp er ei = Ordering.lt) = br := by
              simpa using hbrEq
            by_cases hbr : eventLt er ei
            · rw [show decide (Event.cmp er ei = Ordering.lt) = true from
                decide_eq_true hbr]
              refine ⟨2*i + 2, by rw [hr]; rfl, Or.inr ⟨by omega, hR, by omega, ?_, ?_⟩⟩
              · intro es hes ei2 hei2
                rw [Option.mem_def, her] at hes
                obtain rfl : er = es := by simpa using hes
                rw [Option.mem_def, hei] at hei2
                obtain rfl : ei = ei2 := by simpa using hei2
                exact hbr
              · intro o ho hop hosm hoi eo heo es hes
                obtain rfl : o = 2*i + 1 := by
                  have := hchild o hop hoi
                  omega
                rw [Option.mem_def, hel] at heo
                obtain rfl : el = eo := by simpa using heo
                rw [Option.mem_def, her] at hes
                obtain rfl : er = es := by simpa using hes
                intro hcon
                exact hbl (htr el er ei hSel hSer hSei hcon hbr)
            · rw [show decide (Event.cmp er ei = Ordering.lt) = false from
                decide_eq_false hbr]
              refine ⟨i, rfl, Or.inl ⟨rfl, ?_⟩⟩
              intro c hc hcp hci ec hec ei2 hei2
              rw [Option.mem_def, hei] at hei2
              obtain rfl : ei = ei2 := by simpa using hei2
              rcases (by have := hchild c hcp hci; omega : c = 2*i + 1 ∨ c = 2*i + 2)
                with rfl | rfl
              · rw [Option.mem_def, hel] at hec
                obtain rfl : el = ec := by simpa using hec
                exact hbl
              · rw [Option.mem_def, her] at hec
                obtain rfl : er = ec := by simpa using hec
                exact hbr
      · have hr : q.rightIdx i = NULL := by rw [hrchar, if_neg hR]
        have hinner : ∀ x : ℕ, (if q.rightIdx i ≠ NULL then q.ltAt (q.rightIdx i) x
            else .ok false : Except String Bool) = .ok false := by
          intro x
          rw [if_neg (by rw [hr]; simp)]
        by_cases hbl : eventLt el ei
        · rw [show decide (Event.cmp el ei = Ordering.lt) = true from decide_eq_true hbl]
          have hif : (if true = true then q.leftIdx i else i) = q.leftIdx i := rfl
          rw [hif]
          split
          · rename_i e heq
            rw [hinner] at heq
            simp at heq
          · rename_i br hbrEq
            rw [hinner] at hbrEq
            obtain rfl : false = br := by simpa using hbrEq
            refine ⟨2*i + 1, by rw [hl]; rfl, Or.inr ⟨by omega, hL, by omega, ?_, ?_⟩⟩
            · intro es hes ei2 hei2
              rw [Option.mem_def, hel] at hes
              obtain rfl : el = es := by simpa using hes
              rw [Option.mem_def, hei] at hei2
              obtain rfl : ei = ei2 := by simpa using hei2
              exact hbl
            · intro o ho hop hosm hoi eo heo es hes
              exfalso
              have := hchild o hop hoi
              omega
        · rw [show decide (Event.cmp el ei = Ordering.lt) = false from
            decide_eq_false hbl]
          have hif : (if false = true then q.leftIdx i else i) = i := rfl
          rw [hif]
          split
          · rename_i e heq
            rw [hinner] at heq
            simp at heq
          · rename_i br hbrEq
            rw [hinner] at hbrEq
            obtain rfl : false = br := by simpa using hbrEq
            refine ⟨i, rfl, Or.inl ⟨rfl, ?_⟩⟩
            intro c hc hcp hci ec hec ei2 hei2
            rw [Option.mem_def, hei] at hei2
            obtain rfl : ei = ei2 := by simpa using hei2
            obtain rfl : c = 2*i + 1 := by
              have := hchild c hcp hci
              omega
            rw [Option.mem_def, hel] at hec
            obtain rfl : el = ec := by simpa using hec
            exact hbl
  · have hl : q.leftIdx i = NULL := by rw [hlchar, if_neg hL]
    have houter : (if q.leftIdx i ≠ NULL then q.ltAt (q.leftIdx i) i
        else .ok false : Except String Bool) = .ok false := by
      rw [if_neg (by rw [hl]; simp)]
    have hr : q.rightIdx i = NULL := by
      rw [hrchar, if_neg (by omega)]
    split
    · rename_i e heq
      rw [houter] at heq
      simp at heq
    · rename_i bl hblEq
      rw [houter] at hblEq
      obtain rfl : false = bl := by simpa using hblEq
      have hinner : (if q.rightIdx i ≠ NULL
          then q.ltAt (q.rightIdx i) (if false = true then q.leftIdx i else i)
          else .ok false : Except String Bool) = .ok false := by
        rw [if_neg (by rw [hr]; simp)]
      split
      · rename_i e heq
        rw [hinner] at heq
        simp at heq
      · rename_i br hbrEq
        rw [hinner] at hbrEq
        obtain rfl : false = br := by simpa using hbrEq
        refine ⟨i, rfl, Or.inl ⟨rfl, ?_⟩⟩
        intro c hc hcp hci ec hec ei2 hei2
        exfalso
        have := hchild c hcp hci
        omega

theorem heapify_down_spec (S : Event → Prop)
    (htr : ∀ a b c, S a → S b → S c → eventLt a b → eventLt b c → eventLt a c)
    (hntr : ∀ a b c, S a → S b → S c → ¬ eventLt a b → ¬ eventLt b c → ¬ eventLt a c) :
    ∀ n q i, q.heap.length - i ≤ n → StructOk q → q.heap.length < NULL →
      i < q.heap.length → coversHeap q S → heapOkExceptDown q i → bridge q i →
      ∃ q', q.heapify_down i = .ok q' ∧ StructOk q' ∧
        q'.events = q.events ∧ q'.heap.length = q.heap.length ∧
        (∀ p, p ∈ q'.heap ↔ p ∈ q.heap) ∧
        heapOkExcept q' i ∧ (q' = q ∨ HeapProp q') := by
  intro n
  induction n with
  | zero =>
    intro q i hn hq hlen hi hcov hok hbr
    omega
  | succ n IHn =>
    intro q i hn hq hlen hi hcov hok hbr
    obtain ⟨sm, hsmEq, hchar⟩ := smallestChild_ok S htr hq hlen hi hcov
    rw [EventQueue.heapify_down.eq_def]
    split
    · rename_i e heq
      rw [hsmEq] at heq
      simp at heq
    · rename_i sm2 heq
      rw [hsmEq] at heq
      obtain rfl : sm = sm2 := by simpa using heq
      by_cases hne : sm ≠ i
      · rw [dif_pos hne]
        rcases hchar with ⟨hsmi, _⟩ | ⟨hisml, hsml, hsmp, hsmlt, hother⟩
        · exact absurd hsmi hne
        · obtain ⟨q1, hswapEq, hq1ev, hq1len, hq1heap, hq1mem, hq1struct⟩ :=
            swap_spec hsml hi
          have hevAt : ∀ k, q1.eventAt k =
              if k = i then q.eventAt sm else if k = sm then q.eventAt i
              else q.eventAt k := by
            intro k
            unfold EventQueue.eventAt
            rw [hq1ev, hq1heap k]
            split_ifs <;> rfl
          obtain ⟨ei, hei⟩ := eventAt_isSome hq hi
          obtain ⟨esm, hesm⟩ := eventAt_isSome hq hsml
          have hlt_sm_i : eventLt esm ei :=
            hsmlt esm (by simpa [Option.mem_def] using hesm)
              ei (by simpa [Option.mem_def] using hei)
          have hcov1 : coversHeap q1 S := by
            intro k hk e he
            rw [hq1len] at hk
            rw [hevAt k] at he
            split_ifs at he
            · exact hcov sm hsml e he
            · exact hcov i hi e he
            · exact hcov k hk e he
          have hok1 : heapOkExceptDown q1 sm := by
            intro j hj hj0 hjsm hjpar
            rw [hq1len] at hj
            intro ej hej ep2 hep2
            rw [hevAt j] at hej
            rw [hevAt ((j - 1) / 2)] at hep2
            by_cases hji : j = i
            · rw [hji, if_pos rfl] at hej
              rw [Option.mem_def, hesm] at hej
              obtain rfl : esm = ej := by simpa using hej
              rw [hji] at hep2
              rw [if_neg (by omega), if_neg (by omega)] at hep2
              exact hbr (by omega) sm hsml hsmp esm
                (by simpa [Option.mem_def] using hesm) ep2 hep2
            · by_cases hjc : (j - 1) / 2 = i
              · rw [if_neg hji, if_neg hjsm] at hej
                rw [hjc, if_pos rfl] at hep2
                rw [Option.mem_def, hesm] at hep2
                obtain rfl : esm = ep2 := by simpa using hep2
                exact hother j hj hjc hjsm hji ej hej esm
                  (by simpa [Option.mem_def] using hesm)
              · rw [if_neg hji, if_neg hjsm] at hej
                rw [if_neg hjc, if_neg hjpar] at hep2
                exact hok j hj hj0 hji hjc ej hej ep2 hep2
          have hbr1 : bridge q1 sm := by
            intro hsm0 c hc hcP ec hec ep2 hep2
            rw [hq1len] at hc
            rw [hevAt c] at hec
            rw [hevAt ((sm - 1) / 2)] at hep2
            rw [hsmp, if_pos rfl] at hep2
            rw [Option.mem_def, hesm] at hep2
            obtain rfl : esm = ep2 := by simpa using hep2
            have hcgt : sm < c := by omega
            rw [if_neg (by omega), if_neg (by omega)] at hec
            refine hok c hc (by omega) (by omega) (by omega) ec hec esm ?_
            rw [hcP]
            simpa [Option.mem_def] using hesm
          obtain ⟨q2, hrec, hq2struct, hq2ev, hq2len, hq2mem, hq2ok, hq2disj⟩ :=
            IHn q1 sm (by rw [hq1len]; omega) (hq1struct hq) (by rwa [hq1len])
              (by rw [hq1len]; exact hsml) hcov1 hok1 hbr1
          have hq2hp : HeapProp q2 := by
            have hedge_sm : noLtParent q2 sm := by
              rcases hq2disj with rfl | hfull
              · intro ej hej ep2 hep2
                rw [hevAt sm] at hej
                rw [if_neg hne, if_pos rfl] at hej
                rw [Option.mem_def, hei] at hej
                obtain rfl : ei = ej := by simpa using hej
                rw [hsmp] at hep2
                rw [hevAt i, if_pos rfl] at hep2
                rw [Option.mem_def, hesm] at hep2
                obtain rfl : esm = ep2 := by simpa using hep2
                exact eventLt_asymm hlt_sm_i
              · exact hfull sm (by rw [hq2len, hq1len]; exact hsml) (by omega)
            intro j hj hj0
            by_cases hjsm : j = sm
            · rw [hjsm]
              exact hedge_sm
            · exact hq2ok j hj hj0 hjsm
          refine ⟨q2, ?_, hq2struct, by rw [hq2ev, hq1ev], by rw [hq2len, hq1len],
            fun p => (hq2mem p).trans (hq1mem p), ?_, Or.inr hq2hp⟩
          · split
            · rename_i e heq2
              rw [hswapEq] at heq2
              simp at heq2
            · rename_i q1' heq2
              rw [hswapEq] at heq2
              obtain rfl : q1 = q1' := by simpa using heq2
              exact hrec
          · intro j hj hj0 hji
            exact hq2hp j hj hj0
      · rw [dif_neg hne]
        push_neg at hne
        rcases hchar with ⟨_, hno⟩ | ⟨hisml, _⟩
        · refine ⟨q, rfl, hq, rfl, rfl, fun p => Iff.rfl, ?_, Or.inl rfl⟩
          intro j hj hj0 hji
          by_cases hjc : (j - 1) / 2 = i
          · intro ej hej ep2 hep2
            rw [hjc] at hep2
            exact hno j hj hjc hji ej hej ep2 hep2
          · exact hok j hj hj0 hji hjc
        · omega

theorem Slab.get_some_lt {T : Type} {s : Slab T} {k : ℕ} {v : T}
    (h : s.get k = some v) : k < s.entries.length := by
  unfold Slab.get at h
  rcases hx : s.entries[k]? with _ | en
  · rw [hx] at h
    simp at h
  · exact (List.getElem?_eq_some.mp hx).1

theorem Slab.get_none_of_le {T : Type} {s : Slab T} {k : ℕ}
    (h : s.entries.length ≤ k) : s.get k = none := by
  unfold Slab.get
  rw [List.getElem?_eq_none h]

theorem Slab.length_insert_ge {T : Type} (s : Slab T) (v : T) :
    s.entries.length ≤ (s.insert v).2.entries.length := by
  unfold Slab.insert
  split
  · simp
  · split
    · simp
    · simp

/-- All events held in occupied arena slots. -/
def arenaEvents (q : EventQueue) : List Event :=
  q.events.entries.filterMap (fun en => match en with
    | .occupied v => some v
    | .vacant _ => none)

theorem arenaEvents_mem {q : EventQueue} {p : ℕ} {ev : Event}
    (h : q.events.get p = some ev) : ev ∈ arenaEvents q := by
  unfold Slab.get at h
  rcases hx : q.events.entries[p]? with _ | en
  · rw [hx] at h
    simp at h
  · rw [hx] at h
    cases en with
    | occupied v =>
      have hv : v = ev := by simpa using h
      exact List.mem_filterMap.mpr ⟨.occupied v, mem_of_getElem?_some hx, by rw [hv]⟩
    | vacant nx => simp at h

/-- `insert` on a valid queue whose event comparison is a strict weak order
on the relevant events succeeds and restores validity. -/
theorem insert_preserves_valid (S : Event → Prop)
    (htr : ∀ a b c, S a → S b → S c → eventLt a b → eventLt b c → eventLt a c)
    (hntr : ∀ a b c, S a → S b → S c → ¬ eventLt a b → ¬ eventLt b c → ¬ eventLt a c)
    {q : EventQueue} {e : Event} (hval : ValidQ q)
    (hlen : q.heap.length + 1 < NULL)
    (hcov : coversHeap q S) (hSe : S e) :
    ∃ p q', q.insert e = .ok (p, q') ∧ ValidQ q' := by
  obtain ⟨hhp, hMH, hMD, hAD⟩ := hval
  simp only [EventQueue.insert]
  set ptr0 := (q.events.insert e).1 with hptr_def
  set ev1 := (q.events.insert e).2 with hev_def
  have hget1 : ∀ k, ev1.get k = if k = ptr0 then some e else q.events.get k :=
    Slab.get_insert q.events e
  have hget0 : q.events.get ptr0 = none := Slab.get_insert_key q.events e
  have hfresh : ptr0 ∉ q.heap := by
    intro hmem
    have h1 := hAD.2 ptr0 hmem
    have h2 := (hAD.1 ptr0 h1).mpr hmem
    rw [hget0] at h2
    simp at h2
  have hlen1 : (q.heap ++ [ptr0]).length - 1 = q.heap.length := by simp
  rw [hlen1]
  set q1 : EventQueue :=
    { events := ev1, heap := q.heap ++ [ptr0],
      heap_indices_by_events :=
        mapInsert q.heap_indices_by_events ptr0 q.heap.length } with hq1_def
  have hq1len : q1.heap.length = q.heap.length + 1 := by simp [hq1_def]
  have hheap1 : ∀ k, q1.heap[k]? =
      if k = q.heap.length then some ptr0 else q.heap[k]? := by
    intro k
    show (q.heap ++ [ptr0])[k]? = _
    rcases Nat.lt_trichotomy k q.heap.length with h | h | h
    · rw [List.getElem?_append_left h, if_neg (by omega)]
    · subst h
      rw [List.getElem?_concat_length, if_pos rfl]
    · rw [List.getElem?_append_right (by omega), if_neg (by omega),
        List.getElem?_eq_none (l := q.heap) (by omega),
        List.getElem?_eq_none (by simp; omega)]
  have hevAt1 : ∀ k, q1.eventAt k =
      if k = q.heap.length then some e else q.eventAt k := by
    intro k
    unfold EventQueue.eventAt
    rw [show q1.events = ev1 from rfl, hheap1 k]
    by_cases hk : k = q.heap.length
    · rw [if_pos hk, if_pos hk]
      show ev1.get ptr0 = some e
      rw [hget1, if_pos rfl]
    · rw [if_neg hk, if_neg hk]
      rcases hy : q.heap[k]? with _ | p
      · rfl
      · show ev1.get p = q.events.get p
        rw [hget1, if_neg ?_]
        intro hcon
        exact hfresh (hcon ▸ mem_of_getElem?_some hy)
  have hq1struct : StructOk q1 := by
    refine ⟨?_, ?_, ?_, ?_⟩
    · -- MapHeap
      intro k hk p hp
      rw [Option.mem_def, hheap1 k] at hp
      show mapGet (mapInsert _ ptr0 q.heap.length) p = some k
      rw [mapGet_insert]
      by_cases hkl : k = q.heap.length
      · rw [if_pos hkl] at hp
        obtain rfl : ptr0 = p := by simpa using hp
        rw [if_pos rfl, hkl]
      · rw [if_neg hkl] at hp
        have hpmem : p ∈ q.heap := mem_of_getElem?_some hp
        rw [if_neg (by rintro rfl; exact hfresh hpmem)]
        exact hMH k (List.getElem?_eq_some.mp hp).1 p
          (by simpa [Option.mem_def] using hp)
    · -- MapDom
      intro pr hpr jx hjx
      rw [Option.mem_def,
        show q1.heap_indices_by_events
          = mapInsert q.heap_indices_by_events ptr0 q.heap.length from rfl,
        mapGet_insert] at hjx
      by_cases hpp : pr.1 = ptr0
      · rw [if_pos hpp] at hjx
        obtain rfl : q.heap.length = jx := by simpa using hjx
        refine ⟨by rw [hq1len]; omega, ?_⟩
        rw [hheap1, if_pos rfl, hpp]
      · rw [if_neg hpp] at hjx
        obtain ⟨h1, h2⟩ := mapDom_get hMD hjx
        refine ⟨by rw [hq1len]; omega, ?_⟩
        rw [hheap1, if_neg (by omega), h2]
    · -- ArenaDom, occupied slots are exactly the heap pointers
      intro k hk
      show (ev1.get k).isSome ↔ k ∈ q1.heap
      rw [hget1 k]
      by_cases hkp : k = ptr0
      · rw [if_pos hkp]
        simp only [hq1_def, hkp]
        simp
      · rw [if_neg hkp]
        have hqmem : (q.events.get k).isSome ↔ k ∈ q.heap := by
          by_cases hklen : k < q.events.entries.length
          · exact hAD.1 k hklen
          · rw [Slab.get_none_of_le (by omega)]
            simp only [Option.isSome_none, Bool.false_eq_true, false_iff]
            intro hcon
            exact absurd (hAD.2 k hcon) (by omega)
        rw [hqmem]
        show k ∈ q.heap ↔ k ∈ q.heap ++ [ptr0]
        simp [hkp]
    · -- ArenaDom, heap pointers in range
      intro p hp
      show p < ev1.entries.length
      rcases (by simpa [hq1_def] using hp : p ∈ q.heap ∨ p = ptr0) with h | h
      · have h1 := hAD.2 p h
        have h2 := Slab.length_insert_ge q.events e
        rw [← hev_def] at h2
        omega
      · have hsome : ev1.get p = some e := by rw [hget1, if_pos h]
        exact Slab.get_some_lt hsome
  have hok1 : heapOkExcept q1 q.heap.length := by
    intro j hj hj0 hjne
    rw [hq1len] at hj
    have hjlt : j < q.heap.length := by omega
    intro ej hej ep2 hep2
    rw [hevAt1 j, if_neg (by omega)] at hej
    rw [hevAt1 ((j - 1) / 2), if_neg (by omega)] at hep2
    exact hhp j hjlt hj0 ej hej ep2 hep2
  have hbr1 : bridge q1 q.heap.length := by
    intro h0 c hc hcp ec hec ep2 hep2
    rw [hq1len] at hc
    exfalso
    omega
  have hcov1 : coversHeap q1 S := by
    intro k hk ev hev
    rw [hevAt1 k] at hev
    by_cases hkl : k = q.heap.length
    · rw [if_pos hkl] at hev
      obtain rfl : e = ev := by simpa [Option.mem_def] using hev
      exact hSe
    · rw [if_neg hkl] at hev
      rw [hq1len] at hk
      exact hcov k (by omega) ev hev
  obtain ⟨q2, hup, hq2struct, hq2hp, hq2ev, hq2len, hq2mem⟩ :=
    heapify_up_spec S htr hntr q.heap.length q1 hq1struct
      (by rw [hq1len]; omega) (by rw [hq1len]; omega) hcov1 hok1 hbr1
  refine ⟨ptr0, q2, ?_, hq2hp, hq2struct⟩
  rw [hup]

theorem Slab.remove_length {T : Type} {s : Slab T} {k : ℕ} {v : T} {s' : Slab T}
    (h : s.remove k = some (v, s')) : s'.entries.length = s.entries.length := by
  unfold Slab.remove at h
  split at h
  · rename_i w hw
    obtain ⟨-, rfl⟩ : w = v ∧ (⟨s.entries.set k (.vacant s.next), k⟩ : Slab T) = s' := by
      simpa using h
    simp
  · simp at h

/-- Common backbone of `pop` and `delete`: swap the slot at `index` with the
last slot, remove the victim's arena entry, drop the last heap slot and its
map entry.  Gives the resulting state, its consistency, and the sift-down
preconditions at `index`. -/
theorem removeAt_spec (S : Event → Prop)
    (hntr : ∀ a b c, S a → S b → S c → ¬ eventLt a b → ¬ eventLt b c → ¬ eventLt a c)
    {q : EventQueue} {index : ℕ}
    (hq : StructOk q) (hhp : HeapProp q) (hcov : coversHeap q S)
    (hidx : index < q.heap.length) :
    ∃ ptr evv events2 q1 q2,
      q.heap[index]? = some ptr ∧
      q.swap index (q.heap.length - 1) = .ok q1 ∧
      q1.events.remove ptr = some (evv, events2) ∧
      q.eventAt index = some evv ∧
      q2 = { events := events2, heap := q1.heap.dropLast,
             heap_indices_by_events := mapErase q1.heap_indices_by_events ptr } ∧
      StructOk q2 ∧
      q2.heap.length = q.heap.length - 1 ∧
      (∀ k, k < q.heap.length - 1 →
        q2.eventAt k = if k = index then q.eventAt (q.heap.length - 1)
          else q.eventAt k) ∧
      coversHeap q2 S ∧
      heapOkExceptDown q2 index ∧
      bridge q2 index := by
  obtain ⟨hMH, hMD, hAD⟩ := hq
  have hlast : q.heap.length - 1 < q.heap.length := by omega
  have hptr : q.heap[index]? = some q.heap[index] := List.getElem?_eq_getElem hidx
  set ptr := q.heap[index] with hptr_def
  clear_value ptr
  obtain ⟨q1, hswapEq, hq1ev, hq1len, hq1heap, hq1mem, hq1struct⟩ :=
    swap_spec hidx hlast
  have hq1s := hq1struct ⟨hMH, hMD, hAD⟩
  have hptrmem : ptr ∈ q.heap := mem_of_getElem?_some hptr
  have hgetptr : (q.events.get ptr).isSome := by
    rw [hAD.1 ptr (hAD.2 ptr hptrmem)]
    exact hptrmem
  rcases hgv : q.events.get ptr with _ | evv
  · rw [hgv] at hgetptr
    simp at hgetptr
  rcases ho : q1.events.remove ptr with _ | pr
  · have := Slab.remove_isSome q1.events ptr
    rw [ho, hq1ev, hgv] at this
    simp at this
  obtain ⟨evv2, events2⟩ := pr
  obtain ⟨hoget, hoall⟩ := Slab.remove_eq_some ho
  have hevv2 : evv = evv2 := by
    rw [hq1ev, hgv] at hoget
    simpa using hoget
  subst hevv2
  have hremlen : events2.entries.length = q.events.entries.length := by
    have := Slab.remove_length ho
    rwa [hq1ev] at this
  have hget2 : ∀ j, events2.get j = if j = ptr then none else q.events.get j := by
    intro j
    rw [hoall j, hq1ev]
  set q2 : EventQueue :=
    { events := events2, heap := q1.heap.dropLast,
      heap_indices_by_events := mapErase q1.heap_indices_by_events ptr } with hq2_def
  have hq2len : q2.heap.length = q.heap.length - 1 := by
    show q1.heap.dropLast.length = _
    rw [List.length_dropLast, hq1len]
  have hq2heap : ∀ k, k < q.heap.length - 1 →
      q2.heap[k]? = if k = index then q.heap[q.heap.length - 1]?
        else q.heap[k]? := by
    intro k hk
    show q1.heap.dropLast[k]? = _
    rw [List.getElem?_dropLast, if_pos (by omega : k < q1.heap.length - 1),
      hq1heap k, if_neg (by omega : ¬ k = q.heap.length - 1)]
  have hinj : ∀ k1 k2 p, q.heap[k1]? = some p → q.heap[k2]? = some p → k1 = k2 :=
    fun k1 k2 p h1 h2 => heap_ptr_inj hMH h1 h2
  have hq2ptr_free : ∀ k, k < q.heap.length - 1 →
      ∀ p, q2.heap[k]? = some p → p ≠ ptr := by
    intro k hk p hp hcon
    subst hcon
    rw [hq2heap k hk] at hp
    by_cases hki : k = index
    · rw [if_pos hki] at hp
      have := hinj (q.heap.length - 1) index p hp hptr
      omega
    · rw [if_neg hki] at hp
      exact hki (hinj k index p hp hptr)
  have hq2evAt : ∀ k, k < q.heap.length - 1 →
      q2.eventAt k = if k = index then q.eventAt (q.heap.length - 1)
        else q.eventAt k := by
    intro k hk
    unfold EventQueue.eventAt
    rw [show q2.events = events2 from rfl, hq2heap k hk]
    by_cases hki : k = index
    · rw [if_pos hki, if_pos hki]
      rcases hy : q.heap[q.heap.length - 1]? with _ | p
      · rfl
      · show events2.get p = q.events.get p
        rw [hget2, if_neg ?_]
        intro hcon
        subst hcon
        have := hinj (q.heap.length - 1) index p hy hptr
        omega
    · rw [if_neg hki, if_neg hki]
      rcases hy : q.heap[k]? with _ | p
      · rfl
      · show events2.get p = q.events.get p
        rw [hget2, if_neg ?_]
        intro hcon
        subst hcon
        exact hki (hinj k index p hy hptr)
  have hq2mem : ∀ p, p ∈ q2.heap ↔ (p ∈ q.heap ∧ p ≠ ptr) := by
    intro p
    constructor
    · intro hp
      rcases List.mem_iff_getElem?.mp hp with ⟨n, hn⟩
      have hnlen : n < q.heap.length - 1 := by
        have := (List.getElem?_eq_some.mp hn).1
        rw [hq2len] at this
        exact this
      refine ⟨?_, hq2ptr_free n hnlen p hn⟩
      rw [hq2heap n hnlen] at hn
      split_ifs at hn
      · exact mem_of_getElem?_some hn
      · exact mem_of_getElem?_some hn
    · rintro ⟨hp, hpne⟩
      rcases List.mem_iff_getElem?.mp hp with ⟨n, hn⟩
      have hni : n ≠ index := by
        intro hcon
        subst hcon
        rw [hptr] at hn
        exact hpne (by simpa using hn.symm)
      by_cases hnl : n = q.heap.length - 1
      · have hidx_lt : index < q.heap.length - 1 := by omega
        refine List.mem_iff_getElem?.mpr ⟨index, ?_⟩
        rw [hq2heap index hidx_lt, if_pos rfl, ← hnl]
        exact hn
      · have hnlen : n < q.heap.length - 1 := by
          have := (List.getElem?_eq_some.mp hn).1
          omega
        refine List.mem_iff_getElem?.mpr ⟨n, ?_⟩
        rw [hq2heap n hnlen, if_neg hni]
        exact hn
  refine ⟨ptr, evv, events2, q1, q2, hptr, hswapEq, ho, ?_, hq2_def, ?_, hq2len,
    hq2evAt, ?_, ?_, ?_⟩
  · unfold EventQueue.eventAt
    rw [hptr]
    exact hgv
  · -- StructOk q2
    obtain ⟨hMH1, hMD1, hAD1⟩ := hq1s
    refine ⟨?_, ?_, ?_, ?_⟩
    · intro k hk p hp
      rw [hq2len] at hk
      rw [Option.mem_def] at hp
      have hpne : p ≠ ptr := hq2ptr_free k hk p hp
      show mapGet (mapErase q1.heap_indices_by_events ptr) p = some k
      rw [mapGet_erase, if_neg hpne]
      have hp1 : q1.heap[k]? = some p := by
        have hh : (q1.heap.dropLast)[k]? = some p := hp
        rwa [List.getElem?_dropLast, if_pos (by omega : k < q1.heap.length - 1)] at hh
      exact hMH1 k (by omega) p (by simpa [Option.mem_def] using hp1)
    · intro pr hpr jx hjx
      rw [Option.mem_def,
        show q2.heap_indices_by_events = mapErase q1.heap_indices_by_events ptr
          from rfl,
        mapGet_erase] at hjx
      by_cases hpp : pr.1 = ptr
      · rw [if_pos hpp] at hjx
        simp at hjx
      · rw [if_neg hpp] at hjx
        obtain ⟨h1, h2⟩ := mapDom_get hMD1 hjx
        have hjxne : jx ≠ q.heap.length - 1 := by
          intro hcon
          subst hcon
          rw [hq1heap (q.heap.length - 1), if_pos rfl, hptr] at h2
          exact hpp (by simpa using h2.symm)
        refine ⟨by rw [hq2len]; omega, ?_⟩
        show (q1.heap.dropLast)[jx]? = some pr.1
        rw [List.getElem?_dropLast, if_pos (by omega)]
        exact h2
    · intro k hk
      show (events2.get k).isSome ↔ k ∈ q2.heap
      rw [hget2 k]
      rw [show q2.events = events2 from rfl, hremlen] at hk
      by_cases hkp : k = ptr
      · rw [if_pos hkp]
        simp only [Option.isSome_none, Bool.false_eq_true, false_iff]
        intro hcon
        exact ((hq2mem k).mp hcon).2 hkp
      · rw [if_neg hkp, hAD.1 k hk, hq2mem k]
        constructor
        · intro h
          exact ⟨h, hkp⟩
        · intro h
          exact h.1
    · intro p hp
      show p < events2.entries.length
      rw [hremlen]
      exact hAD.2 p ((hq2mem p).mp hp).1
  · -- coversHeap q2
    intro k hk e he
    rw [hq2len] at hk
    rw [hq2evAt k hk] at he
    split_ifs at he
    · exact hcov _ hlast e he
    · exact hcov k (by omega) e he
  · -- heapOkExceptDown q2 index
    intro j hj hj0 hji hjp
    rw [hq2len] at hj
    intro ej hej ep2 hep2
    rw [hq2evAt j hj, if_neg hji] at hej
    rw [hq2evAt ((j - 1) / 2) (by omega), if_neg hjp] at hep2
    exact hhp j (by omega) hj0 ej hej ep2 hep2
  · -- bridge q2 index
    intro h0 c hc hcp ec hec ep2 hep2
    rw [hq2len] at hc
    have hcgt : index < c := by omega
    rw [hq2evAt c hc, if_neg (by omega)] at hec
    rw [hq2evAt ((index - 1) / 2) (by omega), if_neg (by omega)] at hep2
    have h1 : ¬ eventLt ec evv := by
      refine hhp c (by omega) (by omega) ec hec evv ?_
      rw [hcp]
      unfold EventQueue.eventAt
      rw [hptr]
      simpa [Option.mem_def] using hgv
    have h2 : ¬ eventLt evv ep2 := by
      refine hhp index (by omega) h0 evv ?_ ep2 hep2
      unfold EventQueue.eventAt
      rw [hptr]
      simpa [Option.mem_def] using hgv
    have hSc : S ec := hcov c (by omega) ec hec
    have hSv : S evv := by
      refine hcov index (by omega) evv ?_
      unfold EventQueue.eventAt
      rw [hptr]
      simpa [Option.mem_def] using hgv
    have hSp : S ep2 := hcov ((index - 1) / 2) (by omega) ep2 hep2
    exact hntr ec evv ep2 hSc hSv hSp h1 h2

theorem coversHeap_transfer {q q' : EventQueue} (hev : q'.events = q.events)
    (hmem : ∀ p, p ∈ q'.heap ↔ p ∈ q.heap) {S : Event → Prop}
    (hcov : coversHeap q S) : coversHeap q' S := by
  intro j hj e he
  unfold EventQueue.eventAt at he
  rcases hy : q'.heap[j]? with _ | p
  · rw [hy] at he
    simp at he
  · rw [hy, hev] at he
    have hpm : p ∈ q.heap := (hmem p).mp (mem_of_getElem?_some hy)
    rcases List.mem_iff_getElem?.mp hpm with ⟨k, hk⟩
    refine hcov k (List.getElem?_eq_some.mp hk).1 e ?_
    unfold EventQueue.eventAt
    rw [hk]
    exact he

/-- `pop` on a valid queue succeeds and restores validity. -/
theorem pop_preserves_valid (S : Event → Prop)
    (htr : ∀ a b c, S a → S b → S c → eventLt a b → eventLt b c → eventLt a c)
    (hntr : ∀ a b c, S a → S b → S c → ¬ eventLt a b → ¬ eventLt b c → ¬ eventLt a c)
    {q : EventQueue} (hval : ValidQ q) (hlen : q.heap.length < NULL)
    (hcov : coversHeap q S) :
    ∃ r q', q.pop = .ok (r, q') ∧ ValidQ q' := by
  obtain ⟨hhp, hstruct⟩ := hval
  simp only [EventQueue.pop]
  by_cases h0 : q.heap.length < 1
  · rw [if_pos h0]
    exact ⟨none, q, rfl, hhp, hstruct⟩
  · rw [if_neg h0]
    obtain ⟨ptr, evv, events2, q1, q2, hptr, hswapEq, ho, hevv, hq2def, hq2struct,
      hq2len, hq2evAt, hcov2, hok2, hbr2⟩ :=
      removeAt_spec S hntr hstruct hhp hcov (show 0 < q.heap.length by omega)
    split
    · rename_i heq
      rw [hptr] at heq
      simp at heq
    · rename_i ptr' heq
      rw [hptr] at heq
      obtain rfl : ptr = ptr' := by simpa using heq
      split
      · rename_i e heq2
        rw [hswapEq] at heq2
        simp at heq2
      · rename_i q1' heq2
        rw [hswapEq] at heq2
        obtain rfl : q1 = q1' := by simpa using heq2
        split
        · rename_i heq3
          rw [ho] at heq3
          simp at heq3
        · rename_i evx ev2x heq3
          rw [ho] at heq3
          obtain ⟨rfl, rfl⟩ : evv = evx ∧ events2 = ev2x := by simpa using heq3
          have hclen : q1.heap.dropLast.length = q2.heap.length := by rw [hq2def]
          simp only [← hq2def, hclen]
          by_cases hq2pos : q2.heap.length > 0
          · rw [if_pos hq2pos]
            obtain ⟨q3, hdown, hq3struct, hq3ev, hq3len, hq3mem, hq3ok, hq3disj⟩ :=
              heapify_down_spec S htr hntr q2.heap.length q2 0 (by omega)
                hq2struct (by omega) hq2pos hcov2 hok2 hbr2
            split
            · rename_i e heq4
              rw [hdown] at heq4
              simp at heq4
            · rename_i q3' heq4
              rw [hdown] at heq4
              obtain rfl : q3 = q3' := by simpa using heq4
              refine ⟨some evv, q3, rfl, ?_, hq3struct⟩
              intro j hj hj0
              exact hq3ok j hj hj0 (by omega)
          · rw [if_neg hq2pos]
            refine ⟨some evv, q2, rfl, ?_, hq2struct⟩
            intro j hj hj0
            exfalso
            omega

/-- `delete` on a valid queue succeeds and restores validity. -/
theorem delete_preserves_valid (S : Event → Prop)
    (htr : ∀ a b c, S a → S b → S c → eventLt a b → eventLt b c → eventLt a c)
    (hntr : ∀ a b c, S a → S b → S c → ¬ eventLt a b → ¬ eventLt b c → ¬ eventLt a c)
    {q : EventQueue} {h : ℕ} (hval : ValidQ q) (hlen : q.heap.length < NULL)
    (hcov : coversHeap q S) :
    ∃ r q', q.delete h = .ok (r, q') ∧ ValidQ q' := by
  obtain ⟨hhp, hstruct⟩ := hval
  simp only [EventQueue.delete]
  split
  · exact ⟨none, q, rfl, hhp, hstruct⟩
  · rename_i index hidxEq
    obtain ⟨hidx, hheapidx⟩ := mapDom_get hstruct.2.1 hidxEq
    obtain ⟨ptr, evv, events2, q1, q2, hptr, hswapEq, ho, hevv, hq2def, hq2struct,
      hq2len, hq2evAt, hcov2, hok2, hbr2⟩ :=
      removeAt_spec S hntr hstruct hhp hcov hidx
    have hpeq : ptr = h := by
      rw [hptr] at hheapidx
      simpa using hheapidx
    subst hpeq
    split
    · rename_i e heq2
      rw [hswapEq] at heq2
      simp at heq2
    · rename_i q1' heq2
      rw [hswapEq] at heq2
      obtain rfl : q1 = q1' := by simpa using heq2
      split
      · rename_i heq3
        rw [ho] at heq3
        simp at heq3
      · rename_i evx ev2x heq3
        rw [ho] at heq3
        obtain ⟨rfl, rfl⟩ : evv = evx ∧ events2 = ev2x := by simpa using heq3
        have hclen : q1.heap.dropLast.length = q2.heap.length := by rw [hq2def]
        simp only [← hq2def, hclen]
        by_cases hq2pos : q2.heap.length > index
        · rw [if_pos hq2pos]
          obtain ⟨q3, hdown, hq3struct, hq3ev, hq3len, hq3mem, hq3ok, hq3disj⟩ :=
            heapify_down_spec S htr hntr q2.heap.length q2 index (by omega)
              hq2struct (by omega) hq2pos hcov2 hok2 hbr2
          have hcov3 : coversHeap q3 S := coversHeap_transfer hq3ev hq3mem hcov2
          have hbr3 : bridge q3 index := by
            rcases hq3disj with rfl | hfull
            · exact hbr2
            · intro h0 c hc hcp ec hec ep2 hep2
              obtain ⟨eix, heix⟩ :=
                eventAt_isSome hq3struct (by omega : index < q3.heap.length)
              have h1 : ¬ eventLt ec eix := by
                refine hfull c hc (by omega) ec hec eix ?_
                rw [hcp]
                simpa [Option.mem_def] using heix
              have h2 : ¬ eventLt eix ep2 :=
                hfull index (by omega) h0 eix
                  (by simpa [Option.mem_def] using heix) ep2 hep2
              have hppl : (index - 1) / 2 < q3.heap.length := by omega
              exact hntr ec eix ep2 (hcov3 c hc ec hec)
                (hcov3 index (by omega) eix (by simpa [Option.mem_def] using heix))
                (hcov3 _ hppl ep2 hep2) h1 h2
          obtain ⟨q4, hup, hq4struct, hq4hp, hq4ev, hq4len, hq4mem⟩ :=
            heapify_up_spec S htr hntr index q3 hq3struct (by omega)
              (by omega) hcov3 hq3ok hbr3
          split
          · rename_i e heq4
            rw [hdown] at heq4
            simp at heq4
          · rename_i q3' heq4
            rw [hdown] at heq4
            obtain rfl : q3 = q3' := by simpa using heq4
            split
            · rename_i e heq5
              rw [hup] at heq5
              simp at heq5
            · rename_i q4' heq5
              rw [hup] at heq5
              obtain rfl : q4 = q4' := by simpa using heq5
              exact ⟨some evv, q4, rfl, hq4hp, hq4struct⟩
        · rw [if_neg hq2pos]
          refine ⟨some evv, q2, rfl, ?_, hq2struct⟩
          intro j hj hj0
          exact hok2 j hj hj0 (by omega) (by omega)

/-! ## Claim C4, counterexample

The epsilon comparison is not transitive: with ε = 1e-12, the events
`a = (0, 1.8e-12)`, `b = (1, 0.9e-12)`, `c = (2, 0)` satisfy `a < b < c < a`
(the first two compare by x under ε-equal y's, the last by y).  Inserting a
small event into the valid heap `[b, c, c, a]` bubbles it past `c` and `b`,
making `a` (position 3) a child of `b` (position 1) with `a < b`. -/

def evB : Event := .site ⟨1, 9/10000000000000, 0⟩
def evC1 : Event := .site ⟨2, 0, 1⟩
def evC2 : Event := .site ⟨2, 0, 2⟩
def evA : Event := .site ⟨0, 18/10000000000000, 3⟩
def evD : Event := .site ⟨0, -5, 4⟩

def q4pre : EventQueue :=
  ⟨⟨[.occupied evB, .occupied evC1, .occupied evC2, .occupied evA], 4⟩,
   [0, 1, 2, 3],
   [(0, 0), (1, 1), (2, 2), (3, 3)]⟩

def q4post : EventQueue :=
  ⟨⟨[.occupied evB, .occupied evC1, .occupied evC2, .occupied evA, .occupied evD], 5⟩,
   [4, 0, 2, 3, 1],
   [(0, 1), (4, 0), (1, 4), (2, 2), (3, 3)]⟩

theorem c4_cx_pre_valid : ValidQ q4pre := by
  constructor
  · intro j hj hj0
    replace hj : j < 4 := by simpa [q4pre] using hj
    interval_cases j <;>
      norm_num [noLtParent, EventQueue.eventAt, q4pre, Slab.get, eventLt,
        Event.cmp, Event.happens_at, equals_with_epsilon, EPSILON, abs_lt,
        le_abs, evA, evB, evC1, evC2, Option.mem_def] <;>
      decide
  · refine ⟨?_, ?_, ?_, ?_⟩
    · intro j hj
      replace hj : j < 4 := by simpa [q4pre] using hj
      interval_cases j <;> simp [mapGet, q4pre, Option.mem_def]
    · intro pr hpr
      simp only [q4pre, List.mem_cons, List.not_mem_nil, or_false] at hpr
      rcases hpr with h | h | h | h <;> subst h <;>
        simp [mapEntryOk, mapGet, q4pre, Option.mem_def]
    · intro k hk
      replace hk : k < 4 := by simpa [q4pre] using hk
      simp only [q4pre]
      interval_cases k <;> simp [Slab.get]
    · intro p hp
      simp only [q4pre, List.mem_cons, List.not_mem_nil, or_false] at hp
      simp only [q4pre]
      rcases hp with h | h | h | h <;> subst h <;> simp

theorem c4_cx_insert_eval : q4pre.insert evD = .ok (4, q4post) := by
  norm_num [EventQueue.insert, Slab.insert, mapInsert, mapErase,
    EventQueue.heapify_up, heapParent, NULL, EventQueue.ltAt,
    EventQueue.eventAt, Slab.get, EventQueue.swap, Event.cmp,
    Event.happens_at, equals_with_epsilon, EPSILON, eventLt,
    evB, evC1, evC2, evA, evD, q4pre, q4post]

theorem c4_cx_post_invalid : ¬ HeapProp q4post := by
  intro h
  have h3 := h 3 (by simp [q4post]) (by omega)
  rw [noLtParent] at h3
  have := h3 evA (by simp [q4post, EventQueue.eventAt, Slab.get, Option.mem_def])
    evB (by norm_num [q4post, EventQueue.eventAt, Slab.get, Option.mem_def])
  apply this
  norm_num [eventLt, Event.cmp, Event.happens_at, equals_with_epsilon, EPSILON,
    abs_lt, le_abs, evA, evB]

/-- Claim C4 (counterexample): a valid queue (heap property and map
consistency hold) on which `insert` produces a state violating the heap
property — the ε-tolerant comparison is not transitive. -/
theorem c4_insert_breaks_heap_counterexample :
    ValidQ q4pre ∧ q4pre.insert evD = .ok (4, q4post) ∧ ¬ HeapProp q4post :=
  ⟨c4_cx_pre_valid, c4_cx_insert_eval, c4_cx_post_invalid⟩

/-- Claim C4 (amended): on a valid event queue (heap property plus index-map
consistency) whose heap has room below the null sentinel, and whose stored
events — together with any event being inserted — are drawn from a set on
which the ε-tolerant comparison is transitive and negatively transitive,
each of `insert`, `pop` and `delete` succeeds and restores validity: the
heap array again satisfies the min-heap property (no element compares Less
than its parent) and the handle-to-index map again contains exactly the
live handles, each mapped to its current heap position.  The unamended
claim, which assumes nothing about the events, is refuted by the
counterexample: the ε-tolerant comparison is not transitive. -/
theorem c4_queue_ops_preserve_validity_amended (S : Event → Prop)
    (htr : ∀ a b c, S a → S b → S c → eventLt a b → eventLt b c → eventLt a c)
    (hntr : ∀ a b c, S a → S b → S c →
      ¬ eventLt a b → ¬ eventLt b c → ¬ eventLt a c)
    (q : EventQueue) (e : Event) (handle : ℕ) (hval : ValidQ q)
    (hlen : q.heap.length + 1 < NULL)
    (hcov : coversHeap q S) (hSe : S e) :
    (∃ p q', q.insert e = .ok (p, q') ∧ ValidQ q') ∧
    (∃ r q', q.pop = .ok (r, q') ∧ ValidQ q') ∧
    (∃ r q', q.delete handle = .ok (r, q') ∧ ValidQ q') :=
  ⟨insert_preserves_valid S htr hntr hval hlen hcov hSe,
   pop_preserves_valid S htr hntr hval (by omega) hcov,
   delete_preserves_valid S htr hntr hval (by omega) hcov⟩

def evW : Event := .site ⟨0, 0, 0⟩

def qW : EventQueue := ⟨⟨[], 0⟩, [], []⟩

/-- Witness for the amended C4 theorem: the empty queue with a single
candidate event, on which the comparison is trivially a strict weak
order. -/
theorem c4_queue_ops_preserve_validity_amended_witness :
    (∃ p q', qW.insert evW = .ok (p, q') ∧ ValidQ q') ∧
    (∃ r q', qW.pop = .ok (r, q') ∧ ValidQ q') ∧
    (∃ r q', qW.delete 0 = .ok (r, q') ∧ ValidQ q') :=
  c4_queue_ops_preserve_validity_amended (fun ev => ev = evW)
    (by rintro a b c rfl rfl rfl h1 h2; exact h1)
    (by rintro a b c rfl rfl rfl h1 h2; exact h1)
    qW evW 0 (by decide) (by decide)
    (by intro j hj; simp [qW] at hj) rfl

/-! ## The beach line (beachline.rs)

A red-black tree over a slab arena.  `Pointer(!0)` is the null pointer,
modelled by `NULL`.  Rust's `self[p]` slab indexing panics on a vacant or
out-of-range slot; every such access goes through `getNode`/`setNode`,
which return `Except`.  The `while` loops and the recursive calls are
driven by an explicit fuel argument. -/

inductive Color where
  | red
  | black
  deriving DecidableEq, Repr

structure Node (α : Type) where
  color : Color
  parent : ℕ
  left : ℕ
  right : ℕ
  value : α
  deriving DecidableEq, Repr

structure BeachLine (α : Type) where
  nodes : Slab (Node α)
  root : ℕ
  deriving DecidableEq, Repr

/-- Writing through `IndexMut`: only valid on an occupied slot (a Rust
panic otherwise). -/
def Slab.set {T : Type} (s : Slab T) (k : ℕ) (v : T) : Option (Slab T) :=
  match s.entries[k]? with
  | some (.occupied _) => some ⟨s.entries.set k (.occupied v), s.next⟩
  | _ => none

def BeachLine.new {α : Type} : BeachLine α := ⟨Slab.new, NULL⟩

/-- An `if` between two fallible branches (kept as a named function so the
branch taken is visible to the proofs below). -/
def exceptIte {β : Type} (c : Prop) [Decidable c] (e1 e2 : Except String β) :
    Except String β :=
  if c then e1 else e2

def BeachLine.getNode {α : Type} (t : BeachLine α) (p : ℕ) :
    Except String (Node α) :=
  match t.nodes.get p with
  | some n => .ok n
  | none => .error "slab index panic"

def BeachLine.setNode {α : Type} (t : BeachLine α) (p : ℕ) (n : Node α) :
    Except String (BeachLine α) :=
  match t.nodes.set p n with
  | some s => .ok { t with nodes := s }
  | none => .error "slab index panic"

def BeachLine.setParent {α : Type} (t : BeachLine α) (p v : ℕ) :
    Except String (BeachLine α) := do
  let n ← t.getNode p
  t.setNode p { n with parent := v }

def BeachLine.setLeft {α : Type} (t : BeachLine α) (p v : ℕ) :
    Except String (BeachLine α) := do
  let n ← t.getNode p
  t.setNode p { n with left := v }

def BeachLine.setRight {α : Type} (t : BeachLine α) (p v : ℕ) :
    Except String (BeachLine α) := do
  let n ← t.getNode p
  t.setNode p { n with right := v }

def BeachLine.setColor {α : Type} (t : BeachLine α) (p : ℕ) (c : Color) :
    Except String (BeachLine α) := do
  let n ← t.getNode p
  t.setNode p { n with color := c }

/-- beachline.rs `rotate_left`. -/
def BeachLine.rotate_left {α : Type} (t : BeachLine α) (x : ℕ) :
    Except String (BeachLine α) := do
  let nx ← t.getNode x
  let parent := nx.parent
  let new_parent := nx.right
  let nnp ← t.getNode new_parent
  let t ← t.setRight x nnp.left
  let t ← t.setLeft new_parent x
  let t ← t.setParent x new_parent
  let t ← t.setParent new_parent parent
  let nx2 ← t.getNode x
  let t ← exceptIte (nx2.right ≠ NULL) (t.setParent nx2.right x) (pure t)
  let t ← exceptIte (parent ≠ NULL)
      (do
        let np ← t.getNode parent
        if x = np.left then t.setLeft parent new_parent
        else t.setRight parent new_parent)
      (pure t)
  let t := if t.root = x then { t with root := new_parent } else t
  return t

/-- beachline.rs `rotate_right`. -/
def BeachLine.rotate_right {α : Type} (t : BeachLine α) (x : ℕ) :
    Except String (BeachLine α) := do
  let nx ← t.getNode x
  let parent := nx.parent
  let new_parent := nx.left
  let nnp ← t.getNode new_parent
  let t ← t.setLeft x nnp.right
  let t ← t.setRight new_parent x
  let t ← t.setParent x new_parent
  let t ← t.setParent new_parent parent
  let nx2 ← t.getNode x
  let t ← exceptIte (nx2.left ≠ NULL) (t.setParent nx2.left x) (pure t)
  let t ← exceptIte (parent ≠ NULL)
      (do
        let np ← t.getNode parent
        if x = np.right then t.setRight parent new_parent
        else t.setLeft parent new_parent)
      (pure t)
  let t := if t.root = x then { t with root := new_parent } else t
  return t

/-- beachline.rs `sibling`. -/
def BeachLine.sibling {α : Type} (t : BeachLine α) (x : ℕ) :
    Except String ℕ := do
  let nx ← t.getNode x
  if nx.parent = NULL then return NULL
  let np ← t.getNode nx.parent
  if np.right = x then return np.left else return np.right

/-- beachline.rs `uncle`. -/
def BeachLine.uncle {α : Type} (t : BeachLine α) (x : ℕ) :
    Except String ℕ := do
  let nx ← t.getNode x
  if nx.parent = NULL then return NULL
  t.sibling nx.parent

/-- beachline.rs `has_black_children`, with Rust's short-circuit
evaluation made explicit. -/
def BeachLine.has_black_children {α : Type} (t : BeachLine α) (x : ℕ) :
    Except String Bool := do
  let nx ← t.getNode x
  let lb ← if nx.left = NULL then pure true else do
      let nl ← t.getNode nx.left
      pure (decide (nl.color = Color.black))
  if lb then
    if nx.right = NULL then return true
    else do
      let nr ← t.getNode nx.right
      return (decide (nr.color = Color.black))
  else return false

/-- The ascending `while` loop of beachline.rs `predecessor`. -/
def BeachLine.predUp {α : Type} : ℕ → BeachLine α → ℕ → ℕ → Except String ℕ
  | 0, _, _, _ => .error "fuel exhausted"
  | fuel + 1, t, parent, child => do
    let np ← t.getNode parent
    if np.left = child then
      if np.parent = NULL then return NULL
      else BeachLine.predUp fuel t np.parent parent
    else return parent

/-- The descending `while` loop of beachline.rs `predecessor`. -/
def BeachLine.predDown {α : Type} : ℕ → BeachLine α → ℕ → Except String ℕ
  | 0, _, _ => .error "fuel exhausted"
  | fuel + 1, t, child => do
    let nc ← t.getNode child
    if nc.right ≠ NULL then BeachLine.predDown fuel t nc.right
    else return child

/-- beachline.rs `predecessor`. -/
def BeachLine.predecessor {α : Type} (fuel : ℕ) (t : BeachLine α) (x : ℕ) :
    Except String ℕ := do
  if x = NULL then return NULL
  let nx ← t.getNode x
  if nx.left = NULL then
    if nx.parent = NULL then return NULL
    else BeachLine.predUp fuel t nx.parent x
  else BeachLine.predDown fuel t nx.left

/-- The ascending `while` loop of beachline.rs `successor`. -/
def BeachLine.succUp {α : Type} : ℕ → BeachLine α → ℕ → ℕ → Except String ℕ
  | 0, _, _, _ => .error "fuel exhausted"
  | fuel + 1, t, parent, child => do
    let np ← t.getNode parent
    if np.right = child then
      if np.parent = NULL then return NULL
      else BeachLine.succUp fuel t np.parent parent
    else return parent

/-- The descending `while` loop of beachline.rs `successor`. -/
def BeachLine.succDown {α : Type} : ℕ → BeachLine α → ℕ → Except String ℕ
  | 0, _, _ => .error "fuel exhausted"
  | fuel + 1, t, child => do
    let nc ← t.getNode child
    if nc.left ≠ NULL then BeachLine.succDown fuel t nc.left
    else return child

/-- beachline.rs `successor`. -/
def BeachLine.successor {α : Type} (fuel : ℕ) (t : BeachLine α) (x : ℕ) :
    Except String ℕ := do
  if x = NULL then return NULL
  let nx ← t.getNode x
  if nx.right = NULL then
    if nx.parent = NULL then return NULL
    else BeachLine.succUp fuel t nx.parent x
  else BeachLine.succDown fuel t nx.right

/-- beachline.rs `create_node`: a fresh red leaf. -/
def BeachLine.create_node {α : Type} (value : α) (parent : ℕ) : Node α :=
  ⟨Color.red, parent, NULL, NULL, value⟩

/-- beachline.rs `insert_repair`. -/
def BeachLine.insert_repair {α : Type} :
    ℕ → BeachLine α → ℕ → Except String (BeachLine α)
  | 0, _, _ => .error "fuel exhausted"
  | fuel + 1, t, x => do
    let uncle ← t.uncle x
    let nx ← t.getNode x
    if nx.parent = NULL then
      t.setColor x Color.black
    else do
      let np ← t.getNode nx.parent
      if np.color = Color.black then
        return t
      else do
        let ured ← if uncle ≠ NULL then do
            let nu ← t.getNode uncle
            pure (decide (nu.color = Color.red))
          else pure false
        if ured then do
          let parent := nx.parent
          let grandparent := np.parent
          let t ← t.setColor uncle Color.black
          let t ← t.setColor parent Color.black
          let t ← t.setColor grandparent Color.red
          BeachLine.insert_repair fuel t grandparent
        else do
          let parent := nx.parent
          let grandparent := np.parent
          let ngp ← t.getNode grandparent
          let step ←
            if x = np.right ∧ parent = ngp.left then do
              let t ← t.rotate_left parent
              let nx2 ← t.getNode x
              pure (t, nx2.left)
            else if x = np.left ∧ parent = ngp.right then do
              let t ← t.rotate_right parent
              let nx2 ← t.getNode x
              pure (t, nx2.right)
            else pure (t, x)
          let t := step.1
          let new_at := step.2
          let nna ← t.getNode new_at
          let parent2 := nna.parent
          let np2 ← t.getNode parent2
          let grandparent2 := np2.parent
          let t ← if new_at = np2.left then t.rotate_right grandparent2
            else t.rotate_left grandparent2
          let t ← t.setColor parent2 Color.black
          t.setColor grandparent2 Color.red

/-- beachline.rs `init`. -/
def BeachLine.init {α : Type} (fuel : ℕ) (t : BeachLine α) (value : α) :
    Except String (BeachLine α) :=
  if t.root ≠ NULL then .error "Tried initializing a non-empty beachline"
  else
    let pr := t.nodes.insert ⟨Color.black, NULL, NULL, NULL, value⟩
    let t2 : BeachLine α := ⟨pr.2, pr.1⟩
    BeachLine.insert_repair fuel t2 t2.root

/-- beachline.rs `get`. -/
def BeachLine.get {α : Type} (t : BeachLine α) (x : ℕ) : Except String α := do
  let n ← t.getNode x
  return n.value

/-- beachline.rs `insert_after`/`insert_before`, folded into one function:
`after = true` is `insert_after`.  Returns the pointer the source returns
(re-read from the tree after the repair, as the code does). -/
def BeachLine.insert_dir {α : Type} :
    ℕ → BeachLine α → ℕ → α → Bool → Except String (ℕ × BeachLine α)
  | 0, _, _, _, _ => .error "fuel exhausted"
  | fuel + 1, t, x, value, after => do
    let nx ← t.getNode x
    if after then
      if nx.right = NULL then do
        let pr := t.nodes.insert (BeachLine.create_node value x)
        let t ← BeachLine.setRight { t with nodes := pr.2 } x pr.1
        let nx2 ← t.getNode x
        let t ← BeachLine.insert_repair fuel t nx2.right
        let nx3 ← t.getNode x
        return (nx3.right, t)
      else do
        let succ ← BeachLine.successor fuel t x
        BeachLine.insert_dir fuel t succ value false
    else
      if nx.left = NULL then do
        let pr := t.nodes.insert (BeachLine.create_node value x)
        let t ← BeachLine.setLeft { t with nodes := pr.2 } x pr.1
        let nx2 ← t.getNode x
        let t ← BeachLine.insert_repair fuel t nx2.left
        let nx3 ← t.getNode x
        return (nx3.left, t)
      else do
        let pred ← BeachLine.predecessor fuel t x
        BeachLine.insert_dir fuel t pred value true

def BeachLine.insert_after {α : Type} (fuel : ℕ) (t : BeachLine α) (x : ℕ)
    (value : α) : Except String (ℕ × BeachLine α) :=
  BeachLine.insert_dir fuel t x value true

def BeachLine.insert_before {α : Type} (fuel : ℕ) (t : BeachLine α) (x : ℕ)
    (value : α) : Except String (ℕ × BeachLine α) :=
  BeachLine.insert_dir fuel t x value false

/-- beachline.rs `swap`: exchanges the two nodes' links and colors (not
their values) and re-targets every reference to them. -/
def BeachLine.swap {α : Type} (t : BeachLine α) (old nw : ℕ) :
    Except String (BeachLine α) := do
  let no ← t.getNode old
  let old_parent := no.parent
  let old_left := no.left
  let old_right := no.right
  let old_color := no.color
  let nn ← t.getNode nw
  let new_parent := nn.parent
  let new_left := nn.left
  let new_right := nn.right
  let new_color := nn.color
  let t ← t.setParent old (if new_parent = old then nw else new_parent)
  let t ← t.setLeft old (if new_left = old then nw else new_left)
  let t ← t.setRight old (if new_right = old then nw else new_right)
  let t ← t.setColor old new_color
  let t ← t.setParent nw (if old_parent = nw then old else old_parent)
  let t ← t.setLeft nw (if old_left = nw then old else old_left)
  let t ← t.setRight nw (if old_right = nw then old else old_right)
  let t ← t.setColor nw old_color
  let nn2 ← t.getNode nw
  let t ← exceptIte (nn2.parent = NULL) (pure { t with root := nw })
      (do
        let npp ← t.getNode nn2.parent
        if npp.right = old then t.setRight nn2.parent nw
        else t.setLeft nn2.parent nw)
  let nn3 ← t.getNode nw
  let t ← exceptIte (nn3.left ≠ NULL) (t.setParent nn3.left nw) (pure t)
  let nn4 ← t.getNode nw
  let t ← exceptIte (nn4.right ≠ NULL) (t.setParent nn4.right nw) (pure t)
  let no2 ← t.getNode old
  let t ← exceptIte (no2.parent = NULL) (pure { t with root := old })
      (do
        let nop ← t.getNode no2.parent
        if nop.right = nw then t.setRight no2.parent old
        else t.setLeft no2.parent old)
  let no3 ← t.getNode old
  let t ← exceptIte (no3.left ≠ NULL) (t.setParent no3.left old) (pure t)
  let no4 ← t.getNode old
  let t ← exceptIte (no4.right ≠ NULL) (t.setParent no4.right old) (pure t)
  return t

/-- Cases 4, 5 and 6 of beachline.rs `delete_repair` (everything after the
case 2 / case 3 `if`-chain), with the current `sibling` and `parent`
pointers as arguments and `is_left` as computed at entry. -/
def BeachLine.delete_repair_tail {α : Type} (t : BeachLine α)
    (x sibling parent : ℕ) (is_left : Bool) :
    Except String (BeachLine α) := do
  let np ← t.getNode parent
  let ns ← t.getNode sibling
  let c4 ← exceptIte (np.color = Color.red ∧ ns.color = Color.black)
      (t.has_black_children sibling) (pure false)
  if c4 then do
    let t ← t.setColor sibling Color.red
    t.setColor parent Color.black
  else do
    let c5 ← exceptIte (ns.color = Color.black)
      (exceptIte (ns.left ≠ NULL)
        (do
          let nsl ← t.getNode ns.left
          if nsl.color = Color.red then
            if ns.right = NULL then pure true
            else do
              let nsr ← t.getNode ns.right
              pure (decide (nsr.color = Color.black))
          else pure false)
        (pure false))
      (pure false)
    let step ← exceptIte (c5 = true)
        (if is_left then do
          let left := ns.left
          let t ← t.setColor sibling Color.red
          let t ← t.setColor left Color.black
          let t ← t.rotate_right sibling
          let s2 ← t.sibling x
          pure (t, s2)
        else do
          let right := ns.right
          let t ← t.setColor sibling Color.red
          let t ← t.setColor right Color.black
          let t ← t.rotate_left sibling
          let s2 ← t.sibling x
          pure (t, s2))
        (pure (t, sibling))
    let t := step.1
    let sibling := step.2
    let np2 ← t.getNode parent
    let t ← t.setColor sibling np2.color
    let t ← t.setColor parent Color.black
    let ns2 ← t.getNode sibling
    if is_left then do
      let t ← t.setColor ns2.right Color.black
      t.rotate_left parent
    else do
      let t ← t.setColor ns2.left Color.black
      t.rotate_right parent

/-- beachline.rs `delete_repair`.  Note case 2 rotates left regardless of
which side `x` is on. -/
def BeachLine.delete_repair {α : Type} :
    ℕ → BeachLine α → ℕ → Except String (BeachLine α)
  | 0, _, _ => .error "fuel exhausted"
  | fuel + 1, t, x => do
    let nx ← t.getNode x
    if nx.color ≠ Color.black then
      .error "assertion failed: node is black"
    else if t.root = x then return t
    else do
      let sibling0 ← t.sibling x
      let parent0 := nx.parent
      let np0 ← t.getNode parent0
      let is_left := decide (np0.left = x)
      if sibling0 = NULL then .error "Black node has a null sibling"
      else do
        let ns0 ← t.getNode sibling0
        if ns0.color = Color.red then do
          let t ← t.setColor sibling0 Color.black
          let t ← t.setColor parent0 Color.red
          let t ← t.rotate_left parent0
          let sibling1 ← t.sibling x
          let nx1 ← t.getNode x
          BeachLine.delete_repair_tail t x sibling1 nx1.parent is_left
        else do
          let c3 ← exceptIte (ns0.color = Color.black ∧ np0.color = Color.black)
              (t.has_black_children sibling0) (pure false)
          if c3 then do
            let t ← t.setColor sibling0 Color.red
            BeachLine.delete_repair fuel t parent0
          else
            BeachLine.delete_repair_tail t x sibling0 parent0 is_left

/-- beachline.rs `delete`. -/
def BeachLine.delete {α : Type} :
    ℕ → BeachLine α → ℕ → Except String (Option α × BeachLine α)
  | 0, _, _ => .error "fuel exhausted"
  | fuel + 1, t, x =>
    if x = NULL then pure (none, t)
    else do
    let nx ← t.getNode x
    if nx.left ≠ NULL ∧ nx.right ≠ NULL then do
      let pred ← BeachLine.predecessor fuel t x
      let t ← t.swap pred x
      BeachLine.delete fuel t x
    else if nx.left = NULL ∧ nx.right = NULL then do
      let parent := nx.parent
      let t ← exceptIte (parent ≠ NULL)
        (do
          let np ← t.getNode parent
          let t ← exceptIte (np.color = Color.black ∧ nx.color = Color.black)
            (BeachLine.delete_repair fuel t x) (pure t)
          let np2 ← t.getNode parent
          if np2.left = x then t.setLeft parent NULL
          else t.setRight parent NULL)
        (pure { t with root := NULL })
      match t.nodes.remove x with
      | some (n, nodes2) => return (some n.value, { t with nodes := nodes2 })
      | none => .error "slab remove panic"
    else do
      let child := if nx.left = NULL then nx.right else nx.left
      let parent := nx.parent
      let t ← t.setParent child parent
      let t ← exceptIte (parent = NULL) (pure { t with root := child })
        (do
          let np ← t.getNode parent
          if np.left = x then t.setLeft parent child
          else t.setRight parent child)
      match t.nodes.remove x with
      | some (node, nodes2) =>
        if node.color = Color.red then
          return (some node.value, { t with nodes := nodes2 })
        else do
          let nc ← BeachLine.getNode { t with nodes := nodes2 } child
          if nc.color = Color.red then do
            let t ← BeachLine.setColor { t with nodes := nodes2 } child
              Color.black
            return (some node.value, t)
          else
            .error "Impossible case: deleting black node with one black child"
      | none => .error "slab remove panic"

/-! ## The red-black invariants, as executable predicates -/

/-- The black height of the subtree at `p`, `none` when the black counts
of some node's two subtrees disagree (a `nil` child counts one black). -/
def blackHeight {α : Type} : ℕ → BeachLine α → ℕ → Option ℕ
  | 0, _, _ => none
  | fuel + 1, t, p =>
    if p = NULL then some 1
    else match t.nodes.get p with
      | none => none
      | some n =>
        match blackHeight fuel t n.left, blackHeight fuel t n.right with
        | some a, some b =>
          if a = b then
            some (a + (if n.color = Color.black then 1 else 0))
          else none
        | _, _ => none

/-- Every red node in the subtree at `p` has black children. -/
def redChildrenOk {α : Type} : ℕ → BeachLine α → ℕ → Bool
  | 0, _, _ => false
  | fuel + 1, t, p =>
    if p = NULL then true
    else match t.nodes.get p with
      | none => false
      | some n =>
        ((n.color == Color.black) ||
          ((n.left == NULL || (match t.nodes.get n.left with
              | some nl => nl.color == Color.black
              | none => false)) &&
           (n.right == NULL || (match t.nodes.get n.right with
              | some nr => nr.color == Color.black
              | none => false)))) &&
        redChildrenOk fuel t n.left && redChildrenOk fuel t n.right

/-- The root (when present) is black. -/
def rootBlack {α : Type} (t : BeachLine α) : Bool :=
  t.root == NULL || (match t.nodes.get t.root with
    | some n => n.color == Color.black
    | none => false)

/-- The three red-black invariants of spec §4.3. -/
def isRB {α : Type} (fuel : ℕ) (t : BeachLine α) : Prop :=
  rootBlack t = true ∧ redChildrenOk fuel t t.root = true ∧
    (blackHeight fuel t t.root).isSome = true

/-- A five-node red-black tree: black root (slot 0, value 10) with a red
left child (slot 1, value 20) holding two black leaves (slots 3 and 4),
and a black right leaf (slot 2, value 30). -/
def bl5 : BeachLine ℕ :=
  ⟨⟨[.occupied ⟨Color.black, NULL, 1, 2, 10⟩,
     .occupied ⟨Color.red, 0, 3, 4, 20⟩,
     .occupied ⟨Color.black, 0, NULL, NULL, 30⟩,
     .occupied ⟨Color.black, 1, NULL, NULL, 40⟩,
     .occupied ⟨Color.black, 1, NULL, NULL, 50⟩], 5⟩, 0⟩

/-- Claim C2 (code bug): `bl5` satisfies all three red-black invariants,
yet `delete` of the black right leaf (slot 2) panics instead of removing
it and restoring the invariants.  The leaf's sibling is red and the leaf
is a right child, but `delete_repair` case 2 rotates left regardless of
side; the rotation makes the deleted node the root, its parent pointer
null, and the subsequent case-4 read of `self[parent]` indexes the slab
at the null pointer. -/
theorem c2_delete_panics_on_valid_rb_tree :
    isRB 10 bl5 ∧ BeachLine.delete 10 bl5 2 = .error "slab index panic" := by
  constructor
  · exact ⟨by decide, by decide, by decide⟩
  · rfl

/-! ## Values are stable under the structural beach-line operations -/

theorem bind_ok {A B : Type} {x : Except String A} {f : A → Except String B}
    {b : B} (h : x >>= f = .ok b) : ∃ a, x = .ok a ∧ f a = .ok b := by
  cases x with
  | error e => exact absurd h (by simp [Bind.bind, Except.bind])
  | ok a => exact ⟨a, rfl, by simpa [Bind.bind, Except.bind] using h⟩

/-- The value stored at a handle, `none` on a dead or out-of-range
handle. -/
def valueAt {α : Type} (t : BeachLine α) (p : ℕ) : Option α :=
  (t.nodes.get p).map Node.value

theorem Slab.set_spec {T : Type} {s : Slab T} {k : ℕ} {v : T} {s2 : Slab T}
    (h : s.set k v = some s2) :
    ∀ j, s2.get j = if j = k then some v else s.get j := by
  unfold Slab.set at h
  split at h
  · rename_i w hw
    obtain rfl : (⟨s.entries.set k (.occupied v), s.next⟩ : Slab T) = s2 := by
      simpa using h
    intro j
    have hk : k < s.entries.length := by
      by_contra hge
      rw [List.getElem?_eq_none (by omega)] at hw
      cases hw
    by_cases hj : j = k
    · subst hj
      rw [if_pos rfl]
      show Slab.get ⟨s.entries.set j (.occupied v), s.next⟩ j = some v
      unfold Slab.get
      rw [List.getElem?_set_self (by simpa using hk)]
    · rw [if_neg hj]
      show Slab.get ⟨s.entries.set k (.occupied v), s.next⟩ j = s.get j
      unfold Slab.get
      rw [List.getElem?_set_ne (Ne.symm hj)]
  · cases h

theorem setNode_values {α : Type} {t t2 : BeachLine α} {p : ℕ} {n0 n : Node α}
    (hget : t.nodes.get p = some n0) (h : t.setNode p n = .ok t2)
    (hval : n.value = n0.value) : ∀ q, valueAt t2 q = valueAt t q := by
  unfold BeachLine.setNode at h
  split at h
  · rename_i s hs
    obtain rfl : ({ t with nodes := s } : BeachLine α) = t2 := by simpa using h
    intro q
    unfold valueAt
    show (s.get q).map Node.value = _
    rw [Slab.set_spec hs q]
    by_cases hq : q = p
    · subst hq
      rw [if_pos rfl, hget]
      simp [hval]
    · rw [if_neg hq]
  · cases h

theorem setParent_values {α : Type} {t t2 : BeachLine α} {p v : ℕ}
    (h : t.setParent p v = .ok t2) : ∀ q, valueAt t2 q = valueAt t q := by
  unfold BeachLine.setParent at h
  obtain ⟨n, hn, h⟩ := bind_ok h
  have hget : t.nodes.get p = some n := by
    unfold BeachLine.getNode at hn
    split at hn
    · rename_i m hm
      obtain rfl : m = n := by simpa using hn
      exact hm
    · cases hn
  exact setNode_values hget h rfl

theorem setLeft_values {α : Type} {t t2 : BeachLine α} {p v : ℕ}
    (h : t.setLeft p v = .ok t2) : ∀ q, valueAt t2 q = valueAt t q := by
  unfold BeachLine.setLeft at h
  obtain ⟨n, hn, h⟩ := bind_ok h
  have hget : t.nodes.get p = some n := by
    unfold BeachLine.getNode at hn
    split at hn
    · rename_i m hm
      obtain rfl : m = n := by simpa using hn
      exact hm
    · cases hn
  exact setNode_values hget h rfl

theorem setRight_values {α : Type} {t t2 : BeachLine α} {p v : ℕ}
    (h : t.setRight p v = .ok t2) : ∀ q, valueAt t2 q = valueAt t q := by
  unfold BeachLine.setRight at h
  obtain ⟨n, hn, h⟩ := bind_ok h
  have hget : t.nodes.get p = some n := by
    unfold BeachLine.getNode at hn
    split at hn
    · rename_i m hm
      obtain rfl : m = n := by simpa using hn
      exact hm
    · cases hn
  exact setNode_values hget h rfl

theorem setColor_values {α : Type} {t t2 : BeachLine α} {p : ℕ} {c : Color}
    (h : t.setColor p c = .ok t2) : ∀ q, valueAt t2 q = valueAt t q := by
  unfold BeachLine.setColor at h
  obtain ⟨n, hn, h⟩ := bind_ok h
  have hget : t.nodes.get p = some n := by
    unfold BeachLine.getNode at hn
    split at hn
    · rename_i m hm
      obtain rfl : m = n := by simpa using hn
      exact hm
    · cases hn
  exact setNode_values hget h rfl

theorem root_values {α : Type} (t : BeachLine α) (r : ℕ) :
    ∀ q, valueAt { t with root := r } q = valueAt t q := fun _ => rfl

theorem pure_ok {A : Type} {a b : A}
    (h : (pure a : Except String A) = .ok b) : a = b :=
  Except.ok.inj h

theorem exceptIte_ok {β : Type} {c : Prop} [Decidable c]
    {e1 e2 : Except String β} {b : β} (h : exceptIte c e1 e2 = .ok b) :
    (c ∧ e1 = .ok b) ∨ (¬ c ∧ e2 = .ok b) := by
  unfold exceptIte at h
  split at h
  · rename_i hc
    exact .inl ⟨hc, h⟩
  · rename_i hc
    exact .inr ⟨hc, h⟩

theorem rotate_left_values {α : Type} {t t2 : BeachLine α} {x : ℕ}
    (h : t.rotate_left x = .ok t2) : ∀ q, valueAt t2 q = valueAt t q := by
  unfold BeachLine.rotate_left at h
  obtain ⟨nx, hnx, h⟩ := bind_ok h
  obtain ⟨nnp, hnnp, h⟩ := bind_ok h
  obtain ⟨ta, hta, h⟩ := bind_ok h
  obtain ⟨tb, htb, h⟩ := bind_ok h
  obtain ⟨tc, htc, h⟩ := bind_ok h
  obtain ⟨td, htd, h⟩ := bind_ok h
  obtain ⟨nx2, hnx2, h⟩ := bind_ok h
  obtain ⟨te, hte, h⟩ := bind_ok h
  obtain ⟨tf, htf, h⟩ := bind_ok h
  have hfinal := pure_ok h
  have h1 := setRight_values hta
  have h2 := setLeft_values htb
  have h3 := setParent_values htc
  have h4 := setParent_values htd
  have h5 : ∀ q, valueAt te q = valueAt td q := by
    rcases exceptIte_ok hte with ⟨_, hte⟩ | ⟨_, hte⟩
    · exact setParent_values hte
    · obtain rfl : td = te := pure_ok hte
      exact fun q => rfl
  have h6 : ∀ q, valueAt tf q = valueAt te q := by
    rcases exceptIte_ok htf with ⟨_, htf⟩ | ⟨_, htf⟩
    · obtain ⟨np, hnp, htf⟩ := bind_ok htf
      split at htf
      · exact setLeft_values htf
      · exact setRight_values htf
    · obtain rfl : te = tf := pure_ok htf
      exact fun q => rfl
  intro q
  have hlast : valueAt t2 q = valueAt tf q := by
    rw [← hfinal]
    split <;> rfl
  rw [hlast, h6, h5, h4, h3, h2, h1]

theorem rotate_right_values {α : Type} {t t2 : BeachLine α} {x : ℕ}
    (h : t.rotate_right x = .ok t2) : ∀ q, valueAt t2 q = valueAt t q := by
  unfold BeachLine.rotate_right at h
  obtain ⟨nx, hnx, h⟩ := bind_ok h
  obtain ⟨nnp, hnnp, h⟩ := bind_ok h
  obtain ⟨ta, hta, h⟩ := bind_ok h
  obtain ⟨tb, htb, h⟩ := bind_ok h
  obtain ⟨tc, htc, h⟩ := bind_ok h
  obtain ⟨td, htd, h⟩ := bind_ok h
  obtain ⟨nx2, hnx2, h⟩ := bind_ok h
  obtain ⟨te, hte, h⟩ := bind_ok h
  obtain ⟨tf, htf, h⟩ := bind_ok h
  have hfinal := pure_ok h
  have h1 := setLeft_values hta
  have h2 := setRight_values htb
  have h3 := setParent_values htc
  have h4 := setParent_values htd
  have h5 : ∀ q, valueAt te q = valueAt td q := by
    rcases exceptIte_ok hte with ⟨_, hte⟩ | ⟨_, hte⟩
    · exact setParent_values hte
    · obtain rfl : td = te := pure_ok hte
      exact fun q => rfl
  have h6 : ∀ q, valueAt tf q = valueAt te q := by
    rcases exceptIte_ok htf with ⟨_, htf⟩ | ⟨_, htf⟩
    · obtain ⟨np, hnp, htf⟩ := bind_ok htf
      split at htf
      · exact setRight_values htf
      · exact setLeft_values htf
    · obtain rfl : te = tf := pure_ok htf
      exact fun q => rfl
  intro q
  have hlast : valueAt t2 q = valueAt tf q := by
    rw [← hfinal]
    split <;> rfl
  rw [hlast, h6, h5, h4, h3, h2, h1]

theorem stepFix_values {α : Type} {t te : BeachLine α} {c : Prop}
    [Decidable c] {a b : ℕ}
    (h : exceptIte c (t.setParent a b) (pure t) = .ok te) :
    ∀ q, valueAt te q = valueAt t q := by
  rcases exceptIte_ok h with ⟨_, h⟩ | ⟨_, h⟩
  · exact setParent_values h
  · obtain rfl := pure_ok h
    exact fun q => rfl

theorem stepLink_values {α : Type} {t te : BeachLine α} {c : Prop}
    [Decidable c] {r p w u : ℕ}
    (h : exceptIte c (pure { t with root := r })
        (do
          let npp ← t.getNode p
          if npp.right = w then t.setRight p u else t.setLeft p u) = .ok te) :
    ∀ q, valueAt te q = valueAt t q := by
  rcases exceptIte_ok h with ⟨_, h⟩ | ⟨_, h⟩
  · have := pure_ok h
    intro q
    rw [← this]
    rfl
  · obtain ⟨npp, _, h⟩ := bind_ok h
    split at h
    · exact setRight_values h
    · exact setLeft_values h

theorem swap_values {α : Type} {t t2 : BeachLine α} {old nw : ℕ}
    (h : t.swap old nw = .ok t2) : ∀ q, valueAt t2 q = valueAt t q := by
  unfold BeachLine.swap at h
  obtain ⟨no, _, h⟩ := bind_ok h
  obtain ⟨nn, _, h⟩ := bind_ok h
  obtain ⟨ta, hta, h⟩ := bind_ok h
  obtain ⟨tb, htb, h⟩ := bind_ok h
  obtain ⟨tc, htc, h⟩ := bind_ok h
  obtain ⟨td, htd, h⟩ := bind_ok h
  obtain ⟨te, hte, h⟩ := bind_ok h
  obtain ⟨tf, htf, h⟩ := bind_ok h
  obtain ⟨tg, htg, h⟩ := bind_ok h
  obtain ⟨ti, hti, h⟩ := bind_ok h
  obtain ⟨nn2, _, h⟩ := bind_ok h
  obtain ⟨tj, htj, h⟩ := bind_ok h
  obtain ⟨nn3, _, h⟩ := bind_ok h
  obtain ⟨tk, htk, h⟩ := bind_ok h
  obtain ⟨nn4, _, h⟩ := bind_ok h
  obtain ⟨tl, htl, h⟩ := bind_ok h
  obtain ⟨no2, _, h⟩ := bind_ok h
  obtain ⟨tm, htm, h⟩ := bind_ok h
  obtain ⟨no3, _, h⟩ := bind_ok h
  obtain ⟨tp, htp, h⟩ := bind_ok h
  obtain ⟨no4, _, h⟩ := bind_ok h
  obtain ⟨tq, htq, h⟩ := bind_ok h
  obtain rfl := pure_ok h
  intro q
  rw [stepFix_values htq q, stepFix_values htp q, stepLink_values htm q,
    stepFix_values htl q, stepFix_values htk q, stepLink_values htj q,
    setColor_values hti q, setRight_values htg q, setLeft_values htf q,
    setParent_values hte q, setColor_values htd q, setRight_values htc q,
    setLeft_values htb q, setParent_values hta q]

theorem delete_repair_tail_values {α : Type} {t t2 : BeachLine α}
    {x sibling parent : ℕ} {is_left : Bool}
    (h : t.delete_repair_tail x sibling parent is_left = .ok t2) :
    ∀ q, valueAt t2 q = valueAt t q := by
  unfold BeachLine.delete_repair_tail at h
  obtain ⟨np, _, h⟩ := bind_ok h
  obtain ⟨ns, _, h⟩ := bind_ok h
  obtain ⟨c4, hc4, h⟩ := bind_ok h
  split at h
  · obtain ⟨ta, hta, h⟩ := bind_ok h
    intro q
    rw [setColor_values h q, setColor_values hta q]
  · obtain ⟨c5, hc5, h⟩ := bind_ok h
    obtain ⟨step, hstep, h⟩ := bind_ok h
    have hstepv : ∀ q, valueAt step.1 q = valueAt t q := by
      rcases exceptIte_ok hstep with ⟨_, hstep⟩ | ⟨_, hstep⟩
      · split at hstep
        · obtain ⟨ta, hta, hstep⟩ := bind_ok hstep
          obtain ⟨tb, htb, hstep⟩ := bind_ok hstep
          obtain ⟨tc, htc, hstep⟩ := bind_ok hstep
          obtain ⟨s2, hs2, hstep⟩ := bind_ok hstep
          have hpe := pure_ok hstep
          intro q
          have hfst : step.1 = tc := by rw [← hpe]
          rw [hfst, rotate_right_values htc q, setColor_values htb q,
            setColor_values hta q]
        · obtain ⟨ta, hta, hstep⟩ := bind_ok hstep
          obtain ⟨tb, htb, hstep⟩ := bind_ok hstep
          obtain ⟨tc, htc, hstep⟩ := bind_ok hstep
          obtain ⟨s2, hs2, hstep⟩ := bind_ok hstep
          have hpe := pure_ok hstep
          intro q
          have hfst : step.1 = tc := by rw [← hpe]
          rw [hfst, rotate_left_values htc q, setColor_values htb q,
            setColor_values hta q]
      · have hpe := pure_ok hstep
        intro q
        have hfst : step.1 = t := by rw [← hpe]
        rw [hfst]
    obtain ⟨np2, _, h⟩ := bind_ok h
    obtain ⟨ta, hta, h⟩ := bind_ok h
    obtain ⟨tb, htb, h⟩ := bind_ok h
    obtain ⟨ns2, _, h⟩ := bind_ok h
    split at h
    · obtain ⟨tc, htc, h⟩ := bind_ok h
      intro q
      rw [rotate_left_values h q, setColor_values htc q, setColor_values htb q,
        setColor_values hta q, hstepv q]
    · obtain ⟨tc, htc, h⟩ := bind_ok h
      intro q
      rw [rotate_right_values h q, setColor_values htc q, setColor_values htb q,
        setColor_values hta q, hstepv q]

theorem delete_repair_values {α : Type} :
    ∀ fuel (t t2 : BeachLine α) (x : ℕ),
      BeachLine.delete_repair fuel t x = .ok t2 →
      ∀ q, valueAt t2 q = valueAt t q := by
  intro fuel
  induction fuel with
  | zero =>
    intro t t2 x h
    cases h
  | succ fuel ih =>
    intro t t2 x h
    unfold BeachLine.delete_repair at h
    obtain ⟨nx, _, h⟩ := bind_ok h
    split at h
    · cases h
    · split at h
      · obtain rfl := pure_ok h
        exact fun q => rfl
      · obtain ⟨sibling0, _, h⟩ := bind_ok h
        obtain ⟨np0, _, h⟩ := bind_ok h
        split at h
        · cases h
        · obtain ⟨ns0, _, h⟩ := bind_ok h
          split at h
          · obtain ⟨ta, hta, h⟩ := bind_ok h
            obtain ⟨tb, htb, h⟩ := bind_ok h
            obtain ⟨tc, htc, h⟩ := bind_ok h
            obtain ⟨sibling1, _, h⟩ := bind_ok h
            obtain ⟨nx1, _, h⟩ := bind_ok h
            intro q
            rw [delete_repair_tail_values h q, rotate_left_values htc q,
              setColor_values htb q, setColor_values hta q]
          · obtain ⟨c3, hc3, h⟩ := bind_ok h
            split at h
            · obtain ⟨ta, hta, h⟩ := bind_ok h
              intro q
              rw [ih _ _ _ h q, setColor_values hta q]
            · exact delete_repair_tail_values h

/-- Claim C3 (amended): whenever `delete` returns normally with a value,
that value is the one originally stored at the deleted handle, and every
other handle's value is unchanged — including the two-children case, which
is resolved by `swap` with the in-order predecessor (`swap` moves links
and colors, never values, so handles keep referring to their values).
The amendment conditions the claim on `delete` returning rather than
panicking: on some valid inputs the source panics instead (see the
counterexample). -/
theorem c3_delete_frame_amended {α : Type} :
    ∀ fuel (t : BeachLine α) (x : ℕ) (v : α) (t2 : BeachLine α),
      BeachLine.delete fuel t x = .ok (some v, t2) →
      valueAt t x = some v ∧ ∀ q, q ≠ x → valueAt t2 q = valueAt t q := by
  intro fuel
  induction fuel with
  | zero =>
    intro t x v t2 h
    cases h
  | succ fuel ih =>
    intro t x v t2 h
    unfold BeachLine.delete at h
    split at h
    · have hpe := pure_ok h
      simp at hpe
    · obtain ⟨nx, hnx, h⟩ := bind_ok h
      split at h
      · obtain ⟨pred, _, h⟩ := bind_ok h
        obtain ⟨ta, hta, h⟩ := bind_ok h
        obtain ⟨hval, hframe⟩ := ih ta x v t2 h
        have hsv := swap_values hta
        refine ⟨by rw [← hsv x]; exact hval, fun q hq => ?_⟩
        rw [hframe q hq, hsv q]
      · split at h
        · obtain ⟨ta, hta, h⟩ := bind_ok h
          have tav : ∀ q, valueAt ta q = valueAt t q := by
            rcases exceptIte_ok hta with ⟨_, hta⟩ | ⟨_, hta⟩
            · obtain ⟨np, _, hta⟩ := bind_ok hta
              obtain ⟨tb, htb, hta⟩ := bind_ok hta
              have tbv : ∀ q, valueAt tb q = valueAt t q := by
                rcases exceptIte_ok htb with ⟨_, htb⟩ | ⟨_, htb⟩
                · exact delete_repair_values fuel t tb x htb
                · obtain rfl := pure_ok htb
                  exact fun q => rfl
              obtain ⟨np2, _, hta⟩ := bind_ok hta
              split at hta
              · intro q
                rw [setLeft_values hta q, tbv q]
              · intro q
                rw [setRight_values hta q, tbv q]
            · have hpe := pure_ok hta
              intro q
              rw [← hpe]
              rfl
          split at h
          · rename_i n nodes2 hrm
            have hpe := pure_ok h
            obtain rfl : n.value = v := by simpa using congrArg Prod.fst hpe
            have ht2 : t2 = { ta with nodes := nodes2 } := by
              simpa using (congrArg Prod.snd hpe).symm
            obtain ⟨hgx, hrest⟩ := Slab.remove_eq_some hrm
            constructor
            · rw [← tav x]
              unfold valueAt
              rw [hgx]
              rfl
            · intro q hq
              rw [ht2]
              show (nodes2.get q).map Node.value = _
              rw [hrest q, if_neg hq, ← tav q]
              rfl
          · cases h
        · obtain ⟨ta, hta, h⟩ := bind_ok h
          obtain ⟨tb, htb, h⟩ := bind_ok h
          have tbv : ∀ q, valueAt tb q = valueAt t q := by
            have tav := setParent_values hta
            have hba : ∀ q, valueAt tb q = valueAt ta q := by
              rcases exceptIte_ok htb with ⟨_, htb⟩ | ⟨_, htb⟩
              · have hpe := pure_ok htb
                intro q
                rw [← hpe]
                rfl
              · obtain ⟨np, _, htb⟩ := bind_ok htb
                split at htb
                · exact setLeft_values htb
                · exact setRight_values htb
            intro q
            rw [hba q, tav q]
          split at h
          · rename_i node nodes2 hrm
            obtain ⟨hgx, hrest⟩ := Slab.remove_eq_some hrm
            split at h
            · have hpe := pure_ok h
              obtain rfl : node.value = v := by simpa using congrArg Prod.fst hpe
              have ht2 : t2 = { tb with nodes := nodes2 } := by
                simpa using (congrArg Prod.snd hpe).symm
              constructor
              · rw [← tbv x]
                unfold valueAt
                rw [hgx]
                rfl
              · intro q hq
                rw [ht2]
                show (nodes2.get q).map Node.value = _
                rw [hrest q, if_neg hq, ← tbv q]
                rfl
            · obtain ⟨nc, _, h⟩ := bind_ok h
              split at h
              · obtain ⟨td, htd, h⟩ := bind_ok h
                have hpe := pure_ok h
                obtain rfl : node.value = v := by
                  simpa using congrArg Prod.fst hpe
                have ht2 : t2 = td := by
                  simpa using (congrArg Prod.snd hpe).symm
                have tdv := setColor_values htd
                constructor
                · rw [← tbv x]
                  unfold valueAt
                  rw [hgx]
                  rfl
                · intro q hq
                  rw [ht2, tdv q]
                  show (nodes2.get q).map Node.value = _
                  rw [hrest q, if_neg hq, ← tbv q]
                  rfl
              · cases h
          · cases h

/-- A five-node red-black tree of the same shape as `bl5`, with values
100–500. -/
def bl5c : BeachLine ℕ :=
  ⟨⟨[.occupied ⟨Color.black, NULL, 1, 2, 100⟩,
     .occupied ⟨Color.red, 0, 3, 4, 200⟩,
     .occupied ⟨Color.black, 0, NULL, NULL, 300⟩,
     .occupied ⟨Color.black, 1, NULL, NULL, 400⟩,
     .occupied ⟨Color.black, 1, NULL, NULL, 500⟩], 5⟩, 0⟩

/-- Claim C3 (counterexample to the unamended claim): handle 2 is live and
non-null (it stores 300), yet `delete` does not return the stored value —
it panics in `delete_repair`. -/
theorem c3_delete_counterexample :
    valueAt bl5c 2 = some 300 ∧
      BeachLine.delete 10 bl5c 2 = .error "slab index panic" :=
  ⟨rfl, rfl⟩

def blW : BeachLine ℕ :=
  ⟨⟨[.occupied ⟨Color.black, NULL, NULL, NULL, 7⟩], 1⟩, 0⟩

def blW2 : BeachLine ℕ := ⟨⟨[.vacant 1], 0⟩, NULL⟩

/-- Witness for the amended C3 theorem: deleting the root of a one-node
beach line returns its value, and every other handle is unaffected. -/
theorem c3_delete_frame_amended_witness :
    valueAt blW 0 = some 7 ∧ ∀ q, q ≠ 0 → valueAt blW2 q = valueAt blW q :=
  c3_delete_frame_amended 5 blW 0 7 blW2 (by rfl)

/-! ## The doubly-connected edge list (dcel.rs) -/

def NIL : ℕ := 2 ^ 64 - 1

structure DVertex where
  x : ℚ
  y : ℚ
  deriving DecidableEq, Repr

structure HalfEdge where
  origin : ℕ
  next : ℕ
  twin : ℕ
  active : Bool
  deriving DecidableEq, Repr

structure Dcel where
  vertices : List DVertex
  halfedges : List HalfEdge
  faces : List ℕ
  deriving DecidableEq, Repr

def HalfEdge.new : HalfEdge := ⟨NIL, NIL, NIL, true⟩

def Dcel.new (face_count : ℕ) : Dcel :=
  ⟨[], [], List.replicate face_count NIL⟩

/-- dcel.rs `ensure_face` (`self.faces[face_id]` panics out of range). -/
def Dcel.ensure_face (d : Dcel) (face_id halfedge : ℕ) :
    Except String Dcel :=
  match d.faces[face_id]? with
  | none => .error "index panic"
  | some f =>
    if f = NIL then .ok { d with faces := d.faces.set face_id halfedge }
    else .ok d

/-- dcel.rs `create_twins`: two fresh half-edges at `(len, len+1)`, twinned
to each other. -/
def Dcel.create_twins (d : Dcel) : (ℕ × ℕ) × Dcel :=
  let index := d.halfedges.length
  let twin_index := index + 1
  ((index, twin_index),
   { d with halfedges := d.halfedges ++
      [{ HalfEdge.new with twin := twin_index },
       { HalfEdge.new with twin := index }] })

/-- dcel.rs `create_vertex`. -/
def Dcel.create_vertex (d : Dcel) (x y : ℚ) : ℕ × Dcel :=
  (d.vertices.length, { d with vertices := d.vertices ++ [⟨x, y⟩] })

def Dcel.getHE (d : Dcel) (k : ℕ) : Except String HalfEdge :=
  match d.halfedges[k]? with
  | some e => .ok e
  | none => .error "index panic"

def Dcel.getVertex (d : Dcel) (k : ℕ) : Except String DVertex :=
  match d.vertices[k]? with
  | some v => .ok v
  | none => .error "index panic"

/-- dcel.rs `get_twin`. -/
def Dcel.get_twin (d : Dcel) (halfedge : ℕ) : Except String ℕ := do
  let e ← d.getHE halfedge
  pure e.twin

/-- dcel.rs `set_origin`. -/
def Dcel.set_origin (d : Dcel) (halfedge origin : ℕ) : Except String Dcel :=
  match d.halfedges[halfedge]? with
  | some e =>
    .ok { d with halfedges :=
      d.halfedges.set halfedge { e with origin := origin } }
  | none => .error "index panic"

/-- dcel.rs `set_next`. -/
def Dcel.set_next (d : Dcel) (halfedge next : ℕ) : Except String Dcel :=
  match d.halfedges[halfedge]? with
  | some e =>
    .ok { d with halfedges :=
      d.halfedges.set halfedge { e with next := next } }
  | none => .error "index panic"

/-- `self.halfedges[e].active = false` in `bound`. -/
def Dcel.set_active (d : Dcel) (halfedge : ℕ) (a : Bool) :
    Except String Dcel :=
  match d.halfedges[halfedge]? with
  | some e =>
    .ok { d with halfedges :=
      d.halfedges.set halfedge { e with active := a } }
  | none => .error "index panic"

/-- `self.faces[i] = v` in `bound`. -/
def Dcel.set_face (d : Dcel) (i v : ℕ) : Except String Dcel :=
  match d.faces[i]? with
  | some _ => .ok { d with faces := d.faces.set i v }
  | none => .error "index panic"

structure BoundingBox where
  min_x : ℚ
  min_y : ℚ
  max_x : ℚ
  max_y : ℚ

structure LineSegment where
  start_x : ℚ
  start_y : ℚ
  end_x : ℚ
  end_y : ℚ

/-- dcel.rs `is_inside`. -/
def is_inside (x y : ℚ) (bbox : BoundingBox) : Bool :=
  if x < bbox.min_x ∨ x > bbox.max_x ∨ y < bbox.min_y ∨ y > bbox.max_y then
    false
  else true

inductive BoundSide where
  | left
  | right
  | top
  | bottom
  deriving DecidableEq, Repr

inductive BoundResult where
  | inside
  | outside
  | intersect (x y : ℚ) (side : BoundSide)
  deriving DecidableEq, Repr

/-- `std::f64::MAX`. -/
def F64_MAX : ℚ := 2 ^ 1024 - 2 ^ 971

/-- dcel.rs `corners_between`. -/
def corners_between (side1 side2 : BoundSide) (bbox : BoundingBox) :
    List (ℚ × ℚ) :=
  let bottom_left := (bbox.min_x, bbox.min_y)
  let bottom_right := (bbox.max_x, bbox.min_y)
  let top_right := (bbox.max_x, bbox.max_y)
  let top_left := (bbox.min_x, bbox.max_y)
  match side1, side2 with
  | .top, .left => [top_left]
  | .top, .bottom => [top_left, bottom_left]
  | .top, .right => [top_left, bottom_left, bottom_right]
  | .left, .bottom => [bottom_left]
  | .left, .right => [bottom_left, bottom_right]
  | .left, .top => [bottom_left, bottom_right, top_right]
  | .bottom, .right => [bottom_right]
  | .bottom, .top => [bottom_right, top_right]
  | .bottom, .left => [bottom_right, top_right, top_left]
  | .right, .top => [top_right]
  | .right, .left => [top_right, top_left]
  | .right, .bottom => [top_right, top_left, bottom_left]
  | _, _ => []

/-- dcel.rs free function `bound` (segment clipping). -/
def bound (segment : LineSegment) (bbox : BoundingBox) : BoundResult :=
  let starts_inside := is_inside segment.start_x segment.start_y bbox
  let ends_inside := is_inside segment.end_x segment.end_y bbox
  if starts_inside ∧ ends_inside then .inside
  else if ¬ starts_inside ∧ ¬ ends_inside then .outside
  else if starts_inside ∧ ¬ ends_inside then
    let dx := segment.end_x - segment.start_x
    let dy := segment.end_y - segment.start_y
    let test_x := if dx < 0 then bbox.min_x else bbox.max_x
    let test_y := if dy < 0 then bbox.min_y else bbox.max_y
    let tx := if equals_with_epsilon dx 0 then F64_MAX
      else (test_x - segment.start_x) / dx
    let ty := if equals_with_epsilon dy 0 then F64_MAX
      else (test_y - segment.start_y) / dy
    let tmin := if tx < ty then tx else ty
    let end_x := segment.start_x + dx * tmin
    let end_y := segment.start_y + dy * tmin
    let side :=
      if dx < 0 ∧ dy < 0 then
        if tx < ty then BoundSide.left else BoundSide.bottom
      else if dx < 0 ∧ dy > 0 then
        if tx < ty then BoundSide.left else BoundSide.top
      else if dx > 0 ∧ dy > 0 then
        if tx < ty then BoundSide.right else BoundSide.top
      else
        if tx < ty then BoundSide.right else BoundSide.bottom
    .intersect end_x end_y side
  else if ¬ starts_inside ∧ ends_inside then
    let dx := segment.start_x - segment.end_x
    let dy := segment.start_y - segment.end_y
    let test_x := if dx < 0 then bbox.min_x else bbox.max_x
    let test_y := if dy < 0 then bbox.min_y else bbox.max_y
    let tx := if equals_with_epsilon dx 0 then F64_MAX
      else (test_x - segment.end_x) / dx
    let ty := if equals_with_epsilon dy 0 then F64_MAX
      else (test_y - segment.end_y) / dy
    let tmax := if tx < ty then tx else ty
    let start_x := segment.end_x + dx * tmax
    let start_y := segment.end_y + dy * tmax
    let side :=
      if dx < 0 ∧ dy < 0 then
        if tx < ty then BoundSide.left else BoundSide.bottom
      else if dx < 0 ∧ dy > 0 then
        if tx < ty then BoundSide.left else BoundSide.top
      else if dx > 0 ∧ dy > 0 then
        if tx < ty then BoundSide.right else BoundSide.top
      else
        if tx < ty then BoundSide.right else BoundSide.bottom
    .intersect start_x start_y side
  else .outside

/-- The repeated side-classification of a point on the box boundary
(appears verbatim twice in `Dcel::bound`). -/
def sideOfPoint (x y : ℚ) (bbox : BoundingBox) : BoundSide :=
  if equals_with_epsilon x bbox.max_x then .right
  else if equals_with_epsilon x bbox.min_x then .left
  else if equals_with_epsilon y bbox.min_y then .top
  else .bottom

/-- The `for (corner_x, corner_y) in corners_between(..)` loop of
`Dcel::bound` (identical in the two places it appears).  Returns the
updated DCEL and the final `out_vertex` and `exiting_edge`. -/
def Dcel.cornerLoop :
    Dcel → List (ℚ × ℚ) → ℕ → ℕ → Except String (Dcel × ℕ × ℕ)
  | d, [], out_vertex, exiting_edge => pure (d, out_vertex, exiting_edge)
  | d, (corner_x, corner_y) :: rest, out_vertex, exiting_edge => do
    let prv := d.create_vertex corner_x corner_y
    let corner := prv.1
    let d := prv.2
    let prt := d.create_twins
    let corner_edge := prt.1.1
    let d := prt.2
    let he ← d.getHE exiting_edge
    let exiting_edge_twin := he.twin
    let d ← d.set_origin corner_edge out_vertex
    let d ← d.set_origin exiting_edge_twin corner
    let d ← d.set_next exiting_edge corner_edge
    Dcel.cornerLoop d rest corner corner_edge

/-- The inner state-machine loop of `Dcel::bound` over one face.  Returns
the updated DCEL and the `should_remove_face` flag. -/
def Dcel.boundLoop (bbox : BoundingBox) (i starting_edge : ℕ) :
    ℕ → Dcel → ℕ → ℕ → ℕ → ℕ → ℕ → BoundSide →
    Except String (Dcel × Bool)
  | 0, _, _, _, _, _, _, _ => .error "fuel exhausted"
  | fuel + 1, d, state, prev_edge, edge, exiting_edge, out_vertex,
      exiting_side => do
    let he ← d.getHE edge
    if he.origin = NIL ∨ he.next = NIL then pure (d, true)
    else do
      let vertex ← d.getVertex he.origin
      let next := he.next
      let nhe ← d.getHE next
      let next_vertex ← d.getVertex nhe.origin
      if state = 0 then
        match bound ⟨vertex.x, vertex.y, next_vertex.x, next_vertex.y⟩
            bbox with
        | .intersect x y side =>
          let prv := d.create_vertex x y
          if next = starting_edge then pure (prv.2, false)
          else
            Dcel.boundLoop bbox i starting_edge fuel prv.2 1 edge next
              edge prv.1 side
        | .outside => do
          let d ← d.set_active edge false
          let he2 ← d.getHE edge
          let ov := he2.origin
          let v ← d.getVertex ov
          let side := sideOfPoint v.x v.y bbox
          if next = starting_edge then pure (d, false)
          else
            Dcel.boundLoop bbox i starting_edge fuel d 1 edge next
              prev_edge ov side
        | .inside =>
          if next = starting_edge then pure (d, false)
          else
            Dcel.boundLoop bbox i starting_edge fuel d state edge next
              exiting_edge out_vertex exiting_side
      else do
        let d ← d.set_active edge false
        match bound ⟨vertex.x, vertex.y, next_vertex.x, next_vertex.y⟩
            bbox with
        | .intersect x y side => do
          let cl ← exceptIte (side ≠ exiting_side)
              (Dcel.cornerLoop d (corners_between exiting_side side bbox)
                out_vertex exiting_edge)
              (pure (d, out_vertex, exiting_edge))
          let d := cl.1
          let out_vertex := cl.2.1
          let exiting_edge := cl.2.2
          let prv := d.create_vertex x y
          let in_vertex := prv.1
          let d := prv.2
          let prb := d.create_twins
          let bbox_edge := prb.1.1
          let bbox_edge_twin := prb.1.2
          let d := prb.2
          let pre := d.create_twins
          let entering_edge := pre.1.1
          let entering_edge_twin := pre.1.2
          let d := pre.2
          let hex ← d.getHE exiting_edge
          let exiting_edge_twin := hex.twin
          let d ← d.set_origin bbox_edge out_vertex
          let d ← d.set_origin bbox_edge_twin in_vertex
          let d ← d.set_next bbox_edge entering_edge
          let d ← d.set_next exiting_edge bbox_edge
          let d ← d.set_origin exiting_edge_twin out_vertex
          let d ← d.set_origin entering_edge in_vertex
          let d ← d.set_next entering_edge next
          let hen ← d.getHE next
          let d ← d.set_origin entering_edge_twin hen.origin
          let d ← d.set_face i entering_edge
          pure (d, false)
        | .inside => do
          let he2 ← d.getHE edge
          let in_vertex := he2.origin
          let v ← d.getVertex in_vertex
          let side := sideOfPoint v.x v.y bbox
          let cl ← exceptIte (side ≠ exiting_side)
              (Dcel.cornerLoop d (corners_between exiting_side side bbox)
                out_vertex exiting_edge)
              (pure (d, out_vertex, exiting_edge))
          let d := cl.1
          let out_vertex := cl.2.1
          let exiting_edge := cl.2.2
          let prb := d.create_twins
          let bbox_edge := prb.1.1
          let bbox_edge_twin := prb.1.2
          let d := prb.2
          let hex ← d.getHE exiting_edge
          let exiting_edge_twin := hex.twin
          let d ← d.set_origin bbox_edge out_vertex
          let he3 ← d.getHE edge
          let d ← d.set_origin bbox_edge_twin he3.origin
          let d ← d.set_next bbox_edge edge
          let d ← d.set_next exiting_edge bbox_edge
          let d ← d.set_origin exiting_edge_twin out_vertex
          let d ← d.set_face i edge
          pure (d, false)
        | .outside =>
          if next = starting_edge then pure (d, false)
          else
            Dcel.boundLoop bbox i starting_edge fuel d state edge next
              exiting_edge out_vertex exiting_side

/-- The starting-edge search loop of `Dcel::bound`.  Returns the starting
edge and the `should_remove_face` flag. -/
def Dcel.findStartingEdge (bbox : BoundingBox) :
    ℕ → Dcel → ℕ → ℕ → Except String (ℕ × Bool)
  | 0, _, _, _ => .error "fuel exhausted"
  | fuel + 1, d, face, starting_edge => do
    let he ← d.getHE starting_edge
    if he.origin = NIL then pure (starting_edge, true)
    else do
      let v ← d.getVertex he.origin
      if is_inside v.x v.y bbox then pure (starting_edge, false)
      else
        let se := he.next
        if se = face ∨ se = NIL then pure (se, true)
        else Dcel.findStartingEdge bbox fuel d face se

/-- One iteration of the outer face loop of `Dcel::bound`. -/
def Dcel.boundFace (bbox : BoundingBox) (fuel : ℕ) (d : Dcel) (i : ℕ) :
    Except String (Dcel × Bool) := do
  let face ← (match d.faces[i]? with
    | some f => pure f
    | none => .error "index panic")
  let se ← Dcel.findStartingEdge bbox fuel d face face
  if se.2 then pure (d, true)
  else
    Dcel.boundLoop bbox i se.1 fuel d 0 NIL se.1 NIL NIL BoundSide.left

/-- The outer face loop of `Dcel::bound`, accumulating
`faces_to_remove`. -/
def Dcel.boundFaces (bbox : BoundingBox) (fuel : ℕ) :
    Dcel → List ℕ → List ℕ → Except String (Dcel × List ℕ)
  | d, [], acc => pure (d, acc)
  | d, i :: rest, acc => do
    let pr ← Dcel.boundFace bbox fuel d i
    Dcel.boundFaces bbox fuel pr.1 rest
      (if pr.2 then acc ++ [i] else acc)

/-- The trailing `for face in faces_to_remove` loop of `Dcel::bound`. -/
def Dcel.removeFaces : Dcel → List ℕ → Dcel
  | d, [] => d
  | d, f :: rest => Dcel.removeFaces { d with faces := d.faces.set f NIL } rest

/-- dcel.rs `Dcel::bound`. -/
def Dcel.bound (bbox : BoundingBox) (fuel : ℕ) (d : Dcel) :
    Except String Dcel := do
  let pr ← Dcel.boundFaces bbox fuel d (List.range d.faces.length) []
  pure (Dcel.removeFaces pr.1 pr.2)

/-! ## The twin pairing invariant -/

def twinAt (d : Dcel) (j : ℕ) : Option ℕ :=
  (d.halfedges[j]?).map HalfEdge.twin

/-- Half-edges come in adjacent pairs `(2k, 2k+1)` twinned to each other:
the table has even length and slot `j` points at its pair partner. -/
def TwinInv (d : Dcel) : Prop :=
  d.halfedges.length % 2 = 0 ∧
  ∀ k, k < d.halfedges.length → ∀ e ∈ d.halfedges[k]?,
    e.twin = if k % 2 = 0 then k + 1 else k - 1

theorem twinInv_of_same {d d2 : Dcel}
    (hlen : d2.halfedges.length = d.halfedges.length)
    (htw : ∀ j, twinAt d2 j = twinAt d j) (h : TwinInv d) : TwinInv d2 := by
  obtain ⟨hpar, hinv⟩ := h
  refine ⟨by rw [hlen]; exact hpar, ?_⟩
  intro k hk e he
  have h2 : twinAt d2 k = some e.twin := by
    unfold twinAt
    rw [Option.mem_def] at he
    rw [he]
    rfl
  rw [htw k] at h2
  unfold twinAt at h2
  rcases hd : d.halfedges[k]? with _ | e2
  · rw [hd] at h2
    cases h2
  · rw [hd] at h2
    have : e2.twin = e.twin := by simpa using h2
    rw [← this]
    exact hinv k (by omega) e2 (by rw [Option.mem_def, hd])

theorem set_origin_same {d d2 : Dcel} {k v : ℕ}
    (h : d.set_origin k v = .ok d2) :
    d2.halfedges.length = d.halfedges.length ∧
      ∀ j, twinAt d2 j = twinAt d j := by
  unfold Dcel.set_origin at h
  split at h
  · rename_i e he
    obtain rfl :
        ({ d with halfedges := d.halfedges.set k { e with origin := v } }
          : Dcel) = d2 := by simpa using h
    refine ⟨by simp, ?_⟩
    intro j
    unfold twinAt
    show ((d.halfedges.set k _)[j]?).map _ = _
    by_cases hj : j = k
    · subst hj
      have hlt : j < d.halfedges.length := by
        by_contra hge
        rw [List.getElem?_eq_none (by omega)] at he
        cases he
      rw [List.getElem?_set_self hlt, he]
      rfl
    · rw [List.getElem?_set_ne (Ne.symm hj)]
  · cases h

theorem set_next_same {d d2 : Dcel} {k v : ℕ}
    (h : d.set_next k v = .ok d2) :
    d2.halfedges.length = d.halfedges.length ∧
      ∀ j, twinAt d2 j = twinAt d j := by
  unfold Dcel.set_next at h
  split at h
  · rename_i e he
    obtain rfl :
        ({ d with halfedges := d.halfedges.set k { e with next := v } }
          : Dcel) = d2 := by simpa using h
    refine ⟨by simp, ?_⟩
    intro j
    unfold twinAt
    show ((d.halfedges.set k _)[j]?).map _ = _
    by_cases hj : j = k
    · subst hj
      have hlt : j < d.halfedges.length := by
        by_contra hge
        rw [List.getElem?_eq_none (by omega)] at he
        cases he
      rw [List.getElem?_set_self hlt, he]
      rfl
    · rw [List.getElem?_set_ne (Ne.symm hj)]
  · cases h

theorem set_active_same {d d2 : Dcel} {k : ℕ} {a : Bool}
    (h : d.set_active k a = .ok d2) :
    d2.halfedges.length = d.halfedges.length ∧
      ∀ j, twinAt d2 j = twinAt d j := by
  unfold Dcel.set_active at h
  split at h
  · rename_i e he
    obtain rfl :
        ({ d with halfedges := d.halfedges.set k { e with active := a } }
          : Dcel) = d2 := by simpa using h
    refine ⟨by simp, ?_⟩
    intro j
    unfold twinAt
    show ((d.halfedges.set k _)[j]?).map _ = _
    by_cases hj : j = k
    · subst hj
      have hlt : j < d.halfedges.length := by
        by_contra hge
        rw [List.getElem?_eq_none (by omega)] at he
        cases he
      rw [List.getElem?_set_self hlt, he]
      rfl
    · rw [List.getElem?_set_ne (Ne.symm hj)]
  · cases h

theorem ensure_face_halfedges {d d2 : Dcel} {f k : ℕ}
    (h : d.ensure_face f k = .ok d2) : d2.halfedges = d.halfedges := by
  unfold Dcel.ensure_face at h
  split at h
  · cases h
  · split at h
    · obtain rfl := Except.ok.inj h
      rfl
    · obtain rfl := Except.ok.inj h.symm
      rfl

theorem set_face_halfedges {d d2 : Dcel} {i v : ℕ}
    (h : d.set_face i v = .ok d2) : d2.halfedges = d.halfedges := by
  unfold Dcel.set_face at h
  split at h
  · obtain rfl := Except.ok.inj h
    rfl
  · cases h

theorem create_twins_spec (d : Dcel) :
    (d.create_twins).1 = (d.halfedges.length, d.halfedges.length + 1) ∧
    (d.create_twins).2.halfedges.length = d.halfedges.length + 2 ∧
    twinAt (d.create_twins).2 d.halfedges.length
      = some (d.halfedges.length + 1) ∧
    twinAt (d.create_twins).2 (d.halfedges.length + 1)
      = some d.halfedges.length ∧
    ∀ j, j < d.halfedges.length →
      twinAt (d.create_twins).2 j = twinAt d j := by
  unfold Dcel.create_twins
  refine ⟨rfl, by simp, ?_, ?_, ?_⟩
  · unfold twinAt
    show ((d.halfedges ++ [_, _])[d.halfedges.length]?).map _ = _
    rw [List.getElem?_append_right (Nat.le_refl _)]
    simp
  · unfold twinAt
    show ((d.halfedges ++ [_, _])[d.halfedges.length + 1]?).map _ = _
    rw [List.getElem?_append_right (by omega)]
    have : d.halfedges.length + 1 - d.halfedges.length = 1 := by omega
    rw [this]
    simp
  · intro j hj
    unfold twinAt
    show ((d.halfedges ++ [_, _])[j]?).map _ = _
    rw [List.getElem?_append_left hj]

theorem create_twins_twinInv {d : Dcel} (h : TwinInv d) :
    TwinInv (d.create_twins).2 := by
  obtain ⟨hpar, hinv⟩ := h
  obtain ⟨-, hlen, hself, hpartner, hold⟩ := create_twins_spec d
  constructor
  · rw [hlen]
    omega
  · intro k hk e he
    rw [hlen] at hk
    have htk : twinAt (d.create_twins).2 k = some e.twin := by
      unfold twinAt
      rw [Option.mem_def] at he
      rw [he]
      rfl
    rcases Nat.lt_trichotomy k d.halfedges.length with hlt | heq | hgt
    · rw [hold k hlt] at htk
      unfold twinAt at htk
      rcases hd : d.halfedges[k]? with _ | e2
      · rw [hd] at htk
        cases htk
      · rw [hd] at htk
        have : e2.twin = e.twin := by simpa using htk
        rw [← this]
        exact hinv k hlt e2 (by rw [Option.mem_def, hd])
    · subst heq
      rw [hself] at htk
      rw [if_pos hpar]
      simpa using htk.symm
    · have heq1 : k = d.halfedges.length + 1 := by omega
      subst heq1
      rw [hpartner] at htk
      have hk2 : (d.halfedges.length + 1) % 2 = 1 := by omega
      rw [if_neg (by omega)]
      have : e.twin = d.halfedges.length := by simpa using htk.symm
      rw [this]
      omega

theorem twinInv_of_halfedges_eq {d d2 : Dcel}
    (h : d2.halfedges = d.halfedges) (hd : TwinInv d) : TwinInv d2 :=
  twinInv_of_same (by rw [h]) (fun j => by unfold twinAt; rw [h]) hd

theorem create_vertex_twinInv {d : Dcel} (x y : ℚ) (hd : TwinInv d) :
    TwinInv (d.create_vertex x y).2 :=
  twinInv_of_same rfl (fun _ => rfl) hd

theorem set_origin_twinInv {d d2 : Dcel} {k v : ℕ}
    (h : d.set_origin k v = .ok d2) (hd : TwinInv d) : TwinInv d2 := by
  obtain ⟨hl, htw⟩ := set_origin_same h
  exact twinInv_of_same hl htw hd

theorem set_next_twinInv {d d2 : Dcel} {k v : ℕ}
    (h : d.set_next k v = .ok d2) (hd : TwinInv d) : TwinInv d2 := by
  obtain ⟨hl, htw⟩ := set_next_same h
  exact twinInv_of_same hl htw hd

theorem set_active_twinInv {d d2 : Dcel} {k : ℕ} {a : Bool}
    (h : d.set_active k a = .ok d2) (hd : TwinInv d) : TwinInv d2 := by
  obtain ⟨hl, htw⟩ := set_active_same h
  exact twinInv_of_same hl htw hd

theorem ensure_face_twinInv {d d2 : Dcel} {f k : ℕ}
    (h : d.ensure_face f k = .ok d2) (hd : TwinInv d) : TwinInv d2 :=
  twinInv_of_halfedges_eq (ensure_face_halfedges h) hd

theorem set_face_twinInv {d d2 : Dcel} {i v : ℕ}
    (h : d.set_face i v = .ok d2) (hd : TwinInv d) : TwinInv d2 :=
  twinInv_of_halfedges_eq (set_face_halfedges h) hd

theorem cornerLoop_twinInv :
    ∀ (cs : List (ℚ × ℚ)) {d : Dcel} {ov ee : ℕ} {r : Dcel × ℕ × ℕ},
      Dcel.cornerLoop d cs ov ee = .ok r → TwinInv d → TwinInv r.1 := by
  intro cs
  induction cs with
  | nil =>
    intro d ov ee r h hd
    obtain rfl := pure_ok h
    exact hd
  | cons c rest ih =>
    intro d ov ee r h hd
    obtain ⟨cx, cy⟩ := c
    unfold Dcel.cornerLoop at h
    obtain ⟨he, _, h⟩ := bind_ok h
    obtain ⟨ta, hta, h⟩ := bind_ok h
    obtain ⟨tb, htb, h⟩ := bind_ok h
    obtain ⟨tc, htc, h⟩ := bind_ok h
    refine ih h ?_
    have hv := create_vertex_twinInv cx cy hd
    have ht1 := create_twins_twinInv hv
    exact set_next_twinInv htc
      (set_origin_twinInv htb (set_origin_twinInv hta ht1))

theorem boundLoop_twinInv (bbox : BoundingBox) (i starting_edge : ℕ) :
    ∀ fuel {d : Dcel} {state prev_edge edge exiting_edge out_vertex : ℕ}
      {exiting_side : BoundSide} {r : Dcel × Bool},
      Dcel.boundLoop bbox i starting_edge fuel d state prev_edge edge
        exiting_edge out_vertex exiting_side = .ok r →
      TwinInv d → TwinInv r.1 := by
  intro fuel
  induction fuel with
  | zero =>
    intro d state pe e ee ov es r h hd
    cases h
  | succ fuel ih =>
    intro d state pe e ee ov es r h hd
    unfold Dcel.boundLoop at h
    obtain ⟨he, _, h⟩ := bind_ok h
    split at h
    · obtain rfl := pure_ok h
      exact hd
    · obtain ⟨vertex, _, h⟩ := bind_ok h
      obtain ⟨nhe, _, h⟩ := bind_ok h
      obtain ⟨nv, _, h⟩ := bind_ok h
      split at h
      · split at h
        · rename_i x y side heq
          split at h
          · obtain rfl := pure_ok h
            exact create_vertex_twinInv x y hd
          · exact ih h (create_vertex_twinInv x y hd)
        · obtain ⟨ta, hta, h⟩ := bind_ok h
          obtain ⟨he2, _, h⟩ := bind_ok h
          obtain ⟨v, _, h⟩ := bind_ok h
          have hta2 := set_active_twinInv hta hd
          split at h
          · obtain rfl := pure_ok h
            exact hta2
          · exact ih h hta2
        · split at h
          · obtain rfl := pure_ok h
            exact hd
          · exact ih h hd
      · obtain ⟨ta, hta, h⟩ := bind_ok h
        have hta2 := set_active_twinInv hta hd
        split at h
        · rename_i x y side heq
          obtain ⟨cl, hcl, h⟩ := bind_ok h
          have hcl2 : TwinInv cl.1 := by
            rcases exceptIte_ok hcl with ⟨_, hcl⟩ | ⟨_, hcl⟩
            · exact cornerLoop_twinInv _ hcl hta2
            · obtain rfl := pure_ok hcl
              exact hta2
          obtain ⟨hex, _, h⟩ := bind_ok h
          obtain ⟨tb, htb, h⟩ := bind_ok h
          obtain ⟨tc, htc, h⟩ := bind_ok h
          obtain ⟨td, htd, h⟩ := bind_ok h
          obtain ⟨te, hte, h⟩ := bind_ok h
          obtain ⟨tf, htf, h⟩ := bind_ok h
          obtain ⟨tg, htg, h⟩ := bind_ok h
          obtain ⟨tj, htj, h⟩ := bind_ok h
          obtain ⟨hen, _, h⟩ := bind_ok h
          obtain ⟨tk, htk, h⟩ := bind_ok h
          obtain ⟨tl, htl, h⟩ := bind_ok h
          obtain rfl := pure_ok h
          have hv := create_vertex_twinInv x y hcl2
          have ht1 := create_twins_twinInv hv
          have ht2 := create_twins_twinInv ht1
          exact set_face_twinInv htl (set_origin_twinInv htk
            (set_next_twinInv htj (set_origin_twinInv htg
              (set_origin_twinInv htf (set_next_twinInv hte
                (set_next_twinInv htd (set_origin_twinInv htc
                  (set_origin_twinInv htb ht2))))))))
        · obtain ⟨he2, _, h⟩ := bind_ok h
          obtain ⟨v, _, h⟩ := bind_ok h
          obtain ⟨cl, hcl, h⟩ := bind_ok h
          have hcl2 : TwinInv cl.1 := by
            rcases exceptIte_ok hcl with ⟨_, hcl⟩ | ⟨_, hcl⟩
            · exact cornerLoop_twinInv _ hcl hta2
            · obtain rfl := pure_ok hcl
              exact hta2
          obtain ⟨hex, _, h⟩ := bind_ok h
          obtain ⟨tb, htb, h⟩ := bind_ok h
          obtain ⟨he3, _, h⟩ := bind_ok h
          obtain ⟨tc, htc, h⟩ := bind_ok h
          obtain ⟨td, htd, h⟩ := bind_ok h
          obtain ⟨te, hte, h⟩ := bind_ok h
          obtain ⟨tf, htf, h⟩ := bind_ok h
          obtain ⟨tg, htg, h⟩ := bind_ok h
          obtain rfl := pure_ok h
          have ht1 := create_twins_twinInv hcl2
          exact set_face_twinInv htg (set_origin_twinInv htf
            (set_next_twinInv hte (set_next_twinInv htd
              (set_origin_twinInv htc (set_origin_twinInv htb ht1)))))
        · split at h
          · obtain rfl := pure_ok h
            exact hta2
          · exact ih h hta2

theorem boundFace_twinInv {bbox : BoundingBox} {fuel : ℕ} {d : Dcel}
    {i : ℕ} {r : Dcel × Bool} (h : Dcel.boundFace bbox fuel d i = .ok r)
    (hd : TwinInv d) : TwinInv r.1 := by
  unfold Dcel.boundFace at h
  obtain ⟨face, _, h⟩ := bind_ok h
  obtain ⟨se, _, h⟩ := bind_ok h
  split at h
  · obtain rfl := pure_ok h
    exact hd
  · exact boundLoop_twinInv bbox i se.1 fuel h hd

theorem boundFaces_twinInv {bbox : BoundingBox} {fuel : ℕ} :
    ∀ (is : List ℕ) {d : Dcel} {acc : List ℕ} {r : Dcel × List ℕ},
      Dcel.boundFaces bbox fuel d is acc = .ok r →
      TwinInv d → TwinInv r.1 := by
  intro is
  induction is with
  | nil =>
    intro d acc r h hd
    obtain rfl := pure_ok h
    exact hd
  | cons i rest ih =>
    intro d acc r h hd
    unfold Dcel.boundFaces at h
    obtain ⟨pr, hpr, h⟩ := bind_ok h
    exact ih h (boundFace_twinInv hpr hd)

theorem removeFaces_halfedges :
    ∀ (l : List ℕ) (d : Dcel),
      (Dcel.removeFaces d l).halfedges = d.halfedges := by
  intro l
  induction l with
  | nil => intro d; rfl
  | cons f rest ih =>
    intro d
    unfold Dcel.removeFaces
    rw [ih]

theorem bound_twinInv {bbox : BoundingBox} {fuel : ℕ} {d d2 : Dcel}
    (h : Dcel.bound bbox fuel d = .ok d2) (hd : TwinInv d) : TwinInv d2 := by
  unfold Dcel.bound at h
  obtain ⟨pr, hpr, h⟩ := bind_ok h
  obtain rfl := pure_ok h
  exact twinInv_of_halfedges_eq (removeFaces_halfedges pr.2 pr.1)
    (boundFaces_twinInv _ hpr hd)

/-- Claim C8: half-edges are only ever created in pairs at adjacent
indices `(2k, 2k+1)` whose twin fields reference each other —
`create_twins` returns `(len, len+1)`, mutually twinned — and the pairing
invariant (hence `twin (twin e) = e` for every half-edge) holds of a fresh
DCEL and is preserved by every DCEL operation, including the clipping pass
`bound`, which never reassigns a twin field. -/
theorem c8_twin_pairing_invariant :
    (∀ n, TwinInv (Dcel.new n)) ∧
    (∀ d : Dcel,
      (d.create_twins).1 = (d.halfedges.length, d.halfedges.length + 1) ∧
      twinAt (d.create_twins).2 d.halfedges.length
        = some (d.halfedges.length + 1) ∧
      twinAt (d.create_twins).2 (d.halfedges.length + 1)
        = some d.halfedges.length ∧
      (TwinInv d → TwinInv (d.create_twins).2)) ∧
    (∀ (d d2 : Dcel) (k v : ℕ),
      d.set_origin k v = .ok d2 → TwinInv d → TwinInv d2) ∧
    (∀ (d d2 : Dcel) (k v : ℕ),
      d.set_next k v = .ok d2 → TwinInv d → TwinInv d2) ∧
    (∀ (d d2 : Dcel) (f k : ℕ),
      d.ensure_face f k = .ok d2 → TwinInv d → TwinInv d2) ∧
    (∀ (d : Dcel) (x y : ℚ), TwinInv d → TwinInv (d.create_vertex x y).2) ∧
    (∀ (bbox : BoundingBox) (fuel : ℕ) (d d2 : Dcel),
      Dcel.bound bbox fuel d = .ok d2 → TwinInv d → TwinInv d2) ∧
    (∀ d : Dcel, TwinInv d → ∀ k, k < d.halfedges.length →
      ∃ tw, twinAt d k = some tw ∧ twinAt d tw = some k) := by
  refine ⟨?_, ?_, ?_, ?_, ?_, ?_, ?_, ?_⟩
  · intro n
    exact ⟨rfl, fun k hk e he => absurd hk (by simp [Dcel.new])⟩
  · intro d
    obtain ⟨h1, h2, h3, h4, h5⟩ := create_twins_spec d
    exact ⟨h1, h3, h4, create_twins_twinInv⟩
  · intro d d2 k v h hd
    exact set_origin_twinInv h hd
  · intro d d2 k v h hd
    exact set_next_twinInv h hd
  · intro d d2 f k h hd
    exact ensure_face_twinInv h hd
  · intro d x y hd
    exact create_vertex_twinInv x y hd
  · intro bbox fuel d d2 h hd
    exact bound_twinInv h hd
  · intro d hd k hk
    obtain ⟨hpar, hinv⟩ := hd
    obtain ⟨e, he⟩ : ∃ e, d.halfedges[k]? = some e :=
      ⟨_, List.getElem?_eq_getElem hk⟩
    have hek := hinv k hk e (by rw [Option.mem_def, he])
    by_cases hkp : k % 2 = 0
    · rw [if_pos hkp] at hek
      have hlt : k + 1 < d.halfedges.length := by omega
      obtain ⟨e2, he2⟩ : ∃ e2, d.halfedges[k + 1]? = some e2 :=
        ⟨_, List.getElem?_eq_getElem hlt⟩
      have he2k := hinv (k + 1) hlt e2 (by rw [Option.mem_def, he2])
      rw [if_neg (by omega)] at he2k
      refine ⟨k + 1, ?_, ?_⟩
      · unfold twinAt
        rw [he]
        simp [hek]
      · unfold twinAt
        rw [he2]
        simp [he2k]
    · rw [if_neg hkp] at hek
      have hlt : k - 1 < d.halfedges.length := by omega
      obtain ⟨e2, he2⟩ : ∃ e2, d.halfedges[k - 1]? = some e2 :=
        ⟨_, List.getElem?_eq_getElem hlt⟩
      have he2k := hinv (k - 1) hlt e2 (by rw [Option.mem_def, he2])
      rw [if_pos (by omega)] at he2k
      refine ⟨k - 1, ?_, ?_⟩
      · unfold twinAt
        rw [he]
        simp [hek]
      · unfold twinAt
        rw [he2]
        simp [he2k]
        omega

def dW : Dcel := (Dcel.new 1).create_twins.2

/-- Witness for the C8 theorem: a fresh one-face DCEL satisfies the
pairing invariant, still does after one `create_twins`, and the new
half-edge 0 is twinned with a partner that points back at it. -/
theorem c8_twin_pairing_invariant_witness :
    TwinInv (Dcel.new 1) ∧ TwinInv dW ∧
      ∃ tw, twinAt dW 0 = some tw ∧ twinAt dW tw = some 0 := by
  have h1 := c8_twin_pairing_invariant.1 1
  have h2 := (c8_twin_pairing_invariant.2.1 (Dcel.new 1)).2.2.2 h1
  exact ⟨h1, h2,
    c8_twin_pairing_invariant.2.2.2.2.2.2.2 dW h2 0 (by decide)⟩

/-! ## The sweep coordinator (lib.rs) -/

inductive Edge where
  | half (x y dx dy : ℚ)
  | full (x1 y1 x2 y2 : ℚ)
  deriving DecidableEq, Repr

def alistGet {κ ν : Type} [DecidableEq κ] : List (κ × ν) → κ → Option ν
  | [], _ => none
  | p :: m, k => if p.1 = k then some p.2 else alistGet m k

def alistErase {κ ν : Type} [DecidableEq κ] :
    List (κ × ν) → κ → List (κ × ν)
  | [], _ => []
  | p :: m, k => if p.1 = k then alistErase m k else p :: alistErase m k

def alistInsert {κ ν : Type} [DecidableEq κ] (m : List (κ × ν)) (k : κ)
    (v : ν) : List (κ × ν) :=
  (k, v) :: alistErase m k

structure Voronoi where
  events : EventQueue
  sites : List Site
  beach : BeachLine Site
  events_by_beach_segment : List (ℕ × ℕ)
  edges_by_site_pair : List ((ℕ × ℕ) × Edge)
  dcel : Dcel
  halfedges_by_site_pair : List ((ℕ × ℕ) × ℕ)

/-- lib.rs `Voronoi::new` (sites as `(x, y)` pairs, indexed in order). -/
def Voronoi.mk_new (sites : List (ℚ × ℚ)) : Voronoi :=
  { events := EventQueue.new,
    sites := sites.enum.map fun p => ⟨p.2.1, p.2.2, p.1⟩,
    beach := BeachLine.new,
    events_by_beach_segment := [],
    edges_by_site_pair := [],
    dcel := Dcel.new sites.length,
    halfedges_by_site_pair := [] }

/-- The `while` loop of beachline.rs `search`. -/
def BeachLine.searchLoop {α : Type} (t : BeachLine α)
    (cmp : ℕ → Except String Ordering) :
    ℕ → ℕ → Except String ℕ
  | 0, _ => .error "fuel exhausted"
  | fuel + 1, current =>
    if current = NULL then pure NULL
    else do
      let r ← cmp current
      match r with
      | .lt => do
        let n ← t.getNode current
        BeachLine.searchLoop t cmp fuel n.left
      | .gt => do
        let n ← t.getNode current
        BeachLine.searchLoop t cmp fuel n.right
      | .eq => pure current

/-- beachline.rs `search`. -/
def BeachLine.search {α : Type} (fuel : ℕ) (t : BeachLine α)
    (cmp : ℕ → Except String Ordering) : Except String ℕ :=
  BeachLine.searchLoop t cmp fuel t.root

/-- The comparator closure built in the `Event::Site` branch of
`Voronoi::run`. -/
def siteComparator (sqrtF : ℚ → ℚ) (fuel : ℕ) (beach : BeachLine Site)
    (x y : ℚ) (ptr : ℕ) : Except String Ordering := do
  let site ← beach.get ptr
  let left_ptr ← BeachLine.predecessor fuel beach ptr
  let left_breakpoint ← exceptIte (left_ptr = NULL) (pure (-F64_MAX))
      (do
        let left ← beach.get left_ptr
        pure (breakpoint_between sqrtF left.x left.y site.x site.y y))
  if x < left_breakpoint then pure Ordering.lt
  else do
    let right_ptr ← BeachLine.successor fuel beach ptr
    let right_breakpoint ← exceptIte (right_ptr = NULL) (pure F64_MAX)
        (do
          let right ← beach.get right_ptr
          pure (breakpoint_between sqrtF site.x site.y right.x right.y y))
    if x > right_breakpoint then pure Ordering.gt
    else pure Ordering.eq

/-- lib.rs `Voronoi::create_vertex_event`. -/
def Voronoi.create_vertex_event (sqrtF : ℚ → ℚ) (fuel : ℕ) (v : Voronoi)
    (segment : ℕ) : Except String Voronoi :=
  match mapGet v.events_by_beach_segment segment with
  | some _ => .error "Creating an already-existing vertex event"
  | none => do
    let left ← BeachLine.predecessor fuel v.beach segment
    let right ← BeachLine.successor fuel v.beach segment
    if left = NULL ∨ right = NULL then pure v
    else do
      let left_site ← v.beach.get left
      let middle_site ← v.beach.get segment
      let right_site ← v.beach.get right
      if (middle_site.y - left_site.y) * (right_site.x - middle_site.x) -
          (right_site.y - middle_site.y) * (middle_site.x - left_site.x)
          > 0 then
        pure v
      else
        match find_center sqrtF left_site.x left_site.y middle_site.x
            middle_site.y right_site.x right_site.y with
        | none => pure v
        | some (cx, cy, rad) => do
          let pr ← v.events.insert (Event.vertex segment cx (cy + rad) rad)
          pure ({ v with
            events := pr.2,
            events_by_beach_segment :=
              mapInsert v.events_by_beach_segment segment pr.1 } : Voronoi)

/-- lib.rs `Voronoi::delete_vertex_event`. -/
def Voronoi.delete_vertex_event (v : Voronoi) (segment : ℕ) :
    Except String Voronoi :=
  match mapGet v.events_by_beach_segment segment with
  | some event_handle => do
    let pr ← v.events.delete event_handle
    pure ({ v with
      events := pr.2,
      events_by_beach_segment :=
        mapErase v.events_by_beach_segment segment } : Voronoi)
  | none => pure v

/-- lib.rs `Voronoi::create_halfedges`. -/
def Voronoi.create_halfedges (v : Voronoi) (left right : Site) :
    Except String ((ℕ × ℕ) × Voronoi) :=
  match alistGet v.halfedges_by_site_pair (left.id, right.id) with
  | some _ => .error "Edge already exists"
  | none => do
    let pr := v.dcel.create_twins
    let edge := pr.1.1
    let twin := pr.1.2
    let hmap := alistInsert
      (alistInsert v.halfedges_by_site_pair (left.id, right.id) edge)
      (right.id, left.id) twin
    let d ← pr.2.ensure_face left.id edge
    let d ← d.ensure_face right.id twin
    pure ((edge, twin),
      { v with dcel := d, halfedges_by_site_pair := hmap })

/-- lib.rs `Voronoi::get_halfedge`. -/
def Voronoi.get_halfedge (v : Voronoi) (left right : Site) :
    Except String ℕ :=
  match alistGet v.halfedges_by_site_pair (left.id, right.id) with
  | some halfedge => pure halfedge
  | none => .error "Tried getting a non-existant halfedge"

/-- lib.rs `Voronoi::add_vertex_to_edge`. -/
def Voronoi.add_vertex_to_edge (v : Voronoi) (a b : Site) (x y : ℚ) :
    Voronoi :=
  let old := alistGet v.edges_by_site_pair (a.id, b.id)
  let m2 := alistErase v.edges_by_site_pair (a.id, b.id)
  let new_edge := match old with
    | some (Edge.half other_x other_y _ _) => Edge.full other_x other_y x y
    | some e => e
    | none => Edge.half x y (b.y - a.y) (a.x - b.x)
  { v with edges_by_site_pair := alistInsert m2 (a.id, b.id) new_edge }

def unwrapSite (o : Option Site) : Except String Site :=
  match o with
  | some s => pure s
  | none => .error "called unwrap on a None value"

/-- The body of the `while self.events.len() > 0` loop of `Voronoi::run`,
recursing on fuel. -/
def Voronoi.loop (sqrtF : ℚ → ℚ) : ℕ → Voronoi → Except String Voronoi
  | 0, _ => .error "fuel exhausted"
  | fuel + 1, v =>
    if v.events.len > 0 then do
      let pp ← v.events.pop
      let v : Voronoi := { v with events := pp.2 }
      match pp.1 with
      | some (Event.site site) => do
        let segment_to_split ← BeachLine.search fuel v.beach
          (siteComparator sqrtF fuel v.beach site.x site.y)
        let v ← v.delete_vertex_event segment_to_split
        let left_segment := segment_to_split
        let pr1 ← BeachLine.insert_after fuel v.beach segment_to_split site
        let middle_segment := pr1.1
        let v : Voronoi := { v with beach := pr1.2 }
        let s2 ← v.beach.get segment_to_split
        let pr2 ← BeachLine.insert_after fuel v.beach middle_segment s2
        let right_segment := pr2.1
        let v : Voronoi := { v with beach := pr2.2 }
        let v ← Voronoi.create_vertex_event sqrtF fuel v left_segment
        let v ← Voronoi.create_vertex_event sqrtF fuel v right_segment
        let s3 ← v.beach.get segment_to_split
        let pr3 ← v.create_halfedges site s3
        Voronoi.loop sqrtF fuel pr3.2
      | some (Event.vertex middle ex ey rad) => do
        let v : Voronoi :=
          { v with events_by_beach_segment :=
              mapErase v.events_by_beach_segment middle }
        let left ← BeachLine.predecessor fuel v.beach middle
        let right ← BeachLine.successor fuel v.beach middle
        let pq ← BeachLine.delete fuel v.beach middle
        let middle_site ← unwrapSite pq.1
        let v : Voronoi := { v with beach := pq.2 }
        let v ← v.delete_vertex_event left
        let v ← v.delete_vertex_event right
        let v ← Voronoi.create_vertex_event sqrtF fuel v left
        let v ← Voronoi.create_vertex_event sqrtF fuel v right
        let vertex_x := ex
        let vertex_y := ey - rad
        let left_site ← v.beach.get left
        let right_site ← v.beach.get right
        let lm ← v.get_halfedge left_site middle_site
        let mr ← v.get_halfedge middle_site right_site
        let lm_twin ← v.dcel.get_twin lm
        let mr_twin ← v.dcel.get_twin mr
        let prv := v.dcel.create_vertex vertex_x vertex_y
        let vertex := prv.1
        let v : Voronoi := { v with dcel := prv.2 }
        let prRL ← v.create_halfedges right_site left_site
        let rl := prRL.1.1
        let rl_twin := prRL.1.2
        let v := prRL.2
        let d ← v.dcel.set_origin lm_twin vertex
        let d ← d.set_origin mr_twin vertex
        let d ← d.set_origin rl_twin vertex
        let d ← d.set_next lm rl_twin
        let d ← d.set_next mr lm_twin
        let d ← d.set_next rl mr_twin
        let v : Voronoi := { v with dcel := d }
        let v := v.add_vertex_to_edge left_site middle_site vertex_x vertex_y
        let v := v.add_vertex_to_edge middle_site right_site vertex_x vertex_y
        let v := v.add_vertex_to_edge right_site left_site vertex_x vertex_y
        Voronoi.loop sqrtF fuel v
      | none => Voronoi.loop sqrtF fuel v
    else pure v

/-- The seeding `for site in self.sites` loop of `Voronoi::run`. -/
def Voronoi.seed : EventQueue → List Site → Except String EventQueue
  | q, [] => pure q
  | q, s :: rest => do
    let pr ← q.insert (Event.site s)
    Voronoi.seed pr.2 rest

/-- lib.rs `Voronoi::run`. -/
def Voronoi.run (sqrtF : ℚ → ℚ) (fuel : ℕ) (v : Voronoi) :
    Except String Dcel := do
  let q ← Voronoi.seed v.events v.sites
  let v : Voronoi := { v with events := q }
  let pp ← v.events.pop
  let v : Voronoi := { v with events := pp.2 }
  match pp.1 with
  | some (Event.site site) => do
    let b ← BeachLine.init fuel v.beach site
    let v : Voronoi := { v with beach := b }
    let v ← Voronoi.loop sqrtF fuel v
    pure v.dcel
  | _ => pure v.dcel

/-- lib.rs `Voronoi::build`. -/
def Voronoi.build (sqrtF : ℚ → ℚ) (fuel : ℕ) (sites : List (ℚ × ℚ)) :
    Except String Dcel :=
  Voronoi.run sqrtF fuel (Voronoi.mk_new sites)

/-- Claim C9: on the empty input site list, `build` returns without
panicking and yields an empty diagram — a DCEL with no vertices, no
half-edges, and an empty face table.  (No events are seeded, the first
`pop` yields nothing, and `run` returns the untouched `Dcel::new 0`.) -/
theorem c9_empty_input_empty_diagram (sqrtF : ℚ → ℚ) (fuel : ℕ) :
    Voronoi.build sqrtF fuel [] = .ok ⟨[], [], []⟩ := rfl

theorem bind_ok_eval {A B : Type} (a : A) (f : A → Except String B) :
    ((Except.ok a : Except String A) >>= f) = f a := rfl

/-- Claim C5: `create_vertex_event` for arc `segment` with neighbours
`l`, `r` panics when a circle event is already recorded for the arc in
the arc-to-event map; otherwise it schedules nothing when a neighbour is
missing, when the triple is clockwise
(`(m.y−l.y)(r.x−m.x)−(r.y−m.y)(m.x−l.x) > 0`), or when `find_center` is
degenerate; in the remaining case it inserts exactly one circle event,
whose happens-at point is `(cx, cy + rad)`, and records its handle under
the arc. -/
theorem c5_create_vertex_event_characterization
    (sqrtF : ℚ → ℚ) (fuel : ℕ) (v : Voronoi) (segment : ℕ) :
    ((mapGet v.events_by_beach_segment segment).isSome →
      Voronoi.create_vertex_event sqrtF fuel v segment =
        .error "Creating an already-existing vertex event") ∧
    (∀ l r, mapGet v.events_by_beach_segment segment = none →
      BeachLine.predecessor fuel v.beach segment = .ok l →
      BeachLine.successor fuel v.beach segment = .ok r →
      (l = NULL ∨ r = NULL) →
      Voronoi.create_vertex_event sqrtF fuel v segment = .ok v) ∧
    (∀ l r ls ms rs, mapGet v.events_by_beach_segment segment = none →
      BeachLine.predecessor fuel v.beach segment = .ok l →
      BeachLine.successor fuel v.beach segment = .ok r →
      ¬ (l = NULL ∨ r = NULL) →
      v.beach.get l = .ok ls → v.beach.get segment = .ok ms →
      v.beach.get r = .ok rs →
      (ms.y - ls.y) * (rs.x - ms.x) - (rs.y - ms.y) * (ms.x - ls.x) > 0 →
      Voronoi.create_vertex_event sqrtF fuel v segment = .ok v) ∧
    (∀ l r ls ms rs, mapGet v.events_by_beach_segment segment = none →
      BeachLine.predecessor fuel v.beach segment = .ok l →
      BeachLine.successor fuel v.beach segment = .ok r →
      ¬ (l = NULL ∨ r = NULL) →
      v.beach.get l = .ok ls → v.beach.get segment = .ok ms →
      v.beach.get r = .ok rs →
      ¬ ((ms.y - ls.y) * (rs.x - ms.x) - (rs.y - ms.y) * (ms.x - ls.x)
        > 0) →
      find_center sqrtF ls.x ls.y ms.x ms.y rs.x rs.y = none →
      Voronoi.create_vertex_event sqrtF fuel v segment = .ok v) ∧
    (∀ l r ls ms rs cx cy rad hdl q2,
      mapGet v.events_by_beach_segment segment = none →
      BeachLine.predecessor fuel v.beach segment = .ok l →
      BeachLine.successor fuel v.beach segment = .ok r →
      ¬ (l = NULL ∨ r = NULL) →
      v.beach.get l = .ok ls → v.beach.get segment = .ok ms →
      v.beach.get r = .ok rs →
      ¬ ((ms.y - ls.y) * (rs.x - ms.x) - (rs.y - ms.y) * (ms.x - ls.x)
        > 0) →
      find_center sqrtF ls.x ls.y ms.x ms.y rs.x rs.y
        = some (cx, cy, rad) →
      v.events.insert (Event.vertex segment cx (cy + rad) rad)
        = .ok (hdl, q2) →
      Voronoi.create_vertex_event sqrtF fuel v segment =
        .ok { v with
              events := q2,
              events_by_beach_segment :=
                mapInsert v.events_by_beach_segment segment hdl } ∧
      (Event.vertex segment cx (cy + rad) rad).happens_at
        = (cx, cy + rad)) := by
  refine ⟨?_, ?_, ?_, ?_, ?_⟩
  · intro hsome
    obtain ⟨e, he⟩ := Option.isSome_iff_exists.mp hsome
    unfold Voronoi.create_vertex_event
    rw [he]
  · intro l r hmap hl hr hnull
    unfold Voronoi.create_vertex_event
    rw [hmap]
    simp only [hl, hr, bind_ok_eval]
    rw [if_pos hnull]
    rfl
  · intro l r ls ms rs hmap hl hr hnull hls hms hrs hcw
    unfold Voronoi.create_vertex_event
    rw [hmap]
    simp only [hl, hr, hls, hms, hrs, bind_ok_eval]
    rw [if_neg hnull, if_pos hcw]
    rfl
  · intro l r ls ms rs hmap hl hr hnull hls hms hrs hcw hfc
    unfold Voronoi.create_vertex_event
    rw [hmap]
    simp only [hl, hr, hls, hms, hrs, bind_ok_eval]
    rw [if_neg hnull, if_neg hcw, hfc]
    rfl
  · intro l r ls ms rs cx cy rad hdl q2 hmap hl hr hnull hls hms hrs hcw
      hfc hins
    refine ⟨?_, rfl⟩
    unfold Voronoi.create_vertex_event
    rw [hmap]
    simp only [hl, hr, hls, hms, hrs, bind_ok_eval]
    rw [if_neg hnull, if_neg hcw, hfc]
    simp only [hins, bind_ok_eval]
    rfl

/-- Three beach arcs: the root arc holds site (6, 0), its predecessor
holds (0, 0) and its successor holds (0, 8). -/
def beachW : BeachLine Site :=
  ⟨⟨[.occupied ⟨Color.black, NULL, 1, 2, ⟨6, 0, 1⟩⟩,
     .occupied ⟨Color.red, 0, NULL, NULL, ⟨0, 0, 0⟩⟩,
     .occupied ⟨Color.red, 0, NULL, NULL, ⟨0, 8, 2⟩⟩], 3⟩, 0⟩

def vW5 : Voronoi :=
  { events := EventQueue.new, sites := [], beach := beachW,
    events_by_beach_segment := [], edges_by_site_pair := [],
    dcel := Dcel.new 0, halfedges_by_site_pair := [] }

/-- Witness for the C5 theorem, at the scheduling case: the triple
(0,0), (6,0), (0,8) is counter-clockwise with circumcenter (3, 4) and
radius 5, so one circle event with happens-at point (3, 4 + 5) is
inserted and its handle recorded. -/
theorem c5_create_vertex_event_witness :
    Voronoi.create_vertex_event sqrtT 5 vW5 0 =
      .ok { vW5 with
            events := ⟨⟨[.occupied (Event.vertex 0 3 (4 + 5) 5)], 1⟩,
              [0], [(0, 0)]⟩,
            events_by_beach_segment := [(0, 0)] } ∧
    (Event.vertex 0 3 (4 + 5) 5).happens_at = (3, 4 + 5) :=
  (c5_create_vertex_event_characterization sqrtT 5 vW5 0).2.2.2.2
    1 2 ⟨0, 0, 0⟩ ⟨6, 0, 1⟩ ⟨0, 8, 2⟩ 3 4 5 0
    ⟨⟨[.occupied (Event.vertex 0 3 (4 + 5) 5)], 1⟩, [0], [(0, 0)]⟩
    rfl rfl rfl (by decide) rfl rfl rfl (by norm_num)
    (by norm_num [find_center, sqrtT, EPSILON])
    (by norm_num [vW5, EventQueue.insert, EventQueue.new, Slab.insert,
      Slab.new, mapInsert, mapErase, EventQueue.heapify_up, heapParent,
      NULL, EventQueue.ltAt, EventQueue.eventAt, Slab.get, EventQueue.swap,
      Event.cmp, Event.happens_at, equals_with_epsilon, EPSILON])

/-- The `Event::Vertex(middle, x, y, rad)` branch of `Voronoi::run`
computes `vertex_x = x` and `vertex_y = y - rad` and creates the DCEL
vertex there. -/
def vertexPositionOf (x y rad : ℚ) : ℚ × ℚ := (x, y - rad)

/-- Claim C1 (amended): when `create_vertex_event` schedules a circle
event for a circumcenter `(cx, cy)` with radius `rad`, the stored event is
`Vertex(segment, cx, cy + rad, rad)`, whose priority point is
`(cx, cy + rad)`; when that event fires, the coordinator subtracts the
stored radius to get `vertex_y = (cy + rad) - rad`, so it creates the
DCEL vertex at `(cx, cy)` — the circumcenter itself — and not at
`(cx, cy - rad)` as the claim and spec state (they differ whenever
`rad ≠ 0`). -/
theorem c1_vertex_position_amended
    (sqrtF : ℚ → ℚ) (fuel : ℕ) (v : Voronoi) (segment : ℕ)
    (l r : ℕ) (ls ms rs : Site) (cx cy rad : ℚ) (hdl : ℕ)
    (q2 : EventQueue)
    (hmap : mapGet v.events_by_beach_segment segment = none)
    (hl : BeachLine.predecessor fuel v.beach segment = .ok l)
    (hr : BeachLine.successor fuel v.beach segment = .ok r)
    (hnull : ¬ (l = NULL ∨ r = NULL))
    (hls : v.beach.get l = .ok ls) (hms : v.beach.get segment = .ok ms)
    (hrs : v.beach.get r = .ok rs)
    (hcw : ¬ ((ms.y - ls.y) * (rs.x - ms.x)
      - (rs.y - ms.y) * (ms.x - ls.x) > 0))
    (hfc : find_center sqrtF ls.x ls.y ms.x ms.y rs.x rs.y
      = some (cx, cy, rad))
    (hins : v.events.insert (Event.vertex segment cx (cy + rad) rad)
      = .ok (hdl, q2)) :
    Voronoi.create_vertex_event sqrtF fuel v segment =
      .ok { v with
            events := q2,
            events_by_beach_segment :=
              mapInsert v.events_by_beach_segment segment hdl } ∧
    (Event.vertex segment cx (cy + rad) rad).happens_at = (cx, cy + rad) ∧
    vertexPositionOf cx (cy + rad) rad = (cx, cy) ∧
    (rad ≠ 0 → vertexPositionOf cx (cy + rad) rad ≠ (cx, cy - rad)) := by
  refine ⟨?_, rfl, ?_, ?_⟩
  · unfold Voronoi.create_vertex_event
    rw [hmap]
    simp only [hl, hr, hls, hms, hrs, bind_ok_eval]
    rw [if_neg hnull, if_neg hcw, hfc]
    simp only [hins, bind_ok_eval]
    rfl
  · simp only [vertexPositionOf, Prod.mk.injEq, true_and]
    ring
  · intro hrad hcontra
    simp only [vertexPositionOf, Prod.mk.injEq, true_and] at hcontra
    apply hrad
    linarith

/-- Claim C1 (counterexample to the unamended claim): for sites (0,0),
(6,0), (0,8) the circumcenter is (3,4) with radius 5; the fired vertex is
at the circumcenter (3,4), not at (cx, cy − r) = (3, −1). -/
theorem c1_vertex_position_counterexample :
    find_center sqrtT 0 0 6 0 0 8 = some (3, 4, 5) ∧
    vertexPositionOf 3 (4 + 5) 5 = (3, 4) ∧
    vertexPositionOf 3 (4 + 5) 5 ≠ (3, 4 - 5) := by
  refine ⟨by norm_num [find_center, sqrtT, EPSILON],
    by norm_num [vertexPositionOf], by norm_num [vertexPositionOf]⟩

/-- Witness for the amended C1 theorem, at the concrete sites (0,0),
(6,0), (0,8). -/
theorem c1_vertex_position_amended_witness :
    Voronoi.create_vertex_event sqrtT 5 vW5 0 =
      .ok { vW5 with
            events := ⟨⟨[.occupied (Event.vertex 0 3 (4 + 5) 5)], 1⟩,
              [0], [(0, 0)]⟩,
            events_by_beach_segment := [(0, 0)] } ∧
    (Event.vertex 0 3 (4 + 5) 5).happens_at = (3, 4 + 5) ∧
    vertexPositionOf 3 (4 + 5) 5 = (3, 4) ∧
    vertexPositionOf 3 (4 + 5) 5 ≠ (3, 4 - 5) := by
  have h := c1_vertex_position_amended sqrtT 5 vW5 0 1 2
    ⟨0, 0, 0⟩ ⟨6, 0, 1⟩ ⟨0, 8, 2⟩ 3 4 5 0
    ⟨⟨[.occupied (Event.vertex 0 3 (4 + 5) 5)], 1⟩, [0], [(0, 0)]⟩
    rfl rfl rfl (by decide) rfl rfl rfl (by norm_num)
    (by norm_num [find_center, sqrtT, EPSILON])
    (by norm_num [vW5, EventQueue.insert, EventQueue.new, Slab.insert,
      Slab.new, mapInsert, mapErase, EventQueue.heapify_up, heapParent,
      NULL, EventQueue.ltAt, EventQueue.eventAt, Slab.get, EventQueue.swap,
      Event.cmp, Event.happens_at, equals_with_epsilon, EPSILON])
  exact ⟨h.1, h.2.1, h.2.2.1, h.2.2.2 (by norm_num)⟩

end Voro
